import Mathlib

/-!
# Kinematic chain model of the hexapod leg (src/src/model.cpp, src/src/main.cpp)

Shallow embedding of `Model`/`Leg`/`Joint`/`Link`/`Tip` from `src/src/model.cpp`, and of the
compensation waveforms `getPitchCompensation`/`getTiltCompensation` and the body of the
position update loop from `src/src/main.cpp`.

* `double` is modelled by an arbitrary linearly ordered field `K` (the definitions are
  computable and can be run at `K = ℚ`; every theorem also holds at `K = ℝ`).
* `std::map<int, T*>` is modelled by a key-sorted association list `List (Nat × T)`.
* A pointer to a `Joint`/`Link` owned by the leg is modelled by the key under which the
  object is stored in the leg's container; dereferencing is a lookup and may fail
  (`Option`), which is how the uninitialised `null_joint` pointer of the base link shows.
* Functions, macros and types declared in the headers (which are not part of `src/`) are
  parameters, collected in `Helpers`, `Parameters` and `Indeterminate`.
* `ROS_WARN`/`ROS_FATAL` output is modelled by a list of `LogEvent`s (`ROS_DEBUG` output,
  which is pure formatting, is not modelled).
* A local that is returned without having been assigned (`pitch`, `roll` of the waveform
  functions) is modelled by `none`.
* Where rounding decides which branch runs (the keypoints of the compensation waveforms), the
  functions are also given over the arithmetic of `double` as a parameter (`DoubleArith`),
  with exact arithmetic and IEEE 754 binary64 (`binary64`) as instances; NaN and the
  infinities are outside this model.
-/

namespace Syropod

/-! ## Linear algebra types (Eigen) -/

/-- Eigen `Vector3d`. -/
abbrev Vector3d (K : Type) := Fin 3 → K

/-- Eigen `Vector4d`. -/
abbrev Vector4d (K : Type) := Fin 4 → K

/-- Eigen `Matrix4d`. -/
abbrev Matrix4d (K : Type) := Matrix (Fin 4) (Fin 4) K

/-- Eigen `Matrix3d`. -/
abbrev Matrix3d (K : Type) := Matrix (Fin 3) (Fin 3) K

/-! ## Data model -/

/-- Modelled from the spec: the enumeration of the leg states is declared in a header that is
not in `src/`; the spec names the two states `WALKING` and `MANUAL`. -/
inductive LegState where
  | WALKING
  | MANUAL
  deriving DecidableEq, Repr

/-- One entry of `dh_parameters`: the `map<string,double>` with keys "d", "theta", "r",
"alpha" built in `updateTipForce` and `applyIK`. -/
structure DHParameters (K : Type) where
  d : K
  theta : K
  r : K
  alpha : K

/-- The `Link` data object. `actuating_joint` is the pointer to the joint, as the key of that
joint in `joint_container_`; `none` is the uninitialised `null_joint` pointer. -/
structure Link (K : Type) where
  id_number : Nat
  name : String
  actuating_joint : Option Nat
  length : K
  angle : K
  offset : K
  twist : K

/-- The `Joint` data object. `reference_link` is the pointer to the link, as the key of that
link in `link_container_`. -/
structure Joint (K : Type) where
  id_number : Nat
  name : String
  reference_link : Nat
  position_offset : K
  min_position : K
  max_position : K
  packed_position : K
  unpacked_position : K
  max_angular_speed : K
  current_position : K
  current_velocity : K
  current_effort : K
  desired_position : K
  prev_desired_position : K
  transform : Matrix4d K

/-- The `Tip` data object. -/
structure Tip (K : Type) where
  name : String
  reference_link : Nat
  transform : Matrix4d K

/-- The `Leg` data object (the members `model.cpp` reads or writes). `num_joints_` is an `int`
in the source; a count below 1 builds no joint, as the count 0 does here. -/
structure Leg (K : Type) where
  id_number_ : Nat
  id_name_ : String
  num_joints_ : Nat
  mirror_dir_ : K
  stance_leg_yaw_ : K
  leg_state_ : LegState
  group_ : Nat
  joint_container_ : List (Nat × Joint K)
  link_container_ : List (Nat × Link K)
  tip_ : Tip K
  local_tip_position_ : Vector3d K
  desired_tip_position_ : Vector3d K
  desired_tip_velocity_ : Vector3d K
  tip_force_ : Vector3d K
  delta_z_ : K
  max_virtual_leg_length_ : K
  min_virtual_leg_length_ : K

/-- Output of `ROS_WARN`, `ROS_FATAL` and `ros::shutdown()`. -/
inductive LogEvent (K : Type) where
  /-- Line 256: "%s leg has tried to exceed %s min joint limit: %f. Clamping joint to limit." -/
  | minLimitWarning (leg_name joint_name : String) (min_position : K)
  /-- Line 261: "%s leg has tried to exceed %s max joint limit: %f. Clamping joint to limit." -/
  | maxLimitWarning (leg_name joint_name : String) (max_position : K)
  /-- Line 280: "Inverse kinematics error! ..." (axis label, leg, result, desired, percentage). -/
  | ikErrorWarning (axis_label leg_name : String) (result desired error_percentage : K)
  /-- Lines 349 and 374: "Model initialisation error for %s". -/
  | fatal (name : String)
  /-- Lines 350 and 375: `ros::shutdown()`. -/
  | shutdown

/-! ## What the headers declare -/

/-- One `params->joint_parameters[leg][joint]` entry: the `data` map and the `initialised`
flag. -/
structure JointParameters (K : Type) where
  initialised : Bool
  offset : K
  min : K
  max : K
  packed : K
  unpacked : K
  max_vel : K

/-- One `params->link_parameters[leg][link]` entry. -/
structure LinkParameters (K : Type) where
  initialised : Bool
  r : K
  theta : K
  d : K
  alpha : K

/-- The `Parameters` object, as far as `model.cpp` reads it. -/
structure Parameters (K : Type) where
  leg_id : Nat → String
  leg_DOF : String → Nat
  leg_stance_yaws : String → K
  joint_id : Nat → String
  link_id : Nat → String
  joint_parameters : Nat → Nat → JointParameters K
  link_parameters : Nat → Nat → LinkParameters K
  time_delta : K

/-- Functions and macros that `model.cpp` calls and that are declared outside `src/`. -/
structure Helpers (K : Type) where
  /-- Macro `UNASSIGNED_VALUE`. -/
  UNASSIGNED_VALUE : K
  /-- Function `clamped(value, min, max)`. -/
  clamped : K → K → K → K
  /-- Function `createDHMatrix(d, theta, r, alpha)`. -/
  createDHMatrix : K → K → K → K → Matrix4d K
  /-- Function `createJacobian(dh_parameters, degrees_of_freedom)`, a 3 x N matrix. -/
  createJacobian : List (DHParameters K) → (n : Nat) → Matrix (Fin 3) (Fin n) K
  /-- Method `Joint::getPositionJointFrame(world_frame_position)`. -/
  getPositionJointFrame : Joint K → Vector3d K → Vector3d K
  /-- Method `Tip::getPositionWorldFrame()`, as a function of the joints' transforms (in chain
  order) and the tip's transform. -/
  getPositionWorldFrame : List (Matrix4d K) → Matrix4d K → Vector3d K
  /-- Square root, used by Eigen's `norm()`. -/
  sqrt : K → K

/-- Values of the members that no constructor in `model.cpp` assigns. -/
structure Indeterminate (K : Type) where
  current_position : Nat → K
  current_velocity : Nat → K
  current_effort : Nat → K
  desired_position : Nat → K
  prev_desired_position : Nat → K
  transform : Nat → Matrix4d K
  tip_force_ : Vector3d K
  delta_z_ : K
  /-- Content of `VectorXd joint_torques(num_joints_)` before its entries are assigned. -/
  joint_torques : (n : Nat) → Fin n → K

/-- Modelled from the spec: the default value of the `set_local` argument of `Leg::applyFK` is
part of the declaration in `model.h`, which is not in `src/`; the spec says that `init` "runs
FK, and records the resulting tip position as both local and desired", so the call `applyFK()`
updates the local tip position. -/
def applyFK_set_local_default : Bool := true

section Definitions

variable {K : Type} [LinearOrderedField K]

/-! ## Containers (`std::map<int, T*>`) -/

/-- The method `std::map::insert`: keeps the list sorted by key and leaves an existing key
alone. -/
def mapInsert {α : Type} : List (Nat × α) → Nat → α → List (Nat × α)
  | [], k, v => [(k, v)]
  | (k', v') :: rest, k, v =>
    if k < k' then (k, v) :: (k', v') :: rest
    else if k = k' then (k', v') :: rest
    else (k', v') :: mapInsert rest k v

/-- Dereferences a pointer to an object of a container: the object stored under the key. -/
def mapFind {α : Type} (m : List (Nat × α)) (k : Nat) : Option α :=
  m.lookup k

/-- Iteration range `[m.find(k), m.end())`: empty when the key is absent. -/
def mapFrom {α : Type} (m : List (Nat × α)) (k : Nat) : List (Nat × α) :=
  m.dropWhile (fun p => p.1 != k)

/-! ## Small numeric helpers -/

/-- Modelled from the spec: the function `sqr` is declared in a header that is not in `src/`;
the spec writes the damping term `sqr(dls_cooeficient)` as `λ²`. -/
def sqr (x : K) : K := x * x

/-- Eigen `inverse()` of a 3 x 3 matrix: the adjugate divided by the determinant. -/
def inverse (m : Matrix3d K) : Matrix3d K := (m.det)⁻¹ • m.adjugate

/-- Eigen `norm()` of a `Vector3d`. -/
def norm (h : Helpers K) (v : Vector3d K) : K :=
  h.sqrt (v 0 * v 0 + v 1 * v 1 + v 2 * v 2)

/-- Entry `v[index]` of a dynamic vector of size `n`; `none` when out of bounds. -/
def vecGet {n : Nat} (v : Fin n → K) (index : Nat) : Option K :=
  if hlt : index < n then some (v ⟨index, hlt⟩) else none

/-- The damping coefficient of `applyIK` (line 231). -/
def dls_cooeficient : K := 0.02

/-- The matrix `j*j.transpose() + sqr(dls_cooeficient)*identity` inverted on line 235. -/
def dlsMatrix {n : Nat} (j : Matrix (Fin 3) (Fin n) K) : Matrix3d K :=
  j * j.transpose + sqr (dls_cooeficient : K) • (1 : Matrix3d K)

/-- The matrix `ik_matrix` of line 235 (DLS method). -/
def ikMatrix {n : Nat} (j : Matrix (Fin 3) (Fin n) K) : Matrix (Fin n) (Fin 3) K :=
  j.transpose * inverse (dlsMatrix j)

/-! ## Constructors -/

/-- Constructor `Link::Link` (lines 357-377). -/
def Link.ctor (leg_id_name : String) (leg_id_number : Nat) (joint : Option Nat) (id : Nat)
    (params : Parameters K) : Link K × List (LogEvent K) :=
  let p := params.link_parameters leg_id_number id
  let link : Link K :=
    { id_number := id
      name := leg_id_name ++ "_" ++ params.link_id id ++ "_link"
      actuating_joint := joint
      length := p.r
      angle := p.theta
      offset := p.d
      twist := p.alpha }
  if p.initialised then (link, []) else (link, [LogEvent.fatal link.name, LogEvent.shutdown])

/-- Constructor `Joint::Joint` (lines 324-352). `link` is the object the pointer argument points
to; the pointer stored is its key. -/
def Joint.ctor (h : Helpers K) (ind : Indeterminate K) (leg_id_name : String)
    (leg_id_number : Nat) (link : Link K) (id : Nat) (params : Parameters K) :
    Joint K × List (LogEvent K) :=
  let p := params.joint_parameters leg_id_number (id - 1)
  let joint : Joint K :=
    { id_number := id
      name := leg_id_name ++ "_" ++ params.joint_id (id - 1) ++ "_joint"
      reference_link := link.id_number
      position_offset := p.offset
      min_position := p.min
      max_position := p.max
      packed_position := p.packed
      unpacked_position := p.unpacked
      max_angular_speed := p.max_vel
      current_position := ind.current_position id
      current_velocity := ind.current_velocity id
      current_effort := ind.current_effort id
      desired_position := ind.desired_position id
      prev_desired_position := ind.prev_desired_position id
      transform := ind.transform id }
  if p.initialised then
    ({ joint with
        transform := h.createDHMatrix link.offset link.angle link.length link.twist }, [])
  else (joint, [LogEvent.fatal joint.name, LogEvent.shutdown])

/-- Constructor `Tip::Tip` (lines 382-391). -/
def Tip.ctor (h : Helpers K) (leg_id_name : String) (link : Link K) : Tip K :=
  { name := leg_id_name ++ "_tip"
    reference_link := link.id_number
    transform := h.createDHMatrix link.offset link.angle link.length link.twist }

/-- State of the chain-building loop of `Leg::Leg`: `prev_link`, the two containers and the
log. -/
structure ChainState (K : Type) where
  prev_link : Link K
  joint_container_ : List (Nat × Joint K)
  link_container_ : List (Nat × Link K)
  log : List (LogEvent K)

/-- The loop `for (int i = 1; i < num_joints_+1; ++i)` of `Leg::Leg` (lines 52-61); `count` is
the number of iterations left and `i` the loop variable. -/
def Leg.ctor.chainLoop (h : Helpers K) (ind : Indeterminate K) (id_name_ : String)
    (id_number : Nat) (params : Parameters K) : Nat → Nat → ChainState K → ChainState K
  | 0, _, st => st
  | count + 1, i, st =>
    let new_joint := Joint.ctor h ind id_name_ id_number st.prev_link i params
    let new_link := Link.ctor id_name_ id_number (some i) i params
    Leg.ctor.chainLoop h ind id_name_ id_number params count (i + 1)
      { prev_link := new_link.1
        joint_container_ := mapInsert st.joint_container_ i new_joint.1
        link_container_ := mapInsert st.link_container_ i new_link.1
        log := st.log ++ new_joint.2 ++ new_link.2 }

/-- The loop of `Leg::Leg` that walks the links from `link_container_.find(1)` and multiplies
the DH matrices at the clamped zero angle (lines 73-81). -/
def Leg.ctor.virtualLoop (h : Helpers K) (joint_container_ : List (Nat × Joint K)) :
    Matrix4d K → List (Nat × Link K) → Option (Matrix4d K)
  | transform, [] => some transform
  | transform, (_, link) :: rest => do
    let key ← link.actuating_joint
    let actuating_joint ← mapFind joint_container_ key
    let angle := h.clamped 0 actuating_joint.min_position actuating_joint.max_position
    Leg.ctor.virtualLoop h joint_container_
      (transform * h.createDHMatrix link.offset angle link.length link.twist) rest

/-- Constructor `Leg::Leg` (lines 37-90). -/
def Leg.ctor (h : Helpers K) (ind : Indeterminate K) (id_number : Nat) (params : Parameters K) :
    Option (Leg K × List (LogEvent K)) :=
  let id_name_ := params.leg_id id_number
  let num_joints_ := params.leg_DOF id_name_
  let base_link := Link.ctor id_name_ id_number none 0 params
  let st := Leg.ctor.chainLoop h ind id_name_ id_number params num_joints_ 1
    { prev_link := base_link.1
      joint_container_ := []
      link_container_ := mapInsert [] 0 base_link.1
      log := base_link.2 }
  let unassigned_vector : Vector3d K :=
    ![h.UNASSIGNED_VALUE, h.UNASSIGNED_VALUE, h.UNASSIGNED_VALUE]
  match Leg.ctor.virtualLoop h st.joint_container_ 1 (mapFrom st.link_container_ 1) with
  | none => none
  | some transform =>
    let result : Vector4d K := transform.mulVec ![0, 0, 0, 1]
    some
      ({ id_number_ := id_number
         id_name_ := id_name_
         num_joints_ := num_joints_
         mirror_dir_ := (-1) ^ (id_number % 2 + 1)
         stance_leg_yaw_ := params.leg_stance_yaws id_name_
         leg_state_ := LegState.WALKING
         group_ := id_number % 2
         joint_container_ := st.joint_container_
         link_container_ := st.link_container_
         tip_ := Tip.ctor h id_name_ st.prev_link
         local_tip_position_ := unassigned_vector
         desired_tip_position_ := unassigned_vector
         desired_tip_velocity_ := ![0, 0, 0]
         tip_force_ := ind.tip_force_
         delta_z_ := ind.delta_z_
         max_virtual_leg_length_ := norm h ![result 0, result 1, result 2]
         min_virtual_leg_length_ := 0 }, st.log)

/-! ## Forward kinematics -/

/-- The loop of `Leg::applyFK` over the joints after the first (lines 293-301). The loop writes
`transform` only, so the `desired_position` it reads through the pointers is that of `leg`. -/
def Leg.applyFK.loop (h : Helpers K) (leg : Leg K) :
    List (Nat × Joint K) → Option (List (Nat × Joint K))
  | [] => some []
  | (k, joint) :: rest => do
    let reference_link ← mapFind leg.link_container_ joint.reference_link
    let key ← reference_link.actuating_joint
    let actuating_joint ← mapFind leg.joint_container_ key
    let rest' ← Leg.applyFK.loop h leg rest
    some ((k, { joint with
                  transform := h.createDHMatrix reference_link.offset
                    actuating_joint.desired_position reference_link.length
                    reference_link.twist }) :: rest')

/-- Method `Leg::applyFK` (lines 289-319); `time_delta` is `model_->getTimeDelta()`. Returns the
updated leg and the returned tip position. -/
def Leg.applyFK (h : Helpers K) (leg : Leg K) (time_delta : K) (set_local : Bool) :
    Option (Leg K × Vector3d K) :=
  match leg.joint_container_ with
  | [] => none
  | first :: rest => do
    let rest' ← Leg.applyFK.loop h leg rest
    let reference_link ← mapFind leg.link_container_ leg.tip_.reference_link
    let key ← reference_link.actuating_joint
    let actuating_joint ← mapFind leg.joint_container_ key
    let tip' : Tip K :=
      { leg.tip_ with
          transform := h.createDHMatrix reference_link.offset actuating_joint.desired_position
            reference_link.length reference_link.twist }
    let joints' := first :: rest'
    let tip_position :=
      h.getPositionWorldFrame (joints'.map (fun p => p.2.transform)) tip'.transform
    let leg1 : Leg K := { leg with joint_container_ := joints', tip_ := tip' }
    if set_local then
      let leg2 : Leg K :=
        if leg1.local_tip_position_ 0 ≠ h.UNASSIGNED_VALUE then
          { leg1 with
              desired_tip_velocity_ :=
                fun i => (tip_position i - leg1.local_tip_position_ i) / time_delta }
        else leg1
      some ({ leg2 with local_tip_position_ := tip_position }, tip_position)
    else some (leg1, tip_position)

/-! ## Initialisation -/

/-- Body of the loop of `Leg::init` (lines 100-108). -/
def Leg.init.step (h : Helpers K) (use_default_joint_positions : Bool) (joint : Joint K) :
    Joint K :=
  let joint1 : Joint K :=
    if use_default_joint_positions then
      { joint with
          current_position := h.clamped 0 joint.min_position joint.max_position
          current_velocity := 0
          current_effort := 0 }
    else joint
  let joint2 : Joint K := { joint1 with desired_position := joint1.current_position }
  { joint2 with prev_desired_position := joint2.desired_position }

/-- Method `Leg::init` (lines 95-112). -/
def Leg.init (h : Helpers K) (leg : Leg K) (time_delta : K)
    (use_default_joint_positions : Bool) : Option (Leg K) := do
  let leg1 : Leg K :=
    { leg with
        joint_container_ :=
          leg.joint_container_.map
            (fun p => (p.1, Leg.init.step h use_default_joint_positions p.2)) }
  let r ← leg1.applyFK h time_delta applyFK_set_local_default
  some { r.1 with desired_tip_position_ := r.1.local_tip_position_ }

/-! ## Impedance offset -/

/-- Method `Leg::applyDeltaZ` (lines 151-158). -/
def Leg.applyDeltaZ (leg : Leg K) (tip_position : Vector3d K) : Leg K :=
  let tip_position1 : Vector3d K :=
    if leg.leg_state_ ≠ LegState.MANUAL then
      Function.update tip_position 2 (tip_position 2 - leg.delta_z_)
    else tip_position
  { leg with desired_tip_position_ := tip_position1 }

/-! ## Jacobian input, tip force and inverse kinematics -/

/-- The loop that collects the DH parameters of the joints after the first (lines 169-178 and
211-220). -/
def Leg.dh_parameters.loop (leg : Leg K) : List (Nat × Joint K) → Option (List (DHParameters K))
  | [] => some []
  | (_, joint) :: rest => do
    let reference_link ← mapFind leg.link_container_ joint.reference_link
    let key ← reference_link.actuating_joint
    let actuating_joint ← mapFind leg.joint_container_ key
    let rest' ← Leg.dh_parameters.loop leg rest
    some ({ d := reference_link.offset
            theta := actuating_joint.desired_position
            r := reference_link.length
            alpha := reference_link.twist } :: rest')

/-- The vector `dh_parameters` that `updateTipForce` (lines 165-184) and `applyIK` (lines
207-226) build with the same statements. -/
def Leg.dh_parameters (leg : Leg K) : Option (List (DHParameters K)) :=
  match leg.joint_container_ with
  | [] => none
  | _ :: rest => do
    let body ← Leg.dh_parameters.loop leg rest
    let reference_link ← mapFind leg.link_container_ leg.tip_.reference_link
    let key ← reference_link.actuating_joint
    let actuating_joint ← mapFind leg.joint_container_ key
    some (body ++ [{ d := reference_link.offset
                     theta := actuating_joint.desired_position
                     r := reference_link.length
                     alpha := reference_link.twist }])

/-- The loop of `updateTipForce` that fills `joint_torques` (lines 191-196). -/
def Leg.updateTipForce.loop {n : Nat} :
    (Fin n → K) → Nat → List (Nat × Joint K) → Option (Fin n → K)
  | joint_torques, _, [] => some joint_torques
  | joint_torques, index, (_, joint) :: rest =>
    if hlt : index < n then
      Leg.updateTipForce.loop (Function.update joint_torques ⟨index, hlt⟩ joint.current_effort)
        (index + 1) rest
    else none

/-- Method `Leg::updateTipForce` (lines 163-201). The function has no `return` statement, so
only the updated leg is modelled. -/
def Leg.updateTipForce (h : Helpers K) (ind : Indeterminate K) (leg : Leg K) (_debug : Bool) :
    Option (Leg K) := do
  let dh_parameters ← leg.dh_parameters
  let j := h.createJacobian dh_parameters leg.num_joints_
  let joint_torques ←
    Leg.updateTipForce.loop (ind.joint_torques leg.num_joints_) 0 leg.joint_container_
  some { leg with tip_force_ := j.mulVec joint_torques }

/-- Body of the loop of `applyIK` over the joints (lines 248-263), given the entry
`joint_delta_pos[index]`: the updated joint and the warnings. -/
def Leg.applyIK.step (id_name_ : String) (clamp_to_limits : Bool) (delta : K) (joint : Joint K) :
    Joint K × List (LogEvent K) :=
  let joint1 : Joint K :=
    { joint with desired_position := joint.prev_desired_position + delta }
  if clamp_to_limits then
    if joint1.desired_position < joint1.min_position then
      ({ joint1 with desired_position := joint1.min_position },
        [LogEvent.minLimitWarning id_name_ joint1.name joint1.min_position])
    else if joint1.desired_position > joint1.max_position then
      ({ joint1 with desired_position := joint1.max_position },
        [LogEvent.maxLimitWarning id_name_ joint1.name joint1.max_position])
    else (joint1, [])
  else (joint1, [])

/-- The loop of `applyIK` over the joints (lines 245-264). -/
def Leg.applyIK.loop {n : Nat} (id_name_ : String) (clamp_to_limits : Bool)
    (joint_delta_pos : Fin n → K) :
    Nat → List (Nat × Joint K) → Option (List (Nat × Joint K) × List (LogEvent K))
  | _, [] => some ([], [])
  | index, (k, joint) :: rest => do
    let delta ← vecGet joint_delta_pos index
    let r := Leg.applyIK.step id_name_ clamp_to_limits delta joint
    let rs ← Leg.applyIK.loop id_name_ clamp_to_limits joint_delta_pos (index + 1) rest
    some ((k, r.1) :: rs.1, r.2 ++ rs.2)

/-- The vector `joint_delta_pos` of `applyIK` (lines 207-243). -/
def Leg.joint_delta_pos (h : Helpers K) (leg : Leg K) : Option (Fin leg.num_joints_ → K) := do
  let dh_parameters ← leg.dh_parameters
  let j := h.createJacobian dh_parameters leg.num_joints_
  let ik_matrix := ikMatrix j
  let base_joint ← leg.joint_container_.head?
  let leg_frame_desired_tip_position :=
    h.getPositionJointFrame base_joint.2 leg.desired_tip_position_
  let leg_frame_prev_desired_tip_position :=
    h.getPositionJointFrame base_joint.2 leg.local_tip_position_
  let leg_frame_tip_position_delta : Vector3d K :=
    leg_frame_desired_tip_position - leg_frame_prev_desired_tip_position
  some (ik_matrix.mulVec leg_frame_tip_position_delta)

/-- The tolerance check of `applyIK` on one axis (lines 277-281), with `abs` the absolute
value of a `double`. -/
def Leg.applyIK.check (id_name_ : String) (result desired : Vector3d K)
    (axis : Fin 3 × String) : List (LogEvent K) :=
  if |result axis.1 - desired axis.1| > 0.001 then
    [LogEvent.ikErrorWarning axis.2 id_name_ (result axis.1) (desired axis.1)
      (|(result axis.1 - desired axis.1) / desired axis.1| * 100)]
  else []

/-- Method `Leg::applyIK` (lines 205-284). Returns the updated leg, the returned flag and the
warnings. -/
def Leg.applyIK (h : Helpers K) (leg : Leg K) (time_delta : K) (clamp_to_limits : Bool)
    (_debug : Bool) : Option (Leg K × Bool × List (LogEvent K)) := do
  let joint_delta_pos ← leg.joint_delta_pos h
  let joints ← Leg.applyIK.loop leg.id_name_ clamp_to_limits joint_delta_pos 0
    leg.joint_container_
  let leg1 : Leg K := { leg with joint_container_ := joints.1 }
  let fk ← leg1.applyFK h time_delta applyFK_set_local_default
  let leg2 := fk.1
  let result := fk.2
  let desired_tip_position_within_workspace := true
  let warnings :=
    ([((0 : Fin 3), "x"), (1, "y"), (2, "z")] : List (Fin 3 × String)).flatMap
      (Leg.applyIK.check leg2.id_name_ result leg2.desired_tip_position_)
  some (leg2, desired_tip_position_within_workspace, joints.2 ++ warnings)

/-! ## Chain shape -/

/-- Shape of a chain with `N` joints: joints under the keys `1..N`, links under the keys
`0..N`, joint `i` refers to link `i-1`, link `i >= 1` is actuated by joint `i`, and the tip
refers to link `N`. -/
def Leg.chainShape (leg : Leg K) (N : Nat) : Prop :=
  leg.num_joints_ = N ∧
  leg.joint_container_.map Prod.fst = List.range' 1 N ∧
  leg.link_container_.map Prod.fst = List.range' 0 (N + 1) ∧
  (∀ p ∈ leg.joint_container_, p.2.reference_link = p.1 - 1) ∧
  (∀ p ∈ leg.link_container_, 1 ≤ p.1 → p.2.actuating_joint = some p.1) ∧
  leg.tip_.reference_link = N

/-- A joint with every member zero (the value of a failed lookup in `Leg.jointAt`). -/
def Joint.zero : Joint K :=
  { id_number := 0, name := "", reference_link := 0, position_offset := 0, min_position := 0
    max_position := 0, packed_position := 0, unpacked_position := 0, max_angular_speed := 0
    current_position := 0, current_velocity := 0, current_effort := 0, desired_position := 0
    prev_desired_position := 0, transform := 0 }

/-- A link with every member zero (the value of a failed lookup in `Leg.linkAt`). -/
def Link.zero : Link K :=
  { id_number := 0, name := "", actuating_joint := none, length := 0, angle := 0, offset := 0
    twist := 0 }

/-- The joint stored under key `k`. -/
def Leg.jointAt (leg : Leg K) (k : Nat) : Joint K :=
  (mapFind leg.joint_container_ k).getD Joint.zero

/-- The link stored under key `k`. -/
def Leg.linkAt (leg : Leg K) (k : Nat) : Link K :=
  (mapFind leg.link_container_ k).getD Link.zero

/-- The DH matrix of link `k` at the desired position of joint `k`. -/
def Leg.dhMatrixAt (h : Helpers K) (leg : Leg K) (k : Nat) : Matrix4d K :=
  h.createDHMatrix (leg.linkAt k).offset (leg.jointAt k).desired_position (leg.linkAt k).length
    (leg.linkAt k).twist

/-- The joints as `applyFK` leaves them: the first unchanged, every later joint `k` with the DH
matrix of link `k-1` as transform. -/
def Leg.fkJoints (h : Helpers K) (leg : Leg K) : List (Nat × Joint K) :=
  match leg.joint_container_ with
  | [] => []
  | first :: rest =>
    first :: rest.map (fun p => (p.1, { p.2 with transform := leg.dhMatrixAt h (p.1 - 1) }))

/-- The tip as `applyFK` leaves it. -/
def Leg.fkTip (h : Helpers K) (leg : Leg K) : Tip K :=
  { leg.tip_ with transform := leg.dhMatrixAt h leg.tip_.reference_link }

/-- The tip position `applyFK` computes. -/
def Leg.fkPosition (h : Helpers K) (leg : Leg K) : Vector3d K :=
  h.getPositionWorldFrame ((leg.fkJoints h).map (fun p => p.2.transform)) (leg.fkTip h).transform

/-- The DH parameter set of link `k` at the desired position of joint `k`. -/
def Leg.dhAt (leg : Leg K) (k : Nat) : DHParameters K :=
  { d := (leg.linkAt k).offset
    theta := (leg.jointAt k).desired_position
    r := (leg.linkAt k).length
    alpha := (leg.linkAt k).twist }

/-- Entry `v[index]` with value 0 out of bounds. -/
def vecGetD {n : Nat} (v : Fin n → K) (index : Nat) : K :=
  (vecGet v index).getD 0

/-- The joints as the loop of `applyIK` leaves them, joint `k` taking entry `k-1` of
`joint_delta_pos`. -/
def Leg.ikJoints {n : Nat} (leg : Leg K) (clamp_to_limits : Bool) (joint_delta_pos : Fin n → K) :
    List (Nat × Joint K) :=
  leg.joint_container_.map
    (fun p => (p.1,
      (Leg.applyIK.step leg.id_name_ clamp_to_limits (vecGetD joint_delta_pos (p.1 - 1)) p.2).1))

/-- The limit warnings of the loop of `applyIK`, in chain order. -/
def Leg.ikWarnings {n : Nat} (leg : Leg K) (clamp_to_limits : Bool)
    (joint_delta_pos : Fin n → K) : List (LogEvent K) :=
  leg.joint_container_.flatMap
    (fun p =>
      (Leg.applyIK.step leg.id_name_ clamp_to_limits (vecGetD joint_delta_pos (p.1 - 1)) p.2).2)

/-- The leg as `applyFK` leaves it. -/
def Leg.fkResult (h : Helpers K) (leg : Leg K) (time_delta : K) (set_local : Bool) : Leg K :=
  { leg with
      joint_container_ := leg.fkJoints h
      tip_ := leg.fkTip h
      desired_tip_velocity_ :=
        if set_local = true ∧ leg.local_tip_position_ 0 ≠ h.UNASSIGNED_VALUE then
          fun i => (leg.fkPosition h i - leg.local_tip_position_ i) / time_delta
        else leg.desired_tip_velocity_
      local_tip_position_ :=
        if set_local = true then leg.fkPosition h else leg.local_tip_position_ }

/-- The vector `joint_delta_pos` of `applyIK` in closed form: the DLS matrix of the Jacobian of
the links `1..N`, applied to the difference of the desired and the local tip position in the
frame of the first joint. -/
def Leg.ikDelta (h : Helpers K) (leg : Leg K) : Fin leg.num_joints_ → K :=
  (ikMatrix (h.createJacobian ((List.range' 1 leg.num_joints_).map leg.dhAt)
    leg.num_joints_)).mulVec
    (h.getPositionJointFrame (leg.jointAt 1) leg.desired_tip_position_
      - h.getPositionJointFrame (leg.jointAt 1) leg.local_tip_position_)

/-- The leg after the loop of `applyIK` over the joints. -/
def Leg.ikLoopResult (h : Helpers K) (leg : Leg K) (clamp_to_limits : Bool) : Leg K :=
  { leg with joint_container_ := leg.ikJoints clamp_to_limits (leg.ikDelta h) }

/-- The tolerance warnings of `applyIK` for a computed tip position. -/
def Leg.ikToleranceWarnings (leg : Leg K) (result : Vector3d K) : List (LogEvent K) :=
  ([((0 : Fin 3), "x"), (1, "y"), (2, "z")] : List (Fin 3 × String)).flatMap
    (Leg.applyIK.check leg.id_name_ result leg.desired_tip_position_)

/-- Two states of a leg that agree on the chain, on every joint's desired position, on the
(constant) transform of the first joint, and on every link's offset, length and twist; the
joints' current position, velocity, effort and previous desired position (and the leg's other
members) are free. -/
def Leg.fkAgree (a b : Leg K) : Prop :=
  List.Forall₂
    (fun p q => p.1 = q.1 ∧ p.2.reference_link = q.2.reference_link ∧
      p.2.desired_position = q.2.desired_position)
    a.joint_container_ b.joint_container_ ∧
  a.joint_container_.head?.map (fun p => p.2.transform)
    = b.joint_container_.head?.map (fun p => p.2.transform) ∧
  List.Forall₂
    (fun p q => p.1 = q.1 ∧ p.2.actuating_joint = q.2.actuating_joint ∧
      p.2.offset = q.2.offset ∧ p.2.length = q.2.length ∧ p.2.twist = q.2.twist)
    a.link_container_ b.link_container_ ∧
  a.tip_.reference_link = b.tip_.reference_link

/-- What `applyFK` returns and writes: the tip position, the transform of every joint (by key,
in chain order) and the transform of the tip. -/
def fkOutput (r : Leg K × Vector3d K) : Vector3d K × List (Nat × Matrix4d K) × Matrix4d K :=
  (r.2, r.1.joint_container_.map (fun p => (p.1, p.2.transform)), r.1.tip_.transform)

/-- The joints as the loop of `init` leaves them. -/
def Leg.initJoints (h : Helpers K) (leg : Leg K) (use_default_joint_positions : Bool) :
    List (Nat × Joint K) :=
  leg.joint_container_.map (fun p => (p.1, Leg.init.step h use_default_joint_positions p.2))

/-- The leg after the loop of `init` over the joints. -/
def Leg.initLoopResult (h : Helpers K) (leg : Leg K) (use_default_joint_positions : Bool) :
    Leg K :=
  { leg with joint_container_ := leg.initJoints h use_default_joint_positions }

/-- The leg as `init` leaves it. -/
def Leg.initResult (h : Helpers K) (leg : Leg K) (time_delta : K)
    (use_default_joint_positions : Bool) : Leg K :=
  { (leg.initLoopResult h use_default_joint_positions).fkResult h time_delta true with
      desired_tip_position_ :=
        (leg.initLoopResult h use_default_joint_positions).fkPosition h }

/-! ## The constructed chain in closed form -/

/-- The link the constructor stores under key `i`. -/
def ctorLink (params : Parameters K) (id_name_ : String) (id_number i : Nat) : Link K :=
  (Link.ctor id_name_ id_number (if i = 0 then none else some i) i params).1

/-- The joint the constructor stores under key `i`. -/
def ctorJoint (h : Helpers K) (ind : Indeterminate K) (params : Parameters K)
    (id_name_ : String) (id_number i : Nat) : Joint K :=
  (Joint.ctor h ind id_name_ id_number (ctorLink params id_name_ id_number (i - 1)) i params).1

/-- The DH matrix of link `k` of leg `id_number` at the angle 0 clamped into the limits of
joint `k`, from the configuration. -/
def ctorDH (h : Helpers K) (params : Parameters K) (id_number k : Nat) : Matrix4d K :=
  h.createDHMatrix (params.link_parameters id_number k).d
    (h.clamped 0 (params.joint_parameters id_number (k - 1)).min
      (params.joint_parameters id_number (k - 1)).max)
    (params.link_parameters id_number k).r (params.link_parameters id_number k).alpha

/-- The point the product of a list of transforms maps the origin to. -/
def chainTipOffset (transforms : List (Matrix4d K)) : Vector3d K :=
  let result : Vector4d K := (transforms.foldl (fun m t => m * t) 1).mulVec ![0, 0, 0, 1]
  ![result 0, result 1, result 2]

/-- Two states of a leg with the same chain: the same joints (key, id, name and reference
link) in the same order, the same links, the same tip reference and the same joint count. -/
def Leg.sameChain (a b : Leg K) : Prop :=
  b.joint_container_.map (fun p => (p.1, p.2.id_number, p.2.name, p.2.reference_link))
    = a.joint_container_.map (fun p => (p.1, p.2.id_number, p.2.name, p.2.reference_link)) ∧
  b.link_container_ = a.link_container_ ∧
  b.tip_.name = a.tip_.name ∧
  b.tip_.reference_link = a.tip_.reference_link ∧
  b.num_joints_ = a.num_joints_

/-- The log entries of `Link::Link` for link `i` of the leg. -/
def ctorLinkLog (params : Parameters K) (id_name_ : String) (id_number i : Nat) :
    List (LogEvent K) :=
  if (params.link_parameters id_number i).initialised = true then []
  else [LogEvent.fatal (id_name_ ++ "_" ++ params.link_id i ++ "_link"), LogEvent.shutdown]

/-- The log entries of `Joint::Joint` for joint `i` of the leg. -/
def ctorJointLog (params : Parameters K) (id_name_ : String) (id_number i : Nat) :
    List (LogEvent K) :=
  if (params.joint_parameters id_number (i - 1)).initialised = true then []
  else [LogEvent.fatal (id_name_ ++ "_" ++ params.joint_id (i - 1) ++ "_joint"),
    LogEvent.shutdown]

/-- The log of the constructor of a leg with `N` joints: the base link, then joint and link
`1`, ..., joint and link `N`. -/
def ctorLog (params : Parameters K) (id_name_ : String) (id_number N : Nat) :
    List (LogEvent K) :=
  ctorLinkLog params id_name_ id_number 0
    ++ (List.range' 1 N).flatMap
        (fun i => ctorJointLog params id_name_ id_number i
          ++ ctorLinkLog params id_name_ id_number i)

/-- Some parameter set the constructor of a leg with `N` joints reads (joint sets `0..N-1`,
link sets `0..N`) is marked not initialised. -/
def someNotInitialised (params : Parameters K) (id_number N : Nat) : Prop :=
  (∃ k, k < N ∧ (params.joint_parameters id_number k).initialised = false) ∨
  (∃ k, k ≤ N ∧ (params.link_parameters id_number k).initialised = false)

/-- The efforts of the joints in chain order: entry `i` is the effort of joint `i+1`. -/
def Leg.efforts (leg : Leg K) : Fin leg.num_joints_ → K :=
  fun i => (leg.jointAt (i + 1)).current_effort

/-- The Jacobian `updateTipForce` and `applyIK` build: `createJacobian` at the DH parameter
sets of the links `1..N`. -/
def Leg.jacobian (h : Helpers K) (leg : Leg K) : Matrix (Fin 3) (Fin leg.num_joints_) K :=
  h.createJacobian ((List.range' 1 leg.num_joints_).map leg.dhAt) leg.num_joints_

/-- The members of a joint that `applyIK` reads as given: the previous desired position and
the two limits. -/
def Joint.ikFrame (joint : Joint K) : K × K × K :=
  (joint.prev_desired_position, joint.min_position, joint.max_position)

/-- The joints of a leg in chain order, each as its key and its `ikFrame`. -/
def Leg.ikFrame (leg : Leg K) : List (Nat × K × K × K) :=
  leg.joint_container_.map (fun p => (p.1, p.2.ikFrame))

/-- The leg with the pointer `actuating_joint` of the base link (key 0) replaced by `a`: the
constructor passes an uninitialised pointer there, so any value may stand in it. -/
def Leg.setBaseActuating (leg : Leg K) (a : Option Nat) : Leg K :=
  { leg with
      link_container_ :=
        leg.link_container_.map
          (fun p => (p.1, if p.1 = 0 then { p.2 with actuating_joint := a } else p.2)) }

/-- The DH matrix of link `k` at the angle 0 clamped into the limits of joint `k`, as the
virtual-leg-length loop of the constructor forms it. -/
def Leg.virtualDH (h : Helpers K) (leg : Leg K) (k : Nat) : Matrix4d K :=
  h.createDHMatrix (leg.linkAt k).offset
    (h.clamped 0 (leg.jointAt k).min_position (leg.jointAt k).max_position)
    (leg.linkAt k).length (leg.linkAt k).twist

/-- The values `model.cpp` assigns to `local_tip_position_`: the unassigned sentinel vector
(line 65), or a tip position that forward kinematics returned (line 316), which the test of
line 312 tells from the sentinel by its first component. -/
def Leg.localTipState (h : Helpers K) (leg : Leg K) : Prop :=
  leg.local_tip_position_ = ![h.UNASSIGNED_VALUE, h.UNASSIGNED_VALUE, h.UNASSIGNED_VALUE] ∨
  leg.local_tip_position_ 0 ≠ h.UNASSIGNED_VALUE

/-! ## The compensation waveforms and the position update loop of main.cpp -/

/-- The members of the walk parameters that the compensation waveforms read. The declaration
is not part of the sources; the members are taken as `double`, the type of the locals they are
assigned to. -/
structure WalkParameters (K : Type) where
  pitchAmplitude : K
  rollAmplitude : K
  stancePhase : K
  swingPhase : K
  phaseOffset : K

/-- The member of a leg stepper that the compensation waveforms read. -/
structure LegStepper (K : Type) where
  phase : K

/-- The members of `WalkController` that the compensation waveforms read: `legSteppers l s`
stands for `legSteppers[l][s]`. -/
structure WalkController (K : Type) where
  params : WalkParameters K
  legSteppers : Nat → Nat → LegStepper K

/-- The local `phase` of both waveform functions. -/
def WalkController.phase (walker : WalkController K) : K := (walker.legSteppers 0 0).phase

/-- The local `phaseLength` of both waveform functions. -/
def WalkController.phaseLength (walker : WalkController K) : K :=
  walker.params.stancePhase + walker.params.swingPhase

/-- The local `buffer` of `getPitchCompensation`. -/
def WalkController.pitchBuffer (walker : WalkController K) : K := walker.params.phaseOffset / 2

/-- `getPitchCompensation` of main.cpp. A keypoint `double p[2]` is the pair of its phase and
its value. The local `pitch` is declared without a value and assigned in the five branches
only: `none` stands for the return of the unassigned local, when no branch condition
holds. -/
def getPitchCompensation (walker : WalkController K) : Option K :=
  let amplitude := walker.params.pitchAmplitude
  let phase := (walker.legSteppers 0 0).phase
  let phaseLength := walker.params.stancePhase + walker.params.swingPhase
  let buffer := walker.params.phaseOffset / 2
  let p0 : K × K := (0 * phaseLength / 6, -amplitude)
  let p1 : K × K := (1 * phaseLength / 6 + buffer, -amplitude)
  let p2 : K × K := (2 * phaseLength / 6 + buffer, amplitude)
  let p3 : K × K := (4 * phaseLength / 6 + buffer, amplitude)
  let p4 : K × K := (5 * phaseLength / 6 + buffer, -amplitude)
  let p5 : K × K := (6 * phaseLength / 6, -amplitude)
  if phase ≥ p0.1 ∧ phase < p1.1 then
    some p0.2
  else if phase ≥ p1.1 ∧ phase < p2.1 then
    let gradient := (p2.2 - p1.2) / (p2.1 - p1.1)
    let offset := (p2.1 - p1.1) / 2 + p1.1
    some (gradient * phase - gradient * offset)
  else if phase ≥ p2.1 ∧ phase < p3.1 then
    some p2.2
  else if phase ≥ p3.1 ∧ phase < p4.1 then
    let gradient := (p4.2 - p3.2) / (p4.1 - p3.1)
    let offset := (p4.1 - p3.1) / 2 + p3.1
    some (gradient * phase - gradient * offset)
  else if phase ≥ p4.1 ∧ phase < p5.1 then
    some p4.2
  else
    none

/-- The ramp expression of both waveform functions between the keypoints `pa` and `pb`:
`gradient*phase - gradient*offset`. -/
def ramp (pa pb : K × K) (phase : K) : K :=
  let gradient := (pb.2 - pa.2) / (pb.1 - pa.1)
  let offset := (pb.1 - pa.1) / 2 + pa.1
  gradient * phase - gradient * offset

/-- The chain of five branches that both waveform functions run on their keypoints. -/
def keypointWave (p0 p1 p2 p3 p4 p5 : K × K) (phase : K) : Option K :=
  if phase ≥ p0.1 ∧ phase < p1.1 then some p0.2
  else if phase ≥ p1.1 ∧ phase < p2.1 then some (ramp p1 p2 phase)
  else if phase ≥ p2.1 ∧ phase < p3.1 then some p2.2
  else if phase ≥ p3.1 ∧ phase < p4.1 then some (ramp p3 p4 phase)
  else if phase ≥ p4.1 ∧ phase < p5.1 then some p4.2
  else none

/-- The keypoints `p0..p5` of `getPitchCompensation`. -/
def pitchKeypoints (walker : WalkController K) : Fin 6 → K × K :=
  ![(0 * walker.phaseLength / 6, -walker.params.pitchAmplitude),
    (1 * walker.phaseLength / 6 + walker.pitchBuffer, -walker.params.pitchAmplitude),
    (2 * walker.phaseLength / 6 + walker.pitchBuffer, walker.params.pitchAmplitude),
    (4 * walker.phaseLength / 6 + walker.pitchBuffer, walker.params.pitchAmplitude),
    (5 * walker.phaseLength / 6 + walker.pitchBuffer, -walker.params.pitchAmplitude),
    (6 * walker.phaseLength / 6, -walker.params.pitchAmplitude)]

end Definitions

/-! ## Concrete inputs

Stand-ins over `ℚ` for the functions of the headers, and a chain of two joints stretched
along the x axis. -/

/-- The Denavit-Hartenberg matrix of `(d, theta, r, alpha)` for given cosine and sine
functions. -/
def dhMatrixWith {K : Type} [LinearOrderedField K] (cos sin : K → K) (d theta r alpha : K) :
    Matrix4d K :=
  !![cos theta, -(sin theta * cos alpha), sin theta * sin alpha, r * cos theta;
     sin theta, cos theta * cos alpha, -(cos theta * sin alpha), r * sin theta;
     0, sin alpha, cos alpha, d;
     0, 0, 0, 1]

/-- The DH matrix to first order in the angles (cosine 1, sine the angle); it is the exact DH
matrix at the angles 0 the concrete chain is evaluated at. -/
def dhFirstOrder (d theta r alpha : ℚ) : Matrix4d ℚ :=
  dhMatrixWith (fun _ => 1) (fun x => x) d theta r alpha

/-- The usual `clamped`: the value limited to `[lo, hi]`. -/
def clampedStd (value lo hi : ℚ) : ℚ := max lo (min value hi)

/-- Square root of a rational, exact on squares of rationals. -/
def ratSqrt (q : ℚ) : ℚ := (Nat.sqrt q.num.toNat : ℚ) / (Nat.sqrt q.den : ℚ)

/-- Jacobian of a chain stretched along the x axis: turning joint `k` moves the tip along y by
the length of the chain after the joint. -/
def jacobianStretched (dh_parameters : List (DHParameters ℚ)) (n : Nat) :
    Matrix (Fin 3) (Fin n) ℚ :=
  Matrix.of (fun i k =>
    if i = 1 then ((dh_parameters.drop k.val).map (fun p => p.r)).sum else 0)

/-- Position in the frame of a joint whose transform is a translation. -/
def positionJointFrameTranslation (joint : Joint ℚ) (world_frame_position : Vector3d ℚ) :
    Vector3d ℚ :=
  ![world_frame_position 0 - joint.transform 0 3, world_frame_position 1 - joint.transform 1 3,
    world_frame_position 2 - joint.transform 2 3]

/-- Modelled from the spec: `Tip::getPositionWorldFrame` is declared in `model.h`, which is not
in `src/`; the spec says "The tip's world-frame (leg-base-frame) Cartesian position is the tip
transform applied to the origin point". This definition takes the sentence by the letter: the
transform member of the tip, applied to the origin. -/
def tipTransformOrigin (_joint_transforms : List (Matrix4d ℚ)) (tip_transform : Matrix4d ℚ) :
    Vector3d ℚ :=
  chainTipOffset [tip_transform]

/-- Modelled from the spec: `Tip::getPositionWorldFrame` again, the same sentence read with "the
tip transform" as the transform from the tip frame to the leg base: the product of the
transforms of the joints and of the tip in chain order, applied to the origin. -/
def chainTransformOrigin (joint_transforms : List (Matrix4d ℚ)) (tip_transform : Matrix4d ℚ) :
    Vector3d ℚ :=
  chainTipOffset (joint_transforms ++ [tip_transform])

/-- Stand-ins for the functions of the headers, for a given `getPositionWorldFrame`. -/
def helpersWith (getPositionWorldFrame : List (Matrix4d ℚ) → Matrix4d ℚ → Vector3d ℚ) :
    Helpers ℚ :=
  { UNASSIGNED_VALUE := 10000000000
    clamped := clampedStd
    createDHMatrix := dhFirstOrder
    createJacobian := jacobianStretched
    getPositionJointFrame := positionJointFrameTranslation
    getPositionWorldFrame := getPositionWorldFrame
    sqrt := ratSqrt }

/-- Stand-ins with the tip position as the chain product. -/
def helpersChain : Helpers ℚ := helpersWith chainTransformOrigin

/-- Stand-ins with the tip position as the tip transform alone. -/
def helpersTipOnly : Helpers ℚ := helpersWith tipTransformOrigin

/-- Members no constructor assigns, all zero. -/
def indeterminateZero : Indeterminate ℚ :=
  { current_position := fun _ => 0
    current_velocity := fun _ => 0
    current_effort := fun _ => 0
    desired_position := fun _ => 0
    prev_desired_position := fun _ => 0
    transform := fun _ => 0
    tip_force_ := ![0, 0, 0]
    delta_z_ := 0
    joint_torques := fun _ _ => 0 }

/-- Configuration of legs with two joints, every link of length 1 along x, every joint
limited to `[-1, 1]`. -/
def paramsTwoJoints : Parameters ℚ :=
  { leg_id := fun _ => "AR"
    leg_DOF := fun _ => 2
    leg_stance_yaws := fun _ => 0
    joint_id := fun _ => "joint"
    link_id := fun _ => "link"
    joint_parameters := fun _ _ =>
      { initialised := true, offset := 0, min := -1, max := 1, packed := 0, unpacked := 0
        max_vel := 1 }
    link_parameters := fun _ _ => { initialised := true, r := 1, theta := 0, d := 0, alpha := 0 }
    time_delta := 1 / 50 }

/-- Joint `i` of the concrete chain at position `q`, with the previous desired position
`prev`. -/
def jointTwo (i : Nat) (q prev : ℚ) : Joint ℚ :=
  { id_number := i, name := "AR_joint", reference_link := i - 1, position_offset := 0
    min_position := -1, max_position := 1, packed_position := 0, unpacked_position := 0
    max_angular_speed := 1, current_position := q, current_velocity := 0, current_effort := 0
    desired_position := q, prev_desired_position := prev
    transform := dhFirstOrder 0 0 1 0 }

/-- Link `i` of the concrete chain. -/
def linkTwo (i : Nat) : Link ℚ :=
  { id_number := i, name := "AR_link", actuating_joint := if i = 0 then none else some i
    length := 1, angle := 0, offset := 0, twist := 0 }

/-- The concrete chain of two joints, at rest: desired and local tip position equal. -/
def legTwo : Leg ℚ :=
  { id_number_ := 0, id_name_ := "AR", num_joints_ := 2, mirror_dir_ := -1
    stance_leg_yaw_ := 0, leg_state_ := LegState.WALKING, group_ := 0
    joint_container_ := [(1, jointTwo 1 0 0), (2, jointTwo 2 (1 / 2) (1 / 2))]
    link_container_ := [(0, linkTwo 0), (1, linkTwo 1), (2, linkTwo 2)]
    tip_ := { name := "AR_tip", reference_link := 2, transform := dhFirstOrder 0 0 1 0 }
    local_tip_position_ := ![3, 1 / 2, 0]
    desired_tip_position_ := ![3, 1 / 2, 0]
    desired_tip_velocity_ := ![0, 0, 0]
    tip_force_ := ![0, 0, 0]
    delta_z_ := 0
    max_virtual_leg_length_ := 2
    min_virtual_leg_length_ := 0 }

/-- The concrete chain with a tip target away from the local tip position and previous desired
positions near the limits. -/
def legTwoMoving : Leg ℚ :=
  { legTwo with
      joint_container_ := [(1, jointTwo 1 0 (9 / 10)), (2, jointTwo 2 (1 / 2) (-9 / 10))]
      desired_tip_position_ := ![3, 3 / 2, 0] }

/-- The concrete chain with other sensed values and previous desired positions. -/
def legTwoSensed : Leg ℚ :=
  { legTwo with
      joint_container_ :=
        [(1, { jointTwo 1 0 (1 / 3) with
                 current_position := 1 / 4, current_velocity := 2, current_effort := 5 }),
         (2, { jointTwo 2 (1 / 2) (-1 / 3) with
                 current_position := -1 / 4, current_velocity := 3, current_effort := 7 })] }

/-- The configuration with two joints per leg in which the parameter set of link 1 is marked
not initialised. -/
def paramsLinkNotInitialised : Parameters ℚ :=
  { paramsTwoJoints with
      link_parameters := fun _ k =>
        { initialised := k != 1, r := 1, theta := 0, d := 0, alpha := 0 } }


/-- A walker over the rationals with every leg stepper at `phase`. -/
def walkerWith (pitchAmplitude rollAmplitude stancePhase swingPhase phaseOffset phase : ℚ) :
    WalkController ℚ :=
  { params :=
      { pitchAmplitude := pitchAmplitude, rollAmplitude := rollAmplitude
        stancePhase := stancePhase, swingPhase := swingPhase, phaseOffset := phaseOffset }
    legSteppers := fun _ _ => { phase := phase } }

/-- The arithmetic of the type `double` that the waveform functions use: the conversion of an
`int` literal and the five operations, each giving the `double` the machine computes. The
comparisons are those of the order of `K`. -/
structure DoubleArith (K : Type) where
  ofInt : Nat → K
  add : K → K → K
  sub : K → K → K
  mul : K → K → K
  div : K → K → K
  neg : K → K

section DoubleDefinitions

variable {K : Type} [LinearOrder K]

/-- The local `phaseLength` of both waveform functions, as computed. -/
def DoubleArith.phaseLength (ar : DoubleArith K) (walker : WalkController K) : K :=
  ar.add walker.params.stancePhase walker.params.swingPhase

/-- `getPitchCompensation` of main.cpp (lines 316-350) with every operation on `double` taken
from `ar`. A keypoint `double p[2]` is the pair of its phase and its value; `none` stands for
the return of the local `pitch` that no branch has assigned. -/
def DoubleArith.getPitchCompensation (ar : DoubleArith K) (walker : WalkController K) :
    Option K :=
  let amplitude := walker.params.pitchAmplitude
  let phase := (walker.legSteppers 0 0).phase
  let phaseLength := ar.add walker.params.stancePhase walker.params.swingPhase
  let buffer := ar.div walker.params.phaseOffset (ar.ofInt 2)
  let p0 : K × K := (ar.div (ar.mul (ar.ofInt 0) phaseLength) (ar.ofInt 6), ar.neg amplitude)
  let p1 : K × K :=
    (ar.add (ar.div (ar.mul (ar.ofInt 1) phaseLength) (ar.ofInt 6)) buffer, ar.neg amplitude)
  let p2 : K × K :=
    (ar.add (ar.div (ar.mul (ar.ofInt 2) phaseLength) (ar.ofInt 6)) buffer, amplitude)
  let p3 : K × K :=
    (ar.add (ar.div (ar.mul (ar.ofInt 4) phaseLength) (ar.ofInt 6)) buffer, amplitude)
  let p4 : K × K :=
    (ar.add (ar.div (ar.mul (ar.ofInt 5) phaseLength) (ar.ofInt 6)) buffer, ar.neg amplitude)
  let p5 : K × K := (ar.div (ar.mul (ar.ofInt 6) phaseLength) (ar.ofInt 6), ar.neg amplitude)
  if phase ≥ p0.1 ∧ phase < p1.1 then
    some p0.2
  else if phase ≥ p1.1 ∧ phase < p2.1 then
    let gradient := ar.div (ar.sub p2.2 p1.2) (ar.sub p2.1 p1.1)
    let offset := ar.add (ar.div (ar.sub p2.1 p1.1) (ar.ofInt 2)) p1.1
    some (ar.sub (ar.mul gradient phase) (ar.mul gradient offset))
  else if phase ≥ p2.1 ∧ phase < p3.1 then
    some p2.2
  else if phase ≥ p3.1 ∧ phase < p4.1 then
    let gradient := ar.div (ar.sub p4.2 p3.2) (ar.sub p4.1 p3.1)
    let offset := ar.add (ar.div (ar.sub p4.1 p3.1) (ar.ofInt 2)) p3.1
    some (ar.sub (ar.mul gradient phase) (ar.mul gradient offset))
  else if phase ≥ p4.1 ∧ phase < p5.1 then
    some p4.2
  else
    none

/-- `getTiltCompensation` of main.cpp (lines 356-390) with every operation on `double` taken
from `ar`; `none` stands for the return of the local `roll` that no branch has assigned. -/
def DoubleArith.getTiltCompensation (ar : DoubleArith K) (walker : WalkController K) :
    Option K :=
  let amplitude := walker.params.rollAmplitude
  let phase := (walker.legSteppers 0 0).phase
  let phaseLength := ar.add walker.params.stancePhase walker.params.swingPhase
  let buffer := ar.div walker.params.swingPhase (ar.ofInt 2)
  let p0 : K × K := (ar.div (ar.mul (ar.ofInt 0) phaseLength) (ar.ofInt 6), ar.neg amplitude)
  let p1 : K × K :=
    (ar.add (ar.div (ar.mul (ar.ofInt 0) phaseLength) (ar.ofInt 6)) buffer, ar.neg amplitude)
  let p2 : K × K :=
    (ar.sub (ar.div (ar.mul (ar.ofInt 1) phaseLength) (ar.ofInt 6)) buffer, amplitude)
  let p3 : K × K :=
    (ar.add (ar.div (ar.mul (ar.ofInt 3) phaseLength) (ar.ofInt 6)) buffer, amplitude)
  let p4 : K × K :=
    (ar.sub (ar.div (ar.mul (ar.ofInt 4) phaseLength) (ar.ofInt 6)) buffer, ar.neg amplitude)
  let p5 : K × K := (ar.div (ar.mul (ar.ofInt 6) phaseLength) (ar.ofInt 6), ar.neg amplitude)
  if phase ≥ p0.1 ∧ phase < p1.1 then
    some p0.2
  else if phase ≥ p1.1 ∧ phase < p2.1 then
    let gradient := ar.div (ar.sub p2.2 p1.2) (ar.sub p2.1 p1.1)
    let offset := ar.add (ar.div (ar.sub p2.1 p1.1) (ar.ofInt 2)) p1.1
    some (ar.sub (ar.mul gradient phase) (ar.mul gradient offset))
  else if phase ≥ p2.1 ∧ phase < p3.1 then
    some p2.2
  else if phase ≥ p3.1 ∧ phase < p4.1 then
    let gradient := ar.div (ar.sub p4.2 p3.2) (ar.sub p4.1 p3.1)
    let offset := ar.add (ar.div (ar.sub p4.1 p3.1) (ar.ofInt 2)) p3.1
    some (ar.sub (ar.mul gradient phase) (ar.mul gradient offset))
  else if phase ≥ p4.1 ∧ phase < p5.1 then
    some p4.2
  else
    none

/-- The ramp expression `gradient*phase - gradient*offset` of both waveform functions between
the keypoints `pa` and `pb`, as computed. -/
def DoubleArith.ramp (ar : DoubleArith K) (pa pb : K × K) (phase : K) : K :=
  let gradient := ar.div (ar.sub pb.2 pa.2) (ar.sub pb.1 pa.1)
  let offset := ar.add (ar.div (ar.sub pb.1 pa.1) (ar.ofInt 2)) pa.1
  ar.sub (ar.mul gradient phase) (ar.mul gradient offset)

/-- The chain of five branches that both waveform functions run on their keypoints. -/
def DoubleArith.keypointWave (ar : DoubleArith K) (p0 p1 p2 p3 p4 p5 : K × K) (phase : K) :
    Option K :=
  if phase ≥ p0.1 ∧ phase < p1.1 then some p0.2
  else if phase ≥ p1.1 ∧ phase < p2.1 then some (ar.ramp p1 p2 phase)
  else if phase ≥ p2.1 ∧ phase < p3.1 then some p2.2
  else if phase ≥ p3.1 ∧ phase < p4.1 then some (ar.ramp p3 p4 phase)
  else if phase ≥ p4.1 ∧ phase < p5.1 then some p4.2
  else none

/-- The keypoints `p0..p5` of `getPitchCompensation`, as computed. -/
def DoubleArith.pitchKeypoints (ar : DoubleArith K) (walker : WalkController K) :
    Fin 6 → K × K :=
  let amplitude := walker.params.pitchAmplitude
  let phaseLength := ar.add walker.params.stancePhase walker.params.swingPhase
  let buffer := ar.div walker.params.phaseOffset (ar.ofInt 2)
  ![(ar.div (ar.mul (ar.ofInt 0) phaseLength) (ar.ofInt 6), ar.neg amplitude),
    (ar.add (ar.div (ar.mul (ar.ofInt 1) phaseLength) (ar.ofInt 6)) buffer, ar.neg amplitude),
    (ar.add (ar.div (ar.mul (ar.ofInt 2) phaseLength) (ar.ofInt 6)) buffer, amplitude),
    (ar.add (ar.div (ar.mul (ar.ofInt 4) phaseLength) (ar.ofInt 6)) buffer, amplitude),
    (ar.add (ar.div (ar.mul (ar.ofInt 5) phaseLength) (ar.ofInt 6)) buffer, ar.neg amplitude),
    (ar.div (ar.mul (ar.ofInt 6) phaseLength) (ar.ofInt 6), ar.neg amplitude)]

/-- The keypoints `p0..p5` of `getTiltCompensation`, as computed. -/
def DoubleArith.rollKeypoints (ar : DoubleArith K) (walker : WalkController K) :
    Fin 6 → K × K :=
  let amplitude := walker.params.rollAmplitude
  let phaseLength := ar.add walker.params.stancePhase walker.params.swingPhase
  let buffer := ar.div walker.params.swingPhase (ar.ofInt 2)
  ![(ar.div (ar.mul (ar.ofInt 0) phaseLength) (ar.ofInt 6), ar.neg amplitude),
    (ar.add (ar.div (ar.mul (ar.ofInt 0) phaseLength) (ar.ofInt 6)) buffer, ar.neg amplitude),
    (ar.sub (ar.div (ar.mul (ar.ofInt 1) phaseLength) (ar.ofInt 6)) buffer, amplitude),
    (ar.add (ar.div (ar.mul (ar.ofInt 3) phaseLength) (ar.ofInt 6)) buffer, amplitude),
    (ar.sub (ar.div (ar.mul (ar.ofInt 4) phaseLength) (ar.ofInt 6)) buffer, ar.neg amplitude),
    (ar.div (ar.mul (ar.ofInt 6) phaseLength) (ar.ofInt 6), ar.neg amplitude)]

/-- The condition of branch `i` of the five branches run on the keypoints:
`phase >= p_i[0] && phase < p_(i+1)[0]`. -/
def branchCondition (keypoints : Fin 6 → K × K) (phase : K) (i : Fin 5) : Prop :=
  phase ≥ (keypoints i.castSucc).1 ∧ phase < (keypoints i.succ).1

instance branchCondition.decidable (keypoints : Fin 6 → K × K) (phase : K) (i : Fin 5) :
    Decidable (branchCondition keypoints phase i) :=
  inferInstanceAs (Decidable (_ ∧ _))

end DoubleDefinitions

/-- Exact arithmetic in an ordered field, taken as an arithmetic of `double` that never
rounds. -/
def DoubleArith.exact {K : Type} [LinearOrderedField K] : DoubleArith K :=
  { ofInt := fun n => (n : K)
    add := fun a b => a + b
    sub := fun a b => a - b
    mul := fun a b => a * b
    div := fun a b => a / b
    neg := fun a => -a }

/-! ### IEEE 754 binary64 -/

/-- Number of binary digits of `n` below `2^(2*w)`, for `widths` the powers of two from `w`
down to 1: the digits above each width are counted and cut off in turn. -/
def bitLengthBy : List Nat → Nat → Nat
  | [], n => if n = 0 then 0 else 1
  | w :: widths, n =>
    if n < 2 ^ w then bitLengthBy widths n else w + bitLengthBy widths (n / 2 ^ w)

/-- Number of binary digits of `n < 2^4096`. -/
def bitLength (n : Nat) : Nat :=
  bitLengthBy [2048, 1024, 512, 256, 128, 64, 32, 16, 8, 4, 2, 1] n

/-- Rounding to `double`. A finite `double` is held as the integer `n` of its value
`n * 2^-1074` (every finite `double` is a multiple of the least subnormal number `2^-1074`, and
such a multiple is a `double` when `n` has at most 53 significant binary digits). `roundUnits
num den` is the `double` nearest to `num / den` (in these units), ties to the even
significand: the default rounding of IEEE 754. Overflow is not modelled. -/
@[irreducible]
def roundUnits (num : Int) (den : Nat) : Int :=
  let n := num.natAbs
  let k := bitLength (n / den) - 53
  let d := den * 2 ^ k
  let q := n / d
  let r := n % d
  let m := (if 2 * r > d ∨ (2 * r = d ∧ q % 2 = 1) then q + 1 else q) * 2 ^ k
  if num < 0 then -(m : Int) else (m : Int)

/-- The number of units `2^-1074` in `1`. -/
def binary64Unit : Nat := 2 ^ 1074

/-- The arithmetic of IEEE 754 binary64 with rounding to nearest, on finite values: every
operation rounds its exact result. Infinities, NaN and the sign of zero are not modelled; a
division by zero, which the waveform functions do not reach (a ramp divides by `pb - pa`
only under `pa <= phase < pb`), gives 0. -/
def binary64 : DoubleArith Int :=
  { ofInt := fun n => roundUnits ((n * binary64Unit : Nat) : Int) 1
    add := fun a b => roundUnits (a + b) 1
    sub := fun a b => roundUnits (a - b) 1
    mul := fun a b => roundUnits (a * b) binary64Unit
    div := fun a b =>
      if b = 0 then 0
      else roundUnits ((if b < 0 then -a else a) * ((binary64Unit : Nat) : Int)) b.natAbs
    neg := fun a => -a }

/-- The `double` nearest to `num / den`: the value of a decimal literal. -/
def decimal (num den : Nat) : Int := roundUnits ((num * binary64Unit : Nat) : Int) den

/-- A walker over binary64 with every leg stepper at `phase`. -/
def walkerBinary64 (pitchAmplitude rollAmplitude stancePhase swingPhase phaseOffset phase : Int) :
    WalkController Int :=
  { params :=
      { pitchAmplitude := pitchAmplitude, rollAmplitude := rollAmplitude
        stancePhase := stancePhase, swingPhase := swingPhase, phaseOffset := phaseOffset }
    legSteppers := fun _ _ => { phase := phase } }

/-! # Theorems -/

section Containers

variable {α : Type}

theorem mapFind_of_keys (m : List (Nat × α)) (s n : Nat)
    (hk : m.map Prod.fst = List.range' s n) (i : Nat) (hi : i < n) :
    ∃ v, m.get? i = some (s + i, v) ∧ mapFind m (s + i) = some v := by
  induction m generalizing s n i with
  | nil =>
    cases n with
    | zero => omega
    | succ n => simp [List.range'] at hk
  | cons p rest ih =>
    cases n with
    | zero => simp at hk
    | succ n =>
      obtain ⟨k, v⟩ := p
      simp only [List.map_cons, List.range'_succ, List.cons.injEq] at hk
      obtain ⟨hk1, hk2⟩ := hk
      subst hk1
      cases i with
      | zero => exact ⟨v, by simp, by simp [mapFind, List.lookup]⟩
      | succ i =>
        obtain ⟨w, hw1, hw2⟩ := ih (k + 1) n hk2 i (by omega)
        refine ⟨w, ?_, ?_⟩
        · simpa [show k + (i + 1) = k + 1 + i by omega] using hw1
        · have hne : (k + (i + 1) == k) = false := by simp
          simp only [mapFind, List.lookup, hne]
          simpa [mapFind, show k + (i + 1) = k + 1 + i by omega] using hw2

theorem mapFind_cons_ne (k k' : Nat) (v : α) (rest : List (Nat × α)) (hne : k ≠ k') :
    mapFind ((k', v) :: rest) k = mapFind rest k := by
  have hb : (k == k') = false := by simpa using hne
  simp [mapFind, List.lookup, hb]

theorem keys_eq_map (d : α) (m : List (Nat × α)) (s n : Nat)
    (hk : m.map Prod.fst = List.range' s n) :
    m = (List.range' s n).map (fun k => (k, (mapFind m k).getD d)) := by
  induction m generalizing s n with
  | nil =>
    cases n with
    | zero => simp
    | succ n => simp [List.range'] at hk
  | cons p rest ih =>
    cases n with
    | zero => simp at hk
    | succ n =>
      obtain ⟨k, v⟩ := p
      simp only [List.map_cons, List.range'_succ, List.cons.injEq] at hk
      obtain ⟨hk1, hk2⟩ := hk
      subst hk1
      have hrest := ih (k + 1) n hk2
      simp only [List.range'_succ, List.map_cons, List.cons.injEq]
      refine ⟨by simp [mapFind, List.lookup], ?_⟩
      conv_lhs => rw [hrest]
      apply List.map_congr_left
      intro j hj
      have hj' : k + 1 ≤ j := by
        have := List.mem_range'_1.mp hj
        omega
      have hne : j ≠ k := by omega
      rw [mapFind_cons_ne j k v _ hne]

theorem mapFind_map (g : Nat → α) (s n k : Nat) :
    mapFind ((List.range' s n).map (fun i => (i, g i))) k
      = if s ≤ k ∧ k < s + n then some (g k) else none := by
  induction n generalizing s with
  | zero =>
    have hn : ¬ (s ≤ k ∧ k < s + 0) := by omega
    rw [if_neg hn]
    simp [mapFind, List.lookup]
  | succ n ih =>
    simp only [List.range'_succ, List.map_cons]
    by_cases hks : k = s
    · subst hks
      simp [mapFind, List.lookup]
    · rw [mapFind_cons_ne k s _ _ hks, ih (s + 1)]
      by_cases h1 : s + 1 ≤ k ∧ k < s + 1 + n
      · rw [if_pos h1, if_pos (by omega)]
      · rw [if_neg h1, if_neg (by omega)]

theorem mapFind_map_val {β : Type} (f : Nat × α → β) (m : List (Nat × α)) (k : Nat) :
    mapFind (m.map (fun p => (p.1, f p))) k = (mapFind m k).map (fun v => f (k, v)) := by
  induction m with
  | nil => simp [mapFind, List.lookup]
  | cons p rest ih =>
    obtain ⟨k', v⟩ := p
    by_cases hk : k = k'
    · subst hk
      simp [mapFind, List.lookup]
    · rw [List.map_cons, mapFind_cons_ne k k' _ _ hk, mapFind_cons_ne k k' _ _ hk, ih]

end Containers

section ChainLemmas

set_option linter.unusedSectionVars false

variable {K : Type} [LinearOrderedField K]

theorem chainShape_joints_eq (leg : Leg K) (N : Nat) (hs : leg.chainShape N) :
    leg.joint_container_ = (List.range' 1 N).map (fun k => (k, leg.jointAt k)) :=
  keys_eq_map Joint.zero leg.joint_container_ 1 N hs.2.1

theorem chainShape_links_eq (leg : Leg K) (N : Nat) (hs : leg.chainShape N) :
    leg.link_container_ = (List.range' 0 (N + 1)).map (fun k => (k, leg.linkAt k)) :=
  keys_eq_map Link.zero leg.link_container_ 0 (N + 1) hs.2.2.1

theorem chainShape_find_joint (leg : Leg K) (N : Nat) (hs : leg.chainShape N) (k : Nat)
    (hk1 : 1 ≤ k) (hk2 : k ≤ N) : mapFind leg.joint_container_ k = some (leg.jointAt k) := by
  obtain ⟨v, _, hv⟩ := mapFind_of_keys leg.joint_container_ 1 N hs.2.1 (k - 1) (by omega)
  have hk : 1 + (k - 1) = k := by omega
  rw [hk] at hv
  simp [Leg.jointAt, hv]

theorem chainShape_find_link (leg : Leg K) (N : Nat) (hs : leg.chainShape N) (k : Nat)
    (hk : k ≤ N) : mapFind leg.link_container_ k = some (leg.linkAt k) := by
  obtain ⟨v, _, hv⟩ := mapFind_of_keys leg.link_container_ 0 (N + 1) hs.2.2.1 k (by omega)
  rw [Nat.zero_add] at hv
  simp [Leg.linkAt, hv]

theorem chainShape_mem_joint (leg : Leg K) (N : Nat) (hs : leg.chainShape N) (k : Nat)
    (hk1 : 1 ≤ k) (hk2 : k ≤ N) : (k, leg.jointAt k) ∈ leg.joint_container_ := by
  rw [chainShape_joints_eq leg N hs]
  exact List.mem_map.mpr ⟨k, List.mem_range'_1.mpr ⟨hk1, by omega⟩, rfl⟩

theorem chainShape_mem_link (leg : Leg K) (N : Nat) (hs : leg.chainShape N) (k : Nat)
    (hk : k ≤ N) : (k, leg.linkAt k) ∈ leg.link_container_ := by
  rw [chainShape_links_eq leg N hs]
  exact List.mem_map.mpr ⟨k, List.mem_range'_1.mpr ⟨by omega, by omega⟩, rfl⟩

theorem chainShape_key_bounds (leg : Leg K) (N : Nat) (hs : leg.chainShape N)
    (p : Nat × Joint K) (hp : p ∈ leg.joint_container_) : 1 ≤ p.1 ∧ p.1 ≤ N := by
  have hmem : p.1 ∈ leg.joint_container_.map Prod.fst := List.mem_map.mpr ⟨p, hp, rfl⟩
  rw [hs.2.1] at hmem
  have := List.mem_range'_1.mp hmem
  omega

theorem chainShape_linkAt_actuating (leg : Leg K) (N : Nat) (hs : leg.chainShape N) (k : Nat)
    (hk1 : 1 ≤ k) (hk2 : k ≤ N) : (leg.linkAt k).actuating_joint = some k :=
  hs.2.2.2.2.1 (k, leg.linkAt k) (chainShape_mem_link leg N hs k hk2) hk1

theorem chainShape_cons (leg : Leg K) (N : Nat) (hs : leg.chainShape N) (hN : 1 ≤ N) :
    ∃ first rest, leg.joint_container_ = first :: rest ∧ first.1 = 1 ∧
      rest.map Prod.fst = List.range' 2 (N - 1) ∧
      ∀ p ∈ rest, p ∈ leg.joint_container_ ∧ 2 ≤ p.1 := by
  have hk := hs.2.1
  obtain ⟨n, rfl⟩ : ∃ n, N = n + 1 := ⟨N - 1, by omega⟩
  cases hjc : leg.joint_container_ with
  | nil => rw [hjc] at hk; simp [List.range'_succ] at hk
  | cons first rest =>
    rw [hjc] at hk
    simp only [List.map_cons, List.range'_succ, List.cons.injEq] at hk
    refine ⟨first, rest, rfl, hk.1, by simpa using hk.2, ?_⟩
    intro p hp
    refine ⟨List.mem_cons_of_mem _ hp, ?_⟩
    have hmem : p.1 ∈ rest.map Prod.fst := List.mem_map.mpr ⟨p, hp, rfl⟩
    rw [hk.2] at hmem
    have := List.mem_range'_1.mp hmem
    omega

/-- The pointer chain `joint->reference_link->actuating_joint` of a joint after the first. -/
theorem chainShape_deref (leg : Leg K) (N : Nat) (hs : leg.chainShape N)
    (p : Nat × Joint K) (hp : p ∈ leg.joint_container_) (h2 : 2 ≤ p.1) :
    mapFind leg.link_container_ p.2.reference_link = some (leg.linkAt (p.1 - 1)) ∧
    (leg.linkAt (p.1 - 1)).actuating_joint = some (p.1 - 1) ∧
    mapFind leg.joint_container_ (p.1 - 1) = some (leg.jointAt (p.1 - 1)) := by
  have hb := chainShape_key_bounds leg N hs p hp
  refine ⟨?_, ?_, ?_⟩
  · rw [hs.2.2.2.1 p hp]
    exact chainShape_find_link leg N hs _ (by omega)
  · exact chainShape_linkAt_actuating leg N hs _ (by omega) (by omega)
  · exact chainShape_find_joint leg N hs _ (by omega) (by omega)

/-- The pointer chain `tip_->reference_link->actuating_joint`. -/
theorem chainShape_deref_tip (leg : Leg K) (N : Nat) (hs : leg.chainShape N) (hN : 1 ≤ N) :
    mapFind leg.link_container_ leg.tip_.reference_link
      = some (leg.linkAt leg.tip_.reference_link) ∧
    (leg.linkAt leg.tip_.reference_link).actuating_joint = some leg.tip_.reference_link ∧
    mapFind leg.joint_container_ leg.tip_.reference_link
      = some (leg.jointAt leg.tip_.reference_link) := by
  rw [hs.2.2.2.2.2]
  exact ⟨chainShape_find_link leg N hs N le_rfl,
    chainShape_linkAt_actuating leg N hs N hN le_rfl,
    chainShape_find_joint leg N hs N hN le_rfl⟩

theorem applyFK_loop_eq (h : Helpers K) (leg : Leg K) (N : Nat) (hs : leg.chainShape N)
    (rest : List (Nat × Joint K)) (hrest : ∀ p ∈ rest, p ∈ leg.joint_container_ ∧ 2 ≤ p.1) :
    Leg.applyFK.loop h leg rest
      = some (rest.map
          (fun p => (p.1, { p.2 with transform := leg.dhMatrixAt h (p.1 - 1) }))) := by
  induction rest with
  | nil => rfl
  | cons p rest ih =>
    obtain ⟨k, joint⟩ := p
    have hp := hrest (k, joint) (List.mem_cons_self _ _)
    obtain ⟨h1, h2, h3⟩ := chainShape_deref leg N hs (k, joint) hp.1 hp.2
    have ih' := ih (fun q hq => hrest q (List.mem_cons_of_mem _ hq))
    simp only at h1 h2 h3
    simp [Leg.applyFK.loop, h1, h2, h3, ih', Leg.dhMatrixAt]

/-- On a chain of `N >= 1` joints `applyFK` returns, and writes the DH matrices. -/
theorem applyFK_eq (h : Helpers K) (leg : Leg K) (N : Nat) (hs : leg.chainShape N)
    (hN : 1 ≤ N) (time_delta : K) (set_local : Bool) :
    leg.applyFK h time_delta set_local
      = some (leg.fkResult h time_delta set_local, leg.fkPosition h) := by
  obtain ⟨first, rest, hjc, _, _, hrest⟩ := chainShape_cons leg N hs hN
  obtain ⟨h1, h2, h3⟩ := chainShape_deref_tip leg N hs hN
  have hloop := applyFK_loop_eq h leg N hs rest hrest
  unfold Leg.applyFK
  simp only [Leg.fkResult, Leg.fkPosition, Leg.fkJoints, Leg.fkTip]
  rw [hjc] at h3 ⊢
  simp only [hloop, h1, h2, h3, Option.bind_eq_bind, Option.some_bind, Leg.dhMatrixAt]
  cases set_local with
  | false => simp
  | true =>
    by_cases hu : leg.local_tip_position_ 0 = h.UNASSIGNED_VALUE
    · simp [hu]
    · simp [hu]

theorem dh_parameters_loop_eq (leg : Leg K) (N : Nat) (hs : leg.chainShape N)
    (rest : List (Nat × Joint K)) (hrest : ∀ p ∈ rest, p ∈ leg.joint_container_ ∧ 2 ≤ p.1) :
    Leg.dh_parameters.loop leg rest = some (rest.map (fun p => leg.dhAt (p.1 - 1))) := by
  induction rest with
  | nil => rfl
  | cons p rest ih =>
    obtain ⟨k, joint⟩ := p
    have hp := hrest (k, joint) (List.mem_cons_self _ _)
    obtain ⟨h1, h2, h3⟩ := chainShape_deref leg N hs (k, joint) hp.1 hp.2
    have ih' := ih (fun q hq => hrest q (List.mem_cons_of_mem _ hq))
    simp only at h1 h2 h3
    simp [Leg.dh_parameters.loop, h1, h2, h3, ih', Leg.dhAt]

/-- On a chain of `N >= 1` joints `dh_parameters` holds the DH parameter sets of the links
`1..N`, each at the desired position of its actuating joint. -/
theorem dh_parameters_eq (leg : Leg K) (N : Nat) (hs : leg.chainShape N) (hN : 1 ≤ N) :
    leg.dh_parameters = some ((List.range' 1 N).map leg.dhAt) := by
  obtain ⟨first, rest, hjc, _, hkeys, hrest⟩ := chainShape_cons leg N hs hN
  obtain ⟨h1, h2, h3⟩ := chainShape_deref_tip leg N hs hN
  have hloop := dh_parameters_loop_eq leg N hs rest hrest
  have hbody : rest.map (fun p => leg.dhAt (p.1 - 1)) = (List.range' 1 (N - 1)).map leg.dhAt := by
    have e1 : rest.map (fun p => leg.dhAt (p.1 - 1))
        = (rest.map Prod.fst).map (fun k => leg.dhAt (k - 1)) := by
      simp [List.map_map, Function.comp]
    rw [e1, hkeys]
    have e2 : List.range' 2 (N - 1) = (List.range' 1 (N - 1)).map (fun k => 1 + k) := by
      rw [List.map_add_range']
    rw [e2, List.map_map]
    apply List.map_congr_left
    intro k _
    simp
  have hlast : (List.range' 1 N).map leg.dhAt
      = (List.range' 1 (N - 1)).map leg.dhAt ++ [leg.dhAt N] := by
    obtain ⟨n, rfl⟩ : ∃ n, N = n + 1 := ⟨N - 1, by omega⟩
    rw [List.range'_1_concat]
    simp [Nat.add_comm]
  unfold Leg.dh_parameters
  rw [hjc] at h3 ⊢
  have hN' : leg.tip_.reference_link = N := hs.2.2.2.2.2
  simp only [hloop, h1, h2, h3, Option.bind_eq_bind, Option.some_bind, hbody, hlast]
  simp [Leg.dhAt, hN']

theorem vecGet_eq {n : Nat} (v : Fin n → K) (i : Nat) (hi : i < n) :
    vecGet v i = some (vecGetD v i) := by
  simp [vecGetD, vecGet, hi]

theorem applyIK_loop_eq {n : Nat} (id_name_ : String) (clamp_to_limits : Bool)
    (v : Fin n → K) (rest : List (Nat × Joint K)) (index len : Nat)
    (hkeys : rest.map Prod.fst = List.range' (index + 1) len) (hlen : index + len ≤ n) :
    Leg.applyIK.loop id_name_ clamp_to_limits v index rest
      = some
        (rest.map (fun p =>
            (p.1, (Leg.applyIK.step id_name_ clamp_to_limits (vecGetD v (p.1 - 1)) p.2).1)),
          rest.flatMap (fun p =>
            (Leg.applyIK.step id_name_ clamp_to_limits (vecGetD v (p.1 - 1)) p.2).2)) := by
  induction rest generalizing index len with
  | nil => rfl
  | cons p rest ih =>
    cases len with
    | zero => simp at hkeys
    | succ len =>
      obtain ⟨k, joint⟩ := p
      simp only [List.map_cons, List.range'_succ, List.cons.injEq] at hkeys
      obtain ⟨hk, hkeys'⟩ := hkeys
      subst hk
      have ih' := ih (index + 1) len hkeys' (by omega)
      have hget := vecGet_eq v index (by omega)
      simp [Leg.applyIK.loop, hget, ih']

/-- Rewriting the joints in place, pointers kept, keeps the shape of the chain. -/
theorem chainShape_map_joints (leg leg' : Leg K) (N : Nat) (hs : leg.chainShape N)
    (f : Nat × Joint K → Joint K) (hf : ∀ p, (f p).reference_link = p.2.reference_link)
    (hj : leg'.joint_container_ = leg.joint_container_.map (fun p => (p.1, f p)))
    (hl : leg'.link_container_ = leg.link_container_)
    (ht : leg'.tip_.reference_link = leg.tip_.reference_link)
    (hn : leg'.num_joints_ = leg.num_joints_) : leg'.chainShape N := by
  obtain ⟨s1, s2, s3, s4, s5, s6⟩ := hs
  refine ⟨hn.trans s1, ?_, hl ▸ s3, ?_, hl ▸ s5, ht.trans s6⟩
  · rw [hj, List.map_map]
    exact s2
  · intro p hp
    rw [hj] at hp
    obtain ⟨q, hq, rfl⟩ := List.mem_map.mp hp
    simp only
    rw [hf q]
    exact s4 q hq

theorem jointAt_map_joints (leg leg' : Leg K) (N : Nat) (hs : leg.chainShape N)
    (f : Nat × Joint K → Joint K)
    (hj : leg'.joint_container_ = leg.joint_container_.map (fun p => (p.1, f p)))
    (k : Nat) (hk1 : 1 ≤ k) (hk2 : k ≤ N) : leg'.jointAt k = f (k, leg.jointAt k) := by
  unfold Leg.jointAt
  rw [hj, mapFind_map_val, chainShape_find_joint leg N hs k hk1 hk2]
  rfl

theorem linkAt_congr (leg leg' : Leg K) (hl : leg'.link_container_ = leg.link_container_)
    (k : Nat) : leg'.linkAt k = leg.linkAt k := by
  unfold Leg.linkAt
  rw [hl]

theorem applyIK_step_reference_link (id_name_ : String) (clamp_to_limits : Bool) (delta : K)
    (joint : Joint K) :
    (Leg.applyIK.step id_name_ clamp_to_limits delta joint).1.reference_link
      = joint.reference_link := by
  unfold Leg.applyIK.step
  simp only
  split_ifs <;> rfl

theorem ikLoopResult_chainShape (h : Helpers K) (leg : Leg K) (N : Nat) (hs : leg.chainShape N)
    (clamp_to_limits : Bool) : (leg.ikLoopResult h clamp_to_limits).chainShape N :=
  chainShape_map_joints leg _ N hs
    (fun p => (Leg.applyIK.step leg.id_name_ clamp_to_limits
      (vecGetD (leg.ikDelta h) (p.1 - 1)) p.2).1)
    (fun _ => applyIK_step_reference_link _ _ _ _) rfl rfl rfl rfl

theorem joint_delta_pos_eq (h : Helpers K) (leg : Leg K) (N : Nat) (hs : leg.chainShape N)
    (hN : 1 ≤ N) : leg.joint_delta_pos h = some (leg.ikDelta h) := by
  obtain ⟨first, rest, hjc, hfirst, _, _⟩ := chainShape_cons leg N hs hN
  have hdh := dh_parameters_eq leg N hs hN
  have hbase : leg.jointAt 1 = first.2 := by
    have := chainShape_find_joint leg N hs 1 le_rfl hN
    rw [hjc] at this
    obtain ⟨k, j⟩ := first
    simp only at hfirst
    subst hfirst
    simp [mapFind, List.lookup] at this
    simp [this]
  unfold Leg.joint_delta_pos Leg.ikDelta
  rw [hdh, hs.1, hbase, hjc]
  rfl

/-- On a chain of `N >= 1` joints `applyIK` returns; the result in closed form. -/
theorem applyIK_eq (h : Helpers K) (leg : Leg K) (N : Nat) (hs : leg.chainShape N)
    (hN : 1 ≤ N) (time_delta : K) (clamp_to_limits debug : Bool) :
    leg.applyIK h time_delta clamp_to_limits debug
      = some ((leg.ikLoopResult h clamp_to_limits).fkResult h time_delta true, true,
          leg.ikWarnings clamp_to_limits (leg.ikDelta h)
            ++ leg.ikToleranceWarnings ((leg.ikLoopResult h clamp_to_limits).fkPosition h)) := by
  have hd := joint_delta_pos_eq h leg N hs hN
  have hloop := applyIK_loop_eq leg.id_name_ clamp_to_limits (leg.ikDelta h)
    leg.joint_container_ 0 N (by simpa using hs.2.1) (by rw [hs.1]; omega)
  have hfk := applyFK_eq h (leg.ikLoopResult h clamp_to_limits) N
    (ikLoopResult_chainShape h leg N hs clamp_to_limits) hN time_delta true
  unfold Leg.applyIK
  simp only [hd, hloop, Option.bind_eq_bind, Option.some_bind, applyFK_set_local_default]
  have hleg : ({ leg with joint_container_ := List.map (fun p =>
      (p.1, (Leg.applyIK.step leg.id_name_ clamp_to_limits
        (vecGetD (leg.ikDelta h) (p.1 - 1)) p.2).1)) leg.joint_container_ } : Leg K)
      = leg.ikLoopResult h clamp_to_limits := rfl
  rw [hleg, hfk]
  rfl

theorem fkJoints_eq_map (h : Helpers K) (leg : Leg K) (N : Nat) (hs : leg.chainShape N)
    (hN : 1 ≤ N) :
    leg.fkJoints h = leg.joint_container_.map (fun p =>
      (p.1, { p.2 with
                transform :=
                  if p.1 = 1 then p.2.transform else leg.dhMatrixAt h (p.1 - 1) })) := by
  obtain ⟨first, rest, hjc, hfirst, _, hrest⟩ := chainShape_cons leg N hs hN
  unfold Leg.fkJoints
  rw [hjc] at hrest ⊢
  simp only [List.map_cons, hfirst, if_true, List.cons.injEq]
  refine ⟨?_, ?_⟩
  · obtain ⟨k, j⟩ := first
    simp only at hfirst
    subst hfirst
    rfl
  · apply List.map_congr_left
    intro p hp
    have h2 := (hrest p hp).2
    have hne : p.1 ≠ 1 := by omega
    simp [hne]

theorem fkResult_chainShape (h : Helpers K) (leg : Leg K) (N : Nat) (hs : leg.chainShape N)
    (hN : 1 ≤ N) (time_delta : K) (set_local : Bool) :
    (leg.fkResult h time_delta set_local).chainShape N :=
  chainShape_map_joints leg _ N hs
    (fun p => { p.2 with
                  transform :=
                    if p.1 = 1 then p.2.transform else leg.dhMatrixAt h (p.1 - 1) })
    (fun _ => rfl) (fkJoints_eq_map h leg N hs hN) rfl rfl rfl

theorem fkResult_jointAt (h : Helpers K) (leg : Leg K) (N : Nat) (hs : leg.chainShape N)
    (hN : 1 ≤ N) (time_delta : K) (set_local : Bool) (k : Nat) (hk1 : 1 ≤ k) (hk2 : k ≤ N) :
    (leg.fkResult h time_delta set_local).jointAt k
      = { leg.jointAt k with
            transform :=
              if k = 1 then (leg.jointAt k).transform else leg.dhMatrixAt h (k - 1) } :=
  jointAt_map_joints leg _ N hs _ (fkJoints_eq_map h leg N hs hN) k hk1 hk2

theorem ikLoopResult_jointAt (h : Helpers K) (leg : Leg K) (N : Nat) (hs : leg.chainShape N)
    (clamp_to_limits : Bool) (k : Nat) (hk1 : 1 ≤ k) (hk2 : k ≤ N) :
    (leg.ikLoopResult h clamp_to_limits).jointAt k
      = (Leg.applyIK.step leg.id_name_ clamp_to_limits (vecGetD (leg.ikDelta h) (k - 1))
          (leg.jointAt k)).1 :=
  jointAt_map_joints leg _ N hs
    (fun p => (Leg.applyIK.step leg.id_name_ clamp_to_limits
      (vecGetD (leg.ikDelta h) (p.1 - 1)) p.2).1) rfl k hk1 hk2

/-- The joint stored under key `k` after `applyIK`: the joint the loop body produces, with the
transform `applyFK` writes. -/
theorem applyIK_result_find (h : Helpers K) (leg : Leg K) (N : Nat) (hs : leg.chainShape N)
    (hN : 1 ≤ N) (time_delta : K) (clamp_to_limits : Bool) (k : Nat) (hk1 : 1 ≤ k)
    (hk2 : k ≤ N) :
    ∃ t, mapFind ((leg.ikLoopResult h clamp_to_limits).fkResult h time_delta true).joint_container_
        k
      = some { (Leg.applyIK.step leg.id_name_ clamp_to_limits (vecGetD (leg.ikDelta h) (k - 1))
                (leg.jointAt k)).1 with transform := t } := by
  have hs1 := ikLoopResult_chainShape h leg N hs clamp_to_limits
  have hs2 := fkResult_chainShape h _ N hs1 hN time_delta true
  have hfind := chainShape_find_joint _ N hs2 k hk1 hk2
  rw [fkResult_jointAt h _ N hs1 hN time_delta true k hk1 hk2,
    ikLoopResult_jointAt h leg N hs clamp_to_limits k hk1 hk2] at hfind
  exact ⟨_, hfind⟩

end ChainLemmas

section Damping

variable {K : Type} [LinearOrderedField K]

theorem dls_quadratic {n : Nat} (j : Matrix (Fin 3) (Fin n) K) (v : Fin 3 → K) :
    Matrix.dotProduct v ((dlsMatrix j).mulVec v)
      = Matrix.dotProduct (j.transpose.mulVec v) (j.transpose.mulVec v)
        + sqr (dls_cooeficient : K) * Matrix.dotProduct v v := by
  unfold dlsMatrix
  rw [Matrix.add_mulVec, Matrix.dotProduct_add, Matrix.smul_mulVec_assoc, Matrix.one_mulVec,
    Matrix.dotProduct_smul, smul_eq_mul, ← Matrix.mulVec_mulVec, Matrix.dotProduct_mulVec,
    Matrix.mulVec_transpose]

theorem sqr_dls_pos : 0 < sqr (dls_cooeficient : K) := by
  unfold sqr dls_cooeficient
  norm_num

theorem dls_posdef {n : Nat} (j : Matrix (Fin 3) (Fin n) K) (v : Fin 3 → K) (hv : v ≠ 0) :
    0 < Matrix.dotProduct v ((dlsMatrix j).mulVec v) := by
  rw [dls_quadratic]
  have h1 : 0 ≤ Matrix.dotProduct (j.transpose.mulVec v) (j.transpose.mulVec v) :=
    Finset.sum_nonneg (fun i _ => mul_self_nonneg _)
  have h2 : 0 < Matrix.dotProduct v v := by
    have h0 : 0 ≤ Matrix.dotProduct v v := Finset.sum_nonneg (fun i _ => mul_self_nonneg _)
    rcases h0.lt_or_eq with hlt | heq
    · exact hlt
    · exact absurd (Matrix.dotProduct_self_eq_zero.mp heq.symm) hv
  have h3 := mul_pos (sqr_dls_pos : 0 < sqr (dls_cooeficient : K)) h2
  linarith

theorem dls_det_ne_zero {n : Nat} (j : Matrix (Fin 3) (Fin n) K) : (dlsMatrix j).det ≠ 0 := by
  intro hdet
  obtain ⟨v, hv, hmv⟩ := Matrix.exists_mulVec_eq_zero_iff.mpr hdet
  have hpos := dls_posdef j v hv
  rw [hmv] at hpos
  simp at hpos

theorem inverse_eq_inv (m : Matrix3d K) : inverse m = m⁻¹ := by
  simp [inverse, Matrix.inv_def]

theorem dlsMatrix_eq {n : Nat} (j : Matrix (Fin 3) (Fin n) K) :
    dlsMatrix j = j * j.transpose + (0.0004 : K) • (1 : Matrix3d K) := by
  unfold dlsMatrix sqr dls_cooeficient
  norm_num

theorem ikMatrix_eq {n : Nat} (j : Matrix (Fin 3) (Fin n) K) :
    ikMatrix j = j.transpose * (j * j.transpose + (0.0004 : K) • (1 : Matrix3d K))⁻¹ := by
  unfold ikMatrix
  rw [inverse_eq_inv, dlsMatrix_eq]

end Damping

section StepLemmas

variable {K : Type} [LinearOrderedField K]

theorem applyIK_step_desired (id_name_ : String) (clamp_to_limits : Bool) (delta : K)
    (joint : Joint K) :
    (Leg.applyIK.step id_name_ clamp_to_limits delta joint).1.desired_position
      = if clamp_to_limits = true then
          if joint.prev_desired_position + delta < joint.min_position then joint.min_position
          else if joint.max_position < joint.prev_desired_position + delta then
            joint.max_position
          else joint.prev_desired_position + delta
        else joint.prev_desired_position + delta := by
  unfold Leg.applyIK.step
  simp only [gt_iff_lt]
  split_ifs <;> rfl

theorem applyIK_step_warnings (id_name_ : String) (clamp_to_limits : Bool) (delta : K)
    (joint : Joint K) :
    (Leg.applyIK.step id_name_ clamp_to_limits delta joint).2
      = if clamp_to_limits = true then
          if joint.prev_desired_position + delta < joint.min_position then
            [LogEvent.minLimitWarning id_name_ joint.name joint.min_position]
          else if joint.max_position < joint.prev_desired_position + delta then
            [LogEvent.maxLimitWarning id_name_ joint.name joint.max_position]
          else []
        else [] := by
  unfold Leg.applyIK.step
  simp only [gt_iff_lt]
  split_ifs <;> rfl

theorem applyIK_step_frame (id_name_ : String) (clamp_to_limits : Bool) (delta : K)
    (joint : Joint K) :
    (Leg.applyIK.step id_name_ clamp_to_limits delta joint).1.prev_desired_position
        = joint.prev_desired_position ∧
    (Leg.applyIK.step id_name_ clamp_to_limits delta joint).1.min_position
        = joint.min_position ∧
    (Leg.applyIK.step id_name_ clamp_to_limits delta joint).1.max_position
        = joint.max_position ∧
    (Leg.applyIK.step id_name_ clamp_to_limits delta joint).1.name = joint.name := by
  unfold Leg.applyIK.step
  simp only
  split_ifs <;> exact ⟨rfl, rfl, rfl, rfl⟩

theorem vecGetD_fin {n : Nat} (v : Fin n → K) (i : Fin n) : vecGetD v (i : Nat) = v i := by
  simp [vecGetD, vecGet, i.isLt]

theorem ikDelta_eq_zero (h : Helpers K) (leg : Leg K)
    (htip : leg.desired_tip_position_ = leg.local_tip_position_) : leg.ikDelta h = 0 := by
  unfold Leg.ikDelta
  rw [htip, sub_self, Matrix.mulVec_zero]

theorem vecGetD_zero {n : Nat} (i : Nat) : vecGetD (0 : Fin n → K) i = 0 := by
  unfold vecGetD vecGet
  split_ifs <;> simp

theorem ikToleranceWarnings_kind (leg : Leg K) (result : Vector3d K) :
    ∀ e ∈ leg.ikToleranceWarnings result,
      ∃ axis_label leg_name r d q, e = LogEvent.ikErrorWarning axis_label leg_name r d q := by
  intro e he
  simp only [Leg.ikToleranceWarnings, List.mem_flatMap] at he
  obtain ⟨axis, _, haxis⟩ := he
  unfold Leg.applyIK.check at haxis
  split_ifs at haxis
  · simp only [List.mem_singleton] at haxis
    exact ⟨_, _, _, _, _, haxis⟩
  · simp at haxis

end StepLemmas

section Agreement

set_option linter.unusedSectionVars false

variable {K : Type} [LinearOrderedField K]

theorem mapFind_forall₂ {α β : Type} (S : α → β → Prop) (m : List (Nat × α))
    (m' : List (Nat × β)) (hm : List.Forall₂ (fun p q => p.1 = q.1 ∧ S p.2 q.2) m m')
    (k : Nat) :
    (mapFind m k = none ∧ mapFind m' k = none) ∨
    ∃ v w, mapFind m k = some v ∧ mapFind m' k = some w ∧ S v w := by
  induction hm with
  | nil => left; exact ⟨rfl, rfl⟩
  | @cons p q rest rest' hpq _ ih =>
    obtain ⟨k1, v⟩ := p
    obtain ⟨k2, w⟩ := q
    obtain ⟨hk, hS⟩ := hpq
    simp only at hk hS
    subst hk
    by_cases hkk : k = k1
    · subst hkk
      right
      exact ⟨v, w, by simp [mapFind, List.lookup], by simp [mapFind, List.lookup], hS⟩
    · rw [mapFind_cons_ne k k1 v rest hkk, mapFind_cons_ne k k1 w rest' hkk]
      exact ih

/-- The pointer chain `reference_link->actuating_joint` yields the same DH matrix in two
agreeing states, or fails in both. -/
theorem fkAgree_deref (h : Helpers K) (a b : Leg K) (hab : a.fkAgree b) (k : Nat) :
    ((mapFind a.link_container_ k).bind (fun l =>
        l.actuating_joint.bind (fun key => (mapFind a.joint_container_ key).map (fun j =>
          h.createDHMatrix l.offset j.desired_position l.length l.twist))))
      = ((mapFind b.link_container_ k).bind (fun l =>
        l.actuating_joint.bind (fun key => (mapFind b.joint_container_ key).map (fun j =>
          h.createDHMatrix l.offset j.desired_position l.length l.twist)))) := by
  obtain ⟨hj, _, hl, _⟩ := hab
  rcases mapFind_forall₂ (fun (x y : Link K) => x.actuating_joint = y.actuating_joint ∧
      x.offset = y.offset ∧ x.length = y.length ∧ x.twist = y.twist) _ _ hl k
    with ⟨h1, h2⟩ | ⟨l, l', h1, h2, hact, hoff, hlen, htw⟩
  · rw [h1, h2]; rfl
  · rw [h1, h2]
    simp only [Option.some_bind]
    rw [← hact, ← hoff, ← hlen, ← htw]
    cases hkey : l.actuating_joint with
    | none => rfl
    | some key =>
      simp only [Option.some_bind]
      rcases mapFind_forall₂ (fun (x y : Joint K) => x.reference_link = y.reference_link ∧
          x.desired_position = y.desired_position) _ _ hj key
        with ⟨h3, h4⟩ | ⟨j, j', h3, h4, _, hdes⟩
      · rw [h3, h4]
      · rw [h3, h4]
        simp only [Option.map_some']
        rw [hdes]

theorem applyFK_loop_bind (h : Helpers K) (leg : Leg K) (k : Nat) (joint : Joint K)
    (rest : List (Nat × Joint K)) :
    Leg.applyFK.loop h leg ((k, joint) :: rest)
      = ((mapFind leg.link_container_ joint.reference_link).bind (fun l =>
          l.actuating_joint.bind (fun key => (mapFind leg.joint_container_ key).map (fun j =>
            h.createDHMatrix l.offset j.desired_position l.length l.twist)))).bind
          (fun t => (Leg.applyFK.loop h leg rest).map
            (fun rest' => (k, { joint with transform := t }) :: rest')) := by
  rw [Leg.applyFK.loop]
  cases mapFind leg.link_container_ joint.reference_link with
  | none => rfl
  | some l =>
    cases hkey : l.actuating_joint with
    | none => simp [hkey]
    | some key =>
      cases hj : mapFind leg.joint_container_ key with
      | none => simp [hkey, hj]
      | some j =>
        cases hr : Leg.applyFK.loop h leg rest with
        | none => simp [hkey, hj, hr]
        | some r => simp [hkey, hj, hr]

theorem fkAgree_loop (h : Helpers K) (a b : Leg K) (hab : a.fkAgree b)
    (rest rest' : List (Nat × Joint K))
    (hr : List.Forall₂
      (fun p q => p.1 = q.1 ∧ p.2.reference_link = q.2.reference_link ∧
        p.2.desired_position = q.2.desired_position)
      rest rest') :
    (Leg.applyFK.loop h a rest).map (fun r => r.map (fun p => (p.1, p.2.transform)))
      = (Leg.applyFK.loop h b rest').map (fun r => r.map (fun p => (p.1, p.2.transform))) := by
  induction hr with
  | nil => rfl
  | @cons p q r r' hpq _ ih =>
    obtain ⟨k1, j1⟩ := p
    obtain ⟨k2, j2⟩ := q
    obtain ⟨hk, href, _⟩ := hpq
    simp only at hk href
    subst hk
    rw [applyFK_loop_bind, applyFK_loop_bind, href, fkAgree_deref h a b hab j2.reference_link]
    cases ((mapFind b.link_container_ j2.reference_link).bind (fun l =>
        l.actuating_joint.bind (fun key => (mapFind b.joint_container_ key).map (fun j =>
          h.createDHMatrix l.offset j.desired_position l.length l.twist)))) with
    | none => rfl
    | some t =>
      simp only [Option.some_bind, Option.map_map]
      cases hA : Leg.applyFK.loop h a r with
      | none =>
        rw [hA] at ih
        cases hB : Leg.applyFK.loop h b r' with
        | none => rfl
        | some rb => rw [hB] at ih; simp at ih
      | some ra =>
        rw [hA] at ih
        cases hB : Leg.applyFK.loop h b r' with
        | none => rw [hB] at ih; simp at ih
        | some rb =>
          rw [hB] at ih
          simp only [Option.map_some', Option.some.injEq] at ih
          simp [ih]

theorem applyFK_bind (h : Helpers K) (leg : Leg K) (time_delta : K) (set_local : Bool)
    (first : Nat × Joint K) (rest : List (Nat × Joint K))
    (hjc : leg.joint_container_ = first :: rest) :
    (leg.applyFK h time_delta set_local).map fkOutput
      = (Leg.applyFK.loop h leg rest).bind (fun rest' =>
          ((mapFind leg.link_container_ leg.tip_.reference_link).bind (fun l =>
            l.actuating_joint.bind (fun key => (mapFind leg.joint_container_ key).map (fun j =>
              h.createDHMatrix l.offset j.desired_position l.length l.twist)))).map
            (fun t =>
              (h.getPositionWorldFrame
                  (first.2.transform :: rest'.map (fun p => p.2.transform)) t,
                (first.1, first.2.transform) :: rest'.map (fun p => (p.1, p.2.transform)),
                t))) := by
  unfold Leg.applyFK
  rw [hjc]
  simp only
  rw [← hjc]
  cases Leg.applyFK.loop h leg rest with
  | none => rfl
  | some rest' =>
    cases mapFind leg.link_container_ leg.tip_.reference_link with
    | none => rfl
    | some l =>
      cases hkey : l.actuating_joint with
      | none => simp [hkey]
      | some key =>
        cases hj : mapFind leg.joint_container_ key with
        | none => simp [hkey, hj]
        | some j =>
          cases set_local with
          | false => simp [hkey, hj, fkOutput]
          | true =>
            by_cases hu : leg.local_tip_position_ 0 = h.UNASSIGNED_VALUE
            · simp [hkey, hj, fkOutput, hu]
            · simp [hkey, hj, fkOutput, hu]

/-- In two agreeing states `applyFK` returns the same tip position and writes the same
transforms, or fails in both. -/
theorem fkAgree_applyFK (h : Helpers K) (a b : Leg K) (hab : a.fkAgree b) (time_delta : K)
    (set_local : Bool) :
    (a.applyFK h time_delta set_local).map fkOutput
      = (b.applyFK h time_delta set_local).map fkOutput := by
  have hj := hab.1
  cases ha : a.joint_container_ with
  | nil =>
    rw [ha] at hj
    cases hb : b.joint_container_ with
    | nil => simp [Leg.applyFK, ha, hb]
    | cons q r => rw [hb] at hj; cases hj
  | cons first rest =>
    rw [ha] at hj
    cases hb : b.joint_container_ with
    | nil => rw [hb] at hj; cases hj
    | cons first' rest' =>
      rw [hb] at hj
      obtain ⟨hfirst, hrest⟩ := List.forall₂_cons.mp hj
      rw [applyFK_bind h a time_delta set_local first rest ha,
        applyFK_bind h b time_delta set_local first' rest' hb]
      have hloop := fkAgree_loop h a b hab rest rest' hrest
      have htip := fkAgree_deref h a b hab a.tip_.reference_link
      rw [hab.2.2.2] at htip
      rw [hab.2.2.2] at *
      rw [htip]
      have ht : first.2.transform = first'.2.transform := by
        have := hab.2.1
        rw [ha, hb] at this
        simpa using this
      obtain ⟨hk, _, _⟩ := hfirst
      cases hA : Leg.applyFK.loop h a rest with
      | none =>
        rw [hA] at hloop
        cases hB : Leg.applyFK.loop h b rest' with
        | none => rfl
        | some rb => rw [hB] at hloop; simp at hloop
      | some ra =>
        rw [hA] at hloop
        cases hB : Leg.applyFK.loop h b rest' with
        | none => rw [hB] at hloop; simp at hloop
        | some rb =>
          rw [hB] at hloop
          simp only [Option.map_some', Option.some.injEq] at hloop
          have hloop2 : ra.map (fun p => p.2.transform) = rb.map (fun p => p.2.transform) := by
            have := congrArg (List.map Prod.snd) hloop
            simpa [List.map_map, Function.comp] using this
          simp only [Option.some_bind]
          rw [hk, ht, hloop, hloop2]

theorem forall₂_map_self {α : Type} (R : α → α → Prop) (f : α → α) (m : List α)
    (hR : ∀ p, R p (f p)) : List.Forall₂ R m (m.map f) := by
  induction m with
  | nil => exact List.Forall₂.nil
  | cons p rest ih => exact List.Forall₂.cons (hR p) ih

/-- A leg and the leg `applyFK` made of it (whatever is then done to the tip positions and
velocity) agree in the sense of `fkAgree`. -/
theorem fkAgree_fkResult (h : Helpers K) (leg leg' : Leg K) (N : Nat) (hs : leg.chainShape N)
    (hN : 1 ≤ N) (hj : leg'.joint_container_ = leg.fkJoints h)
    (hl : leg'.link_container_ = leg.link_container_)
    (ht : leg'.tip_.reference_link = leg.tip_.reference_link) : leg.fkAgree leg' := by
  obtain ⟨first, rest, hjc, _, _, _⟩ := chainShape_cons leg N hs hN
  refine ⟨?_, ?_, ?_, ht.symm⟩
  · rw [hj, fkJoints_eq_map h leg N hs hN]
    exact forall₂_map_self _ _ _ (fun _ => ⟨rfl, rfl, rfl⟩)
  · rw [hj]
    unfold Leg.fkJoints
    rw [hjc]
    rfl
  · rw [hl]
    have := forall₂_map_self
      (fun (p q : Nat × Link K) => p.1 = q.1 ∧ p.2.actuating_joint = q.2.actuating_joint ∧
        p.2.offset = q.2.offset ∧ p.2.length = q.2.length ∧ p.2.twist = q.2.twist) id
      leg.link_container_ (fun _ => ⟨rfl, rfl, rfl, rfl, rfl⟩)
    rw [List.map_id] at this
    exact this

theorem init_step_fields (h : Helpers K) (flag : Bool) (joint : Joint K) :
    (Leg.init.step h flag joint).desired_position = (Leg.init.step h flag joint).current_position ∧
    (Leg.init.step h flag joint).prev_desired_position
      = (Leg.init.step h flag joint).current_position ∧
    (flag = false →
      (Leg.init.step h flag joint).current_position = joint.current_position ∧
      (Leg.init.step h flag joint).current_velocity = joint.current_velocity ∧
      (Leg.init.step h flag joint).current_effort = joint.current_effort) ∧
    (flag = true →
      (Leg.init.step h flag joint).current_position
        = h.clamped 0 joint.min_position joint.max_position ∧
      (Leg.init.step h flag joint).current_velocity = 0 ∧
      (Leg.init.step h flag joint).current_effort = 0) ∧
    (Leg.init.step h flag joint).reference_link = joint.reference_link ∧
    (Leg.init.step h flag joint).min_position = joint.min_position ∧
    (Leg.init.step h flag joint).max_position = joint.max_position ∧
    (Leg.init.step h flag joint).transform = joint.transform := by
  cases flag <;> simp [Leg.init.step]

theorem initLoopResult_chainShape (h : Helpers K) (leg : Leg K) (N : Nat)
    (hs : leg.chainShape N) (flag : Bool) : (leg.initLoopResult h flag).chainShape N :=
  chainShape_map_joints leg _ N hs (fun p => Leg.init.step h flag p.2)
    (fun p => (init_step_fields h flag p.2).2.2.2.2.1) rfl rfl rfl rfl

/-- On a chain of `N >= 1` joints `init` returns; the result in closed form. -/
theorem init_eq (h : Helpers K) (leg : Leg K) (N : Nat) (hs : leg.chainShape N) (hN : 1 ≤ N)
    (time_delta : K) (flag : Bool) :
    leg.init h time_delta flag = some (leg.initResult h time_delta flag) := by
  have hfk := applyFK_eq h _ N (initLoopResult_chainShape h leg N hs flag) hN time_delta true
  unfold Leg.init
  simp only [applyFK_set_local_default, Option.bind_eq_bind]
  unfold Leg.initLoopResult Leg.initJoints at hfk
  rw [hfk]
  rfl

theorem initResult_chainShape (h : Helpers K) (leg : Leg K) (N : Nat) (hs : leg.chainShape N)
    (hN : 1 ≤ N) (time_delta : K) (flag : Bool) :
    (leg.initResult h time_delta flag).chainShape N :=
  fkResult_chainShape h _ N (initLoopResult_chainShape h leg N hs flag) hN time_delta true

theorem initResult_jointAt (h : Helpers K) (leg : Leg K) (N : Nat) (hs : leg.chainShape N)
    (hN : 1 ≤ N) (time_delta : K) (flag : Bool) (k : Nat) (hk1 : 1 ≤ k) (hk2 : k ≤ N) :
    ∃ t, (leg.initResult h time_delta flag).jointAt k
      = { Leg.init.step h flag (leg.jointAt k) with transform := t } := by
  have h1 := fkResult_jointAt h _ N (initLoopResult_chainShape h leg N hs flag) hN time_delta
    true k hk1 hk2
  rw [jointAt_map_joints leg (leg.initLoopResult h flag) N hs
      (fun p => Leg.init.step h flag p.2) rfl k hk1 hk2] at h1
  exact ⟨_, h1⟩

/-- Running `applyFK` on the leg `init` left recomputes the local tip position. -/
theorem initResult_fkPosition (h : Helpers K) (leg : Leg K) (N : Nat) (hs : leg.chainShape N)
    (hN : 1 ≤ N) (time_delta : K) (flag : Bool) :
    (leg.initResult h time_delta flag).fkPosition h
      = (leg.initResult h time_delta flag).local_tip_position_ := by
  have hs1 := initLoopResult_chainShape h leg N hs flag
  have hs3 := initResult_chainShape h leg N hs hN time_delta flag
  have hag := fkAgree_fkResult h (leg.initLoopResult h flag) (leg.initResult h time_delta flag)
    N hs1 hN rfl rfl rfl
  have heq := fkAgree_applyFK h _ _ hag time_delta false
  rw [applyFK_eq h _ N hs1 hN time_delta false, applyFK_eq h _ N hs3 hN time_delta false] at heq
  simp only [Option.map_some', Option.some.injEq, fkOutput, Prod.mk.injEq] at heq
  rw [← heq.1]
  simp [Leg.initResult, Leg.fkResult]

end Agreement

section Construction

set_option linter.unusedSectionVars false

variable {K : Type} [LinearOrderedField K]

theorem mapInsert_append {α : Type} (m : List (Nat × α)) (k : Nat) (v : α)
    (hlt : ∀ p ∈ m, p.1 < k) : mapInsert m k v = m ++ [(k, v)] := by
  induction m with
  | nil => rfl
  | cons p rest ih =>
    obtain ⟨k', v'⟩ := p
    have hk : k' < k := hlt (k', v') (List.mem_cons_self _ _)
    have h1 : ¬ k < k' := by omega
    have h2 : ¬ k = k' := by omega
    simp only [mapInsert, h1, h2, if_false, List.cons_append, List.cons.injEq, true_and]
    exact ih (fun q hq => hlt q (List.mem_cons_of_mem _ hq))

theorem mapInsert_range {α : Type} (g : Nat → α) (s n : Nat) (v : α) (hv : v = g (s + n)) :
    mapInsert ((List.range' s n).map (fun k => (k, g k))) (s + n) v
      = (List.range' s (n + 1)).map (fun k => (k, g k)) := by
  rw [mapInsert_append, List.range'_concat, List.map_append, hv]
  · simp
  · intro p hp
    obtain ⟨k, hk, rfl⟩ := List.mem_map.mp hp
    have := List.mem_range'_1.mp hk
    simp only
    omega

/-- The chain-building loop in closed form. -/
theorem chainLoop_eq (h : Helpers K) (ind : Indeterminate K) (id_name_ : String)
    (id_number : Nat) (params : Parameters K) (count i : Nat) (st : ChainState K)
    (hi : 1 ≤ i)
    (hj : st.joint_container_
      = (List.range' 1 (i - 1)).map
          (fun k => (k, ctorJoint h ind params id_name_ id_number k)))
    (hl : st.link_container_
      = (List.range' 0 i).map (fun k => (k, ctorLink params id_name_ id_number k)))
    (hp : st.prev_link = ctorLink params id_name_ id_number (i - 1)) :
    (Leg.ctor.chainLoop h ind id_name_ id_number params count i st).joint_container_
      = (List.range' 1 (i - 1 + count)).map
          (fun k => (k, ctorJoint h ind params id_name_ id_number k)) ∧
    (Leg.ctor.chainLoop h ind id_name_ id_number params count i st).link_container_
      = (List.range' 0 (i + count)).map (fun k => (k, ctorLink params id_name_ id_number k)) ∧
    (Leg.ctor.chainLoop h ind id_name_ id_number params count i st).prev_link
      = ctorLink params id_name_ id_number (i - 1 + count) := by
  induction count generalizing i st with
  | zero => exact ⟨hj, hl, hp⟩
  | succ count ih =>
    rw [Leg.ctor.chainLoop]
    have hne : i ≠ 0 := by omega
    have e1 : i + 1 - 1 = i - 1 + 1 := by omega
    have key := ih (i + 1)
      { prev_link := (Link.ctor id_name_ id_number (some i) i params).1
        joint_container_ := mapInsert st.joint_container_ i
          (Joint.ctor h ind id_name_ id_number st.prev_link i params).1
        link_container_ := mapInsert st.link_container_ i
          (Link.ctor id_name_ id_number (some i) i params).1
        log := st.log ++ (Joint.ctor h ind id_name_ id_number st.prev_link i params).2
          ++ (Link.ctor id_name_ id_number (some i) i params).2 }
      (by omega)
      (by
        simp only
        rw [hj, hp, e1]
        have := mapInsert_range (fun k => ctorJoint h ind params id_name_ id_number k) 1 (i - 1)
          (Joint.ctor h ind id_name_ id_number (ctorLink params id_name_ id_number (i - 1)) i
            params).1
          (by
            have e2 : 1 + (i - 1) = i := by omega
            rw [e2]
            rfl)
        have e2 : 1 + (i - 1) = i := by omega
        rw [e2] at this
        exact this)
      (by
        simp only
        rw [hl]
        have := mapInsert_range (fun k => ctorLink params id_name_ id_number k) 0 i
          (Link.ctor id_name_ id_number (some i) i params).1
          (by
            rw [Nat.zero_add]
            simp [ctorLink, hne])
        rw [Nat.zero_add] at this
        exact this)
      (by
        simp only
        have e5 : i + 1 - 1 = i := by omega
        rw [e5]
        simp [ctorLink, hne])
    have e3 : i + 1 - 1 + count = i - 1 + (count + 1) := by omega
    have e4 : i + 1 + count = i + (count + 1) := by omega
    rw [e3, e4] at key
    exact key

theorem ctorLink_fields (params : Parameters K) (id_name_ : String) (id_number i : Nat) :
    (ctorLink params id_name_ id_number i : Link K).actuating_joint
      = (if i = 0 then none else some i) ∧
    (ctorLink params id_name_ id_number i : Link K).id_number = i ∧
    (ctorLink params id_name_ id_number i : Link K).offset
      = (params.link_parameters id_number i).d ∧
    (ctorLink params id_name_ id_number i : Link K).length
      = (params.link_parameters id_number i).r ∧
    (ctorLink params id_name_ id_number i : Link K).twist
      = (params.link_parameters id_number i).alpha ∧
    (ctorLink params id_name_ id_number i : Link K).angle
      = (params.link_parameters id_number i).theta := by
  unfold ctorLink Link.ctor
  simp only
  split_ifs <;> exact ⟨rfl, rfl, rfl, rfl, rfl, rfl⟩

theorem ctorJoint_fields (h : Helpers K) (ind : Indeterminate K) (params : Parameters K)
    (id_name_ : String) (id_number i : Nat) :
    (ctorJoint h ind params id_name_ id_number i).reference_link = i - 1 ∧
    (ctorJoint h ind params id_name_ id_number i).id_number = i ∧
    (ctorJoint h ind params id_name_ id_number i).min_position
      = (params.joint_parameters id_number (i - 1)).min ∧
    (ctorJoint h ind params id_name_ id_number i).max_position
      = (params.joint_parameters id_number (i - 1)).max ∧
    (ctorJoint h ind params id_name_ id_number i).transform
      = if (params.joint_parameters id_number (i - 1)).initialised = true then
          h.createDHMatrix (params.link_parameters id_number (i - 1)).d
            (params.link_parameters id_number (i - 1)).theta
            (params.link_parameters id_number (i - 1)).r
            (params.link_parameters id_number (i - 1)).alpha
        else ind.transform i := by
  obtain ⟨_, hid, hoff, hlen, htw, hang⟩ := ctorLink_fields params id_name_ id_number (i - 1)
  unfold ctorJoint Joint.ctor
  simp only
  split_ifs with hinit
  · exact ⟨hid, rfl, rfl, rfl, by rw [hoff, hlen, htw, hang]⟩
  · exact ⟨hid, rfl, rfl, rfl, rfl⟩

theorem mapFrom_range {α : Type} (g : Nat → α) (N : Nat) :
    mapFrom ((List.range' 0 (N + 1)).map (fun k => (k, g k))) 1
      = (List.range' 1 N).map (fun k => (k, g k)) := by
  unfold mapFrom
  rw [List.range'_succ, List.map_cons]
  simp only [List.dropWhile_cons, zero_add]
  have h0 : ((0 : Nat) != 1) = true := by decide
  rw [if_pos h0]
  cases N with
  | zero => rfl
  | succ n =>
    rw [List.range'_succ, List.map_cons]
    simp [List.dropWhile_cons]

/-- The virtual-leg-length loop on the constructed chain: every lookup succeeds and the DH
matrices of the links are multiplied in chain order. -/
theorem virtualLoop_eq (h : Helpers K) (ind : Indeterminate K) (params : Parameters K)
    (id_name_ : String) (id_number N s n : Nat) (hs : 1 ≤ s) (hn : s + n ≤ N + 1)
    (transform : Matrix4d K) :
    Leg.ctor.virtualLoop h
        ((List.range' 1 N).map (fun k => (k, ctorJoint h ind params id_name_ id_number k)))
        transform
        ((List.range' s n).map (fun k => (k, ctorLink params id_name_ id_number k)))
      = some (((List.range' s n).map (ctorDH h params id_number)).foldl (fun m t => m * t)
          transform) := by
  induction n generalizing s transform with
  | zero => rfl
  | succ n ih =>
    rw [List.range'_succ, List.map_cons, List.map_cons, List.foldl_cons, Leg.ctor.virtualLoop]
    obtain ⟨hact, _, hoff, hlen, htw, _⟩ := ctorLink_fields params id_name_ id_number s
    obtain ⟨_, _, hmin, hmax, _⟩ := ctorJoint_fields h ind params id_name_ id_number s
    have hne : s ≠ 0 := by omega
    rw [if_neg hne] at hact
    have hfind := mapFind_map (fun k => ctorJoint h ind params id_name_ id_number k) 1 N s
    rw [if_pos (by omega)] at hfind
    simp only [hact, hfind, Option.bind_eq_bind, Option.some_bind, hoff, hlen, htw, hmin, hmax]
    exact ih (s + 1) (by omega) (by omega) _

/-- The constructor returns, and builds the chain of `params.leg_DOF` joints. -/
theorem ctor_eq (h : Helpers K) (ind : Indeterminate K) (id_number : Nat)
    (params : Parameters K) :
    ∃ leg log, Leg.ctor h ind id_number params = some (leg, log) ∧
      leg.num_joints_ = params.leg_DOF (params.leg_id id_number) ∧
      leg.id_name_ = params.leg_id id_number ∧
      leg.joint_container_
        = (List.range' 1 (params.leg_DOF (params.leg_id id_number))).map
            (fun k => (k, ctorJoint h ind params (params.leg_id id_number) id_number k)) ∧
      leg.link_container_
        = (List.range' 0 (params.leg_DOF (params.leg_id id_number) + 1)).map
            (fun k => (k, ctorLink params (params.leg_id id_number) id_number k)) ∧
      leg.tip_
        = Tip.ctor h (params.leg_id id_number)
            (ctorLink params (params.leg_id id_number) id_number
              (params.leg_DOF (params.leg_id id_number))) ∧
      leg.max_virtual_leg_length_
        = norm h (chainTipOffset
            ((List.range' 1 (params.leg_DOF (params.leg_id id_number))).map
              (ctorDH h params id_number))) ∧
      leg.min_virtual_leg_length_ = 0 ∧
      leg.local_tip_position_
        = ![h.UNASSIGNED_VALUE, h.UNASSIGNED_VALUE, h.UNASSIGNED_VALUE] ∧
      leg.desired_tip_position_
        = ![h.UNASSIGNED_VALUE, h.UNASSIGNED_VALUE, h.UNASSIGNED_VALUE] ∧
      leg.desired_tip_velocity_ = ![0, 0, 0] ∧
      leg.leg_state_ = LegState.WALKING := by
  have hloop := chainLoop_eq h ind (params.leg_id id_number) id_number params
    (params.leg_DOF (params.leg_id id_number)) 1
    { prev_link := (Link.ctor (params.leg_id id_number) id_number none 0 params).1
      joint_container_ := []
      link_container_ :=
        mapInsert [] 0 (Link.ctor (params.leg_id id_number) id_number none 0 params).1
      log := (Link.ctor (params.leg_id id_number) id_number none 0 params).2 }
    le_rfl rfl (by simp [mapInsert, ctorLink, List.range'_succ]) (by simp [ctorLink])
  obtain ⟨hj, hl, hp⟩ := hloop
  simp only [Nat.sub_self, Nat.zero_add] at hj hp
  rw [Nat.add_comm 1] at hl
  have hv := virtualLoop_eq h ind params (params.leg_id id_number) id_number
    (params.leg_DOF (params.leg_id id_number)) 1
    (params.leg_DOF (params.leg_id id_number)) le_rfl (by omega) 1
  unfold Leg.ctor
  simp only [hj, hl, hp, mapFrom_range, hv]
  exact ⟨_, _, rfl, rfl, rfl, rfl, rfl, rfl, rfl, rfl, rfl, rfl, rfl, rfl⟩

/-- The constructed chain has the shape of a chain of `params.leg_DOF` joints. -/
theorem ctor_chainShape (h : Helpers K) (ind : Indeterminate K) (id_number : Nat)
    (params : Parameters K) (leg : Leg K) (log : List (LogEvent K))
    (hc : Leg.ctor h ind id_number params = some (leg, log)) :
    leg.chainShape (params.leg_DOF (params.leg_id id_number)) := by
  obtain ⟨leg', log', hc', hn, _, hj, hl, ht, _⟩ := ctor_eq h ind id_number params
  rw [hc] at hc'
  simp only [Option.some.injEq, Prod.mk.injEq] at hc'
  obtain ⟨rfl, rfl⟩ := hc'
  refine ⟨hn, ?_, ?_, ?_, ?_, ?_⟩
  · rw [hj, List.map_map]
    exact List.map_id _
  · rw [hl, List.map_map]
    exact List.map_id _
  · intro p hp
    rw [hj] at hp
    obtain ⟨k, _, rfl⟩ := List.mem_map.mp hp
    exact (ctorJoint_fields h ind params _ id_number k).1
  · intro p hp h1
    rw [hl] at hp
    obtain ⟨k, _, rfl⟩ := List.mem_map.mp hp
    simp only at h1 ⊢
    rw [(ctorLink_fields params _ id_number k).1, if_neg (by omega)]
  · rw [ht]
    exact (ctorLink_fields params _ id_number _).2.1

theorem sameChain_of_map (a b : Leg K) (f : Nat × Joint K → Joint K)
    (hf : ∀ p, (f p).id_number = p.2.id_number ∧ (f p).name = p.2.name ∧
      (f p).reference_link = p.2.reference_link)
    (hj : b.joint_container_ = a.joint_container_.map (fun p => (p.1, f p)))
    (hl : b.link_container_ = a.link_container_) (htn : b.tip_.name = a.tip_.name)
    (htr : b.tip_.reference_link = a.tip_.reference_link)
    (hn : b.num_joints_ = a.num_joints_) : a.sameChain b := by
  refine ⟨?_, hl, htn, htr, hn⟩
  rw [hj, List.map_map]
  apply List.map_congr_left
  intro p _
  obtain ⟨h1, h2, h3⟩ := hf p
  simp [h1, h2, h3]

theorem sameChain_trans (a b c : Leg K) (hab : a.sameChain b) (hbc : b.sameChain c) :
    a.sameChain c :=
  ⟨hbc.1.trans hab.1, hbc.2.1.trans hab.2.1, hbc.2.2.1.trans hab.2.2.1,
    hbc.2.2.2.1.trans hab.2.2.2.1, hbc.2.2.2.2.trans hab.2.2.2.2⟩

theorem fkResult_sameChain (h : Helpers K) (leg : Leg K) (N : Nat) (hs : leg.chainShape N)
    (hN : 1 ≤ N) (time_delta : K) (set_local : Bool) :
    leg.sameChain (leg.fkResult h time_delta set_local) :=
  sameChain_of_map leg _
    (fun p => { p.2 with
                  transform :=
                    if p.1 = 1 then p.2.transform else leg.dhMatrixAt h (p.1 - 1) })
    (fun _ => ⟨rfl, rfl, rfl⟩) (fkJoints_eq_map h leg N hs hN) rfl rfl rfl rfl

theorem applyIK_step_ids (id_name_ : String) (clamp_to_limits : Bool) (delta : K)
    (joint : Joint K) :
    (Leg.applyIK.step id_name_ clamp_to_limits delta joint).1.id_number = joint.id_number ∧
    (Leg.applyIK.step id_name_ clamp_to_limits delta joint).1.name = joint.name ∧
    (Leg.applyIK.step id_name_ clamp_to_limits delta joint).1.reference_link
      = joint.reference_link := by
  unfold Leg.applyIK.step
  simp only
  split_ifs <;> exact ⟨rfl, rfl, rfl⟩

theorem init_step_ids (h : Helpers K) (flag : Bool) (joint : Joint K) :
    (Leg.init.step h flag joint).id_number = joint.id_number ∧
    (Leg.init.step h flag joint).name = joint.name ∧
    (Leg.init.step h flag joint).reference_link = joint.reference_link := by
  cases flag <;> simp [Leg.init.step]

theorem updateTipForce_loop_some {n : Nat} (rest : List (Nat × Joint K)) (v : Fin n → K)
    (index : Nat) (hlen : index + rest.length ≤ n) :
    ∃ v', Leg.updateTipForce.loop v index rest = some v' := by
  induction rest generalizing v index with
  | nil => exact ⟨v, rfl⟩
  | cons p rest ih =>
    obtain ⟨k, joint⟩ := p
    simp only [List.length_cons] at hlen
    have hlt : index < n := by omega
    rw [Leg.updateTipForce.loop, dif_pos hlt]
    exact ih _ (index + 1) (by omega)

theorem chainShape_length (leg : Leg K) (N : Nat) (hs : leg.chainShape N) :
    leg.joint_container_.length = N ∧ leg.link_container_.length = N + 1 := by
  have h1 := congrArg List.length hs.2.1
  have h2 := congrArg List.length hs.2.2.1
  simp only [List.length_map, List.length_range'] at h1 h2
  exact ⟨h1, h2⟩

/-- On a chain of `N >= 1` joints `updateTipForce` returns and writes `tip_force_` only. -/
theorem updateTipForce_some (h : Helpers K) (ind : Indeterminate K) (leg : Leg K) (N : Nat)
    (hs : leg.chainShape N) (hN : 1 ≤ N) (debug : Bool) :
    ∃ force, leg.updateTipForce h ind debug = some { leg with tip_force_ := force } := by
  have hdh := dh_parameters_eq leg N hs hN
  obtain ⟨v', hv'⟩ := updateTipForce_loop_some leg.joint_container_
    (ind.joint_torques leg.num_joints_) 0
    (by rw [(chainShape_length leg N hs).1, hs.1]; omega)
  unfold Leg.updateTipForce
  simp only [hdh, hv', Option.bind_eq_bind, Option.some_bind]
  exact ⟨_, rfl⟩

/-- Fields of a leg the constructor returned. -/
theorem ctor_fields (h : Helpers K) (ind : Indeterminate K) (id_number : Nat)
    (params : Parameters K) (leg : Leg K) (log : List (LogEvent K))
    (hc : Leg.ctor h ind id_number params = some (leg, log)) :
    leg.joint_container_
      = (List.range' 1 (params.leg_DOF (params.leg_id id_number))).map
          (fun k => (k, ctorJoint h ind params (params.leg_id id_number) id_number k)) ∧
    leg.link_container_
      = (List.range' 0 (params.leg_DOF (params.leg_id id_number) + 1)).map
          (fun k => (k, ctorLink params (params.leg_id id_number) id_number k)) ∧
    leg.max_virtual_leg_length_
      = norm h (chainTipOffset
          ((List.range' 1 (params.leg_DOF (params.leg_id id_number))).map
            (ctorDH h params id_number))) ∧
    leg.min_virtual_leg_length_ = 0 := by
  obtain ⟨leg', log', hc', _, _, hj, hl, _, hm, hmin, _⟩ := ctor_eq h ind id_number params
  rw [hc] at hc'
  simp only [Option.some.injEq, Prod.mk.injEq] at hc'
  obtain ⟨rfl, rfl⟩ := hc'
  exact ⟨hj, hl, hm, hmin⟩

theorem ctor_jointAt (h : Helpers K) (ind : Indeterminate K) (id_number : Nat)
    (params : Parameters K) (leg : Leg K) (log : List (LogEvent K))
    (hc : Leg.ctor h ind id_number params = some (leg, log)) (k : Nat) (hk1 : 1 ≤ k)
    (hk2 : k ≤ params.leg_DOF (params.leg_id id_number)) :
    leg.jointAt k = ctorJoint h ind params (params.leg_id id_number) id_number k := by
  unfold Leg.jointAt
  rw [(ctor_fields h ind id_number params leg log hc).1, mapFind_map, if_pos (by omega)]
  rfl

theorem ctor_linkAt (h : Helpers K) (ind : Indeterminate K) (id_number : Nat)
    (params : Parameters K) (leg : Leg K) (log : List (LogEvent K))
    (hc : Leg.ctor h ind id_number params = some (leg, log)) (k : Nat)
    (hk2 : k ≤ params.leg_DOF (params.leg_id id_number)) :
    leg.linkAt k = ctorLink params (params.leg_id id_number) id_number k := by
  unfold Leg.linkAt
  rw [(ctor_fields h ind id_number params leg log hc).2.1, mapFind_map, if_pos (by omega)]
  rfl

theorem tail_map_pred {β : Type} (g : Nat → β) (rest : List (Nat × Joint K)) (N : Nat)
    (hN : 1 ≤ N) (hkeys : rest.map Prod.fst = List.range' 2 (N - 1)) :
    rest.map (fun p => g (p.1 - 1)) ++ [g N] = (List.range' 1 N).map g := by
  have e1 : rest.map (fun p => g (p.1 - 1)) = (rest.map Prod.fst).map (fun k => g (k - 1)) := by
    simp [List.map_map, Function.comp]
  have e2 : List.range' 2 (N - 1) = (List.range' 1 (N - 1)).map (fun k => 1 + k) := by
    rw [List.map_add_range']
  have e3 : ((List.range' 1 (N - 1)).map (fun k => 1 + k)).map (fun k => g (k - 1))
      = (List.range' 1 (N - 1)).map g := by
    rw [List.map_map]
    apply List.map_congr_left
    intro k _
    simp
  obtain ⟨n, rfl⟩ : ∃ n, N = n + 1 := ⟨N - 1, by omega⟩
  rw [e1, hkeys, e2, e3, List.range'_1_concat]
  simp [Nat.add_comm]

/-- The transforms `applyFK` writes into the joints after the first and into the tip are the
DH matrices of the links `1..N`, in chain order. -/
theorem fkResult_transforms (h : Helpers K) (leg : Leg K) (N : Nat) (hs : leg.chainShape N)
    (hN : 1 ≤ N) (time_delta : K) (set_local : Bool) :
    (leg.fkResult h time_delta set_local).joint_container_.tail.map (fun p => p.2.transform)
        ++ [(leg.fkResult h time_delta set_local).tip_.transform]
      = (List.range' 1 N).map (leg.dhMatrixAt h) := by
  obtain ⟨first, rest, hjc, _, hkeys, _⟩ := chainShape_cons leg N hs hN
  have htip : (leg.fkResult h time_delta set_local).tip_.transform = leg.dhMatrixAt h N := by
    simp [Leg.fkResult, Leg.fkTip, hs.2.2.2.2.2]
  have hj : (leg.fkResult h time_delta set_local).joint_container_.tail
      = rest.map (fun p => (p.1, { p.2 with transform := leg.dhMatrixAt h (p.1 - 1) })) := by
    simp [Leg.fkResult, Leg.fkJoints, hjc]
  rw [htip, hj, List.map_map]
  exact tail_map_pred (leg.dhMatrixAt h) rest N hN hkeys

/-- The DH matrices `init(true)` makes `applyFK` write on a constructed leg are those of the
configuration at the clamped zero angles. -/
theorem ctor_init_dhMatrixAt (h : Helpers K) (ind : Indeterminate K) (id_number : Nat)
    (params : Parameters K) (leg : Leg K) (log : List (LogEvent K))
    (hc : Leg.ctor h ind id_number params = some (leg, log)) (k : Nat) (hk1 : 1 ≤ k)
    (hk2 : k ≤ params.leg_DOF (params.leg_id id_number)) :
    (leg.initLoopResult h true).dhMatrixAt h k = ctorDH h params id_number k := by
  have hs := ctor_chainShape h ind id_number params leg log hc
  have hj := jointAt_map_joints leg (leg.initLoopResult h true) _ hs
    (fun p => Leg.init.step h true p.2) rfl k hk1 hk2
  have hl := linkAt_congr leg (leg.initLoopResult h true) rfl k
  obtain ⟨_, _, hoff, hlen, htw, _⟩ :=
    ctorLink_fields params (params.leg_id id_number) id_number k
  obtain ⟨_, _, hmin, hmax, _⟩ :=
    ctorJoint_fields h ind params (params.leg_id id_number) id_number k
  unfold Leg.dhMatrixAt ctorDH
  rw [hj, hl, ctor_linkAt h ind id_number params leg log hc k hk2,
    ctor_jointAt h ind id_number params leg log hc k hk1 hk2, hoff, hlen, htw]
  simp only [Leg.init.step, if_true]
  rw [hmin, hmax]

theorem ctor_init_dhList (h : Helpers K) (ind : Indeterminate K) (id_number : Nat)
    (params : Parameters K) (leg : Leg K) (log : List (LogEvent K))
    (hc : Leg.ctor h ind id_number params = some (leg, log)) (s n : Nat) (hs1 : 1 ≤ s)
    (hn : s + n ≤ params.leg_DOF (params.leg_id id_number) + 1) :
    (List.range' s n).map ((leg.initLoopResult h true).dhMatrixAt h)
      = (List.range' s n).map (ctorDH h params id_number) := by
  apply List.map_congr_left
  intro k hk
  have := List.mem_range'_1.mp hk
  exact ctor_init_dhMatrixAt h ind id_number params leg log hc k (by omega) (by omega)

theorem tail_map_pred_body {β : Type} (g : Nat → β) (rest : List (Nat × Joint K)) (N : Nat)
    (hkeys : rest.map Prod.fst = List.range' 2 (N - 1)) :
    rest.map (fun p => g (p.1 - 1)) = (List.range' 1 (N - 1)).map g := by
  have e1 : rest.map (fun p => g (p.1 - 1)) = (rest.map Prod.fst).map (fun k => g (k - 1)) := by
    simp [List.map_map, Function.comp]
  have e2 : List.range' 2 (N - 1) = (List.range' 1 (N - 1)).map (fun k => 1 + k) := by
    rw [List.map_add_range']
  rw [e1, hkeys, e2, List.map_map]
  apply List.map_congr_left
  intro k _
  simp

theorem chainShape_first (leg : Leg K) (N : Nat) (hs : leg.chainShape N) (hN : 1 ≤ N)
    (first : Nat × Joint K) (rest : List (Nat × Joint K))
    (hjc : leg.joint_container_ = first :: rest) : first = (1, leg.jointAt 1) := by
  have hj := chainShape_joints_eq leg N hs
  obtain ⟨n, rfl⟩ : ∃ n, N = n + 1 := ⟨N - 1, by omega⟩
  rw [hjc, List.range'_succ, List.map_cons] at hj
  exact (List.cons.inj hj).1

/-- The tip position `applyFK` computes, as the value of `getPositionWorldFrame` at the
transform of the first joint, the DH matrices of the links `1..N-1` and that of link `N`. -/
theorem fkPosition_eq (h : Helpers K) (leg : Leg K) (N : Nat) (hs : leg.chainShape N)
    (hN : 1 ≤ N) :
    leg.fkPosition h
      = h.getPositionWorldFrame
          ((leg.jointAt 1).transform :: (List.range' 1 (N - 1)).map (leg.dhMatrixAt h))
          (leg.dhMatrixAt h N) := by
  obtain ⟨first, rest, hjc, _, hkeys, _⟩ := chainShape_cons leg N hs hN
  have hfirst := chainShape_first leg N hs hN first rest hjc
  unfold Leg.fkPosition Leg.fkJoints Leg.fkTip
  rw [hjc, hs.2.2.2.2.2]
  simp only [List.map_cons, List.map_map]
  rw [← tail_map_pred_body (leg.dhMatrixAt h) rest N hkeys, hfirst]
  rfl

/-- The local tip position of a constructed leg after `init(true)`. -/
theorem ctor_init_position (h : Helpers K) (ind : Indeterminate K) (id_number : Nat)
    (params : Parameters K) (leg : Leg K) (log : List (LogEvent K))
    (hc : Leg.ctor h ind id_number params = some (leg, log))
    (hN : 1 ≤ params.leg_DOF (params.leg_id id_number)) (time_delta : K) :
    (leg.initResult h time_delta true).local_tip_position_
      = h.getPositionWorldFrame
          ((ctorJoint h ind params (params.leg_id id_number) id_number 1).transform
            :: (List.range' 1 (params.leg_DOF (params.leg_id id_number) - 1)).map
                (ctorDH h params id_number))
          (ctorDH h params id_number (params.leg_DOF (params.leg_id id_number))) := by
  have hs := ctor_chainShape h ind id_number params leg log hc
  have hs1 := initLoopResult_chainShape h leg _ hs true
  have hpos : (leg.initResult h time_delta true).local_tip_position_
      = (leg.initLoopResult h true).fkPosition h := by
    simp [Leg.initResult, Leg.fkResult]
  have hj := jointAt_map_joints leg (leg.initLoopResult h true) _ hs
    (fun p => Leg.init.step h true p.2) rfl 1 le_rfl hN
  rw [hpos, fkPosition_eq h _ _ hs1 hN,
    ctor_init_dhList h ind id_number params leg log hc 1 _ le_rfl (by omega),
    ctor_init_dhMatrixAt h ind id_number params leg log hc _ hN le_rfl, hj,
    ctor_jointAt h ind id_number params leg log hc 1 le_rfl hN]
  simp [Leg.init.step]

/-- After `init(true)` every joint's desired position is 0 clamped into its limits. -/
theorem initResult_desired_clamped (h : Helpers K) (leg : Leg K) (N : Nat)
    (hs : leg.chainShape N) (hN : 1 ≤ N) (time_delta : K) :
    ∀ p ∈ (leg.initResult h time_delta true).joint_container_,
      p.2.desired_position = h.clamped 0 p.2.min_position p.2.max_position := by
  have hs3 := initResult_chainShape h leg N hs hN time_delta true
  intro p hp
  have hb := chainShape_key_bounds _ _ hs3 p hp
  obtain ⟨t, ht⟩ := initResult_jointAt h leg N hs hN time_delta true p.1 hb.1 hb.2
  have hp2 : p.2 = (leg.initResult h time_delta true).jointAt p.1 := by
    have hj := chainShape_joints_eq _ _ hs3
    rw [hj] at hp
    obtain ⟨k, _, rfl⟩ := List.mem_map.mp hp
    rfl
  rw [hp2, ht]
  simp [Leg.init.step]

end Construction


section Frame

set_option linter.unusedSectionVars false

variable {K : Type} [LinearOrderedField K]

/-- Whenever `applyFK` returns, on any leg, it has left the virtual leg lengths alone. -/
theorem applyFK_lengths (h : Helpers K) (leg : Leg K) (time_delta : K) (set_local : Bool)
    (out : Leg K × Vector3d K) (hout : leg.applyFK h time_delta set_local = some out) :
    out.1.max_virtual_leg_length_ = leg.max_virtual_leg_length_ ∧
    out.1.min_virtual_leg_length_ = leg.min_virtual_leg_length_ := by
  unfold Leg.applyFK at hout
  split at hout
  · simp at hout
  · simp only [Option.bind_eq_bind, Option.bind_eq_some] at hout
    obtain ⟨_, _, _, _, _, _, _, _, hout⟩ := hout
    cases set_local with
    | false =>
      simp only [Bool.false_eq_true, if_false, Option.some.injEq] at hout
      subst hout
      exact ⟨rfl, rfl⟩
    | true =>
      simp only [if_true, Option.some.injEq] at hout
      subst hout
      simp only
      split_ifs <;> exact ⟨rfl, rfl⟩

/-- Whenever `init` returns, on any leg, it has left the virtual leg lengths alone. -/
theorem init_lengths (h : Helpers K) (leg : Leg K) (time_delta : K) (flag : Bool)
    (out : Leg K) (hout : leg.init h time_delta flag = some out) :
    out.max_virtual_leg_length_ = leg.max_virtual_leg_length_ ∧
    out.min_virtual_leg_length_ = leg.min_virtual_leg_length_ := by
  unfold Leg.init at hout
  simp only [Option.bind_eq_bind, Option.bind_eq_some, Option.some.injEq] at hout
  obtain ⟨r, hr, rfl⟩ := hout
  have hfk := applyFK_lengths h _ time_delta _ r hr
  exact hfk

/-- Whenever `applyIK` returns, on any leg, it has left the virtual leg lengths alone. -/
theorem applyIK_lengths (h : Helpers K) (leg : Leg K) (time_delta : K)
    (clamp_to_limits debug : Bool) (out : Leg K × Bool × List (LogEvent K))
    (hout : leg.applyIK h time_delta clamp_to_limits debug = some out) :
    out.1.max_virtual_leg_length_ = leg.max_virtual_leg_length_ ∧
    out.1.min_virtual_leg_length_ = leg.min_virtual_leg_length_ := by
  unfold Leg.applyIK at hout
  simp only [Option.bind_eq_bind, Option.bind_eq_some, Option.some.injEq] at hout
  obtain ⟨_, _, _, _, r, hr, rfl⟩ := hout
  have hfk := applyFK_lengths h _ time_delta _ r hr
  exact hfk

/-- Whenever `updateTipForce` returns, on any leg, it has left the virtual leg lengths
alone. -/
theorem updateTipForce_lengths (h : Helpers K) (ind : Indeterminate K) (leg : Leg K)
    (debug : Bool) (out : Leg K) (hout : leg.updateTipForce h ind debug = some out) :
    out.max_virtual_leg_length_ = leg.max_virtual_leg_length_ ∧
    out.min_virtual_leg_length_ = leg.min_virtual_leg_length_ := by
  unfold Leg.updateTipForce at hout
  simp only [Option.bind_eq_bind, Option.bind_eq_some, Option.some.injEq] at hout
  obtain ⟨_, _, _, _, rfl⟩ := hout
  exact ⟨rfl, rfl⟩

end Frame


section FatalLog

set_option linter.unusedSectionVars false

variable {K : Type} [LinearOrderedField K]

theorem link_ctor_log (params : Parameters K) (id_name_ : String) (id_number : Nat)
    (joint : Option Nat) (i : Nat) :
    (Link.ctor id_name_ id_number joint i params).2 = ctorLinkLog params id_name_ id_number i := by
  unfold Link.ctor ctorLinkLog
  simp only
  split_ifs <;> rfl

theorem joint_ctor_log (h : Helpers K) (ind : Indeterminate K) (params : Parameters K)
    (id_name_ : String) (id_number : Nat) (link : Link K) (i : Nat) :
    (Joint.ctor h ind id_name_ id_number link i params).2
      = ctorJointLog params id_name_ id_number i := by
  unfold Joint.ctor ctorJointLog
  simp only
  split_ifs <;> rfl

/-- The log of the chain-building loop in closed form. -/
theorem chainLoop_log (h : Helpers K) (ind : Indeterminate K) (id_name_ : String)
    (id_number : Nat) (params : Parameters K) (count i : Nat) (st : ChainState K) :
    (Leg.ctor.chainLoop h ind id_name_ id_number params count i st).log
      = st.log ++ (List.range' i count).flatMap
          (fun k => ctorJointLog params id_name_ id_number k
            ++ ctorLinkLog params id_name_ id_number k) := by
  induction count generalizing i st with
  | zero => simp [Leg.ctor.chainLoop]
  | succ count ih =>
    rw [Leg.ctor.chainLoop, ih, List.range'_succ, List.flatMap_cons]
    simp only [joint_ctor_log, link_ctor_log, List.append_assoc]

/-- The log of the constructor in closed form. -/
theorem ctor_log (h : Helpers K) (ind : Indeterminate K) (id_number : Nat)
    (params : Parameters K) (leg : Leg K) (log : List (LogEvent K))
    (hc : Leg.ctor h ind id_number params = some (leg, log)) :
    log = ctorLog params (params.leg_id id_number) id_number
      (params.leg_DOF (params.leg_id id_number)) := by
  unfold Leg.ctor at hc
  simp only at hc
  split at hc
  · simp at hc
  · simp only [Option.some.injEq, Prod.mk.injEq] at hc
    rw [← hc.2, chainLoop_log, link_ctor_log]
    rfl

theorem fatal_mem_ctorLinkLog (params : Parameters K) (id_name_ : String)
    (id_number i : Nat) :
    (LogEvent.shutdown ∈ ctorLinkLog params id_name_ id_number i
      ↔ (params.link_parameters id_number i).initialised = false) ∧
    ((∃ name, LogEvent.fatal name ∈ ctorLinkLog params id_name_ id_number i)
      ↔ (params.link_parameters id_number i).initialised = false) := by
  unfold ctorLinkLog
  cases hinit : (params.link_parameters id_number i).initialised <;> simp

theorem fatal_mem_ctorJointLog (params : Parameters K) (id_name_ : String)
    (id_number i : Nat) :
    (LogEvent.shutdown ∈ ctorJointLog params id_name_ id_number i
      ↔ (params.joint_parameters id_number (i - 1)).initialised = false) ∧
    ((∃ name, LogEvent.fatal name ∈ ctorJointLog params id_name_ id_number i)
      ↔ (params.joint_parameters id_number (i - 1)).initialised = false) := by
  unfold ctorJointLog
  cases hinit : (params.joint_parameters id_number (i - 1)).initialised <;> simp

theorem someNotInitialised_iff (params : Parameters K) (id_number N : Nat) :
    someNotInitialised params id_number N
      ↔ (params.link_parameters id_number 0).initialised = false ∨
        ∃ i, i ∈ List.range' 1 N ∧
          ((params.joint_parameters id_number (i - 1)).initialised = false ∨
            (params.link_parameters id_number i).initialised = false) := by
  unfold someNotInitialised
  constructor
  · rintro (⟨k, hk, hj⟩ | ⟨k, hk, hl⟩)
    · right
      exact ⟨k + 1, List.mem_range'_1.mpr ⟨by omega, by omega⟩, Or.inl (by simpa using hj)⟩
    · rcases Nat.eq_zero_or_pos k with h0 | hpos
      · left
        rw [← h0]
        exact hl
      · right
        exact ⟨k, List.mem_range'_1.mpr ⟨hpos, by omega⟩, Or.inr hl⟩
  · rintro (h0 | ⟨i, hi, hj | hl⟩)
    · exact Or.inr ⟨0, Nat.zero_le _, h0⟩
    · have := List.mem_range'_1.mp hi
      exact Or.inl ⟨i - 1, by omega, hj⟩
    · have := List.mem_range'_1.mp hi
      exact Or.inr ⟨i, by omega, hl⟩

/-- The constructor's log holds a `ros::shutdown()` (and a fatal error) exactly when some
parameter set it reads is marked not initialised. -/
theorem ctorLog_fatal_iff (params : Parameters K) (id_name_ : String) (id_number N : Nat) :
    (LogEvent.shutdown ∈ ctorLog params id_name_ id_number N
      ↔ someNotInitialised params id_number N) ∧
    ((∃ name, LogEvent.fatal name ∈ ctorLog params id_name_ id_number N)
      ↔ someNotInitialised params id_number N) := by
  rw [someNotInitialised_iff]
  unfold ctorLog
  constructor
  · simp only [List.mem_append, List.mem_flatMap, (fatal_mem_ctorLinkLog params _ _ _).1,
      (fatal_mem_ctorJointLog params _ _ _).1]
  · constructor
    · rintro ⟨name, hname⟩
      simp only [List.mem_append, List.mem_flatMap] at hname
      rcases hname with h0 | ⟨i, hi, hj | hl⟩
      · exact Or.inl ((fatal_mem_ctorLinkLog params id_name_ id_number 0).2.mp ⟨name, h0⟩)
      · exact Or.inr ⟨i, hi,
          Or.inl ((fatal_mem_ctorJointLog params id_name_ id_number i).2.mp ⟨name, hj⟩)⟩
      · exact Or.inr ⟨i, hi,
          Or.inr ((fatal_mem_ctorLinkLog params id_name_ id_number i).2.mp ⟨name, hl⟩)⟩
    · rintro (h0 | ⟨i, hi, hj | hl⟩)
      · obtain ⟨name, hname⟩ := (fatal_mem_ctorLinkLog params id_name_ id_number 0).2.mpr h0
        exact ⟨name, List.mem_append_left _ hname⟩
      · obtain ⟨name, hname⟩ := (fatal_mem_ctorJointLog params id_name_ id_number i).2.mpr hj
        exact ⟨name, List.mem_append_right _
          (List.mem_flatMap.mpr ⟨i, hi, List.mem_append_left _ hname⟩)⟩
      · obtain ⟨name, hname⟩ := (fatal_mem_ctorLinkLog params id_name_ id_number i).2.mpr hl
        exact ⟨name, List.mem_append_right _
          (List.mem_flatMap.mpr ⟨i, hi, List.mem_append_right _ hname⟩)⟩

end FatalLog


section TipForce

set_option linter.unusedSectionVars false

variable {K : Type} [LinearOrderedField K]

/-- The loop that fills `joint_torques`, on joints stored under consecutive keys: entry `i`
within the range becomes the effort of joint `i+1`, the other entries are kept. -/
theorem updateTipForce_loop_eq {n : Nat} (f : Nat → Joint K) (len : Nat) (v : Fin n → K)
    (index : Nat) (hlen : index + len ≤ n) :
    Leg.updateTipForce.loop v index
        ((List.range' (index + 1) len).map (fun k => (k, f k)))
      = some (fun i =>
          if index ≤ i.val ∧ i.val < index + len then (f (i.val + 1)).current_effort
          else v i) := by
  induction len generalizing v index with
  | zero =>
    simp only [List.range'_zero, List.map_nil, Leg.updateTipForce.loop, Option.some.injEq]
    funext i
    rw [if_neg (by omega)]
  | succ len ih =>
    have hlt : index < n := by omega
    rw [List.range'_succ, List.map_cons, Leg.updateTipForce.loop, dif_pos hlt,
      ih _ (index + 1) (by omega)]
    simp only [Option.some.injEq]
    funext i
    by_cases hi : i.val = index
    · have hi' : i = ⟨index, hlt⟩ := Fin.ext hi
      rw [if_neg (by omega), if_pos (by omega), hi', Function.update_same]
    · have hne : i ≠ ⟨index, hlt⟩ := fun hc => hi (congrArg Fin.val hc)
      by_cases hr : index + 1 ≤ i.val ∧ i.val < index + 1 + len
      · rw [if_pos hr, if_pos (by omega)]
      · rw [if_neg hr, if_neg (by omega), Function.update_noteq hne]

/-- On a chain of `N >= 1` joints `updateTipForce` returns and sets `tip_force_` to the
Jacobian applied to the efforts in chain order. -/
theorem updateTipForce_eq (h : Helpers K) (ind : Indeterminate K) (leg : Leg K) (N : Nat)
    (hs : leg.chainShape N) (hN : 1 ≤ N) (debug : Bool) :
    leg.updateTipForce h ind debug
      = some { leg with tip_force_ := (leg.jacobian h).mulVec leg.efforts } := by
  have hdh := dh_parameters_eq leg N hs hN
  have hj := chainShape_joints_eq leg N hs
  have hn := hs.1
  have hloop := updateTipForce_loop_eq (fun k => leg.jointAt k) N
    (ind.joint_torques leg.num_joints_) 0 (by omega)
  rw [Nat.zero_add, ← hj] at hloop
  rw [← hn] at hdh
  unfold Leg.updateTipForce
  simp only [hdh, hloop, Option.bind_eq_bind, Option.some_bind, Option.some.injEq]
  have he : (fun i : Fin leg.num_joints_ =>
      if 0 ≤ i.val ∧ i.val < 0 + N then (leg.jointAt (i.val + 1)).current_effort
      else ind.joint_torques leg.num_joints_ i) = leg.efforts := by
    funext i
    have := i.isLt
    rw [if_pos (by omega)]
    rfl
  rw [he]
  rfl

end TipForce


section Waveforms
variable {K : Type} [LinearOrderedField K]

theorem getPitchCompensation_eq (walker : WalkController K) :
    getPitchCompensation walker
      = keypointWave (pitchKeypoints walker 0) (pitchKeypoints walker 1)
          (pitchKeypoints walker 2) (pitchKeypoints walker 3) (pitchKeypoints walker 4)
          (pitchKeypoints walker 5) walker.phase := rfl

theorem keypointWave_first (p0 p1 p2 p3 p4 p5 : K × K) (phase : K)
    (h0 : p0.1 ≤ phase) (h1 : phase < p1.1) :
    keypointWave p0 p1 p2 p3 p4 p5 phase = some p0.2 := by
  unfold keypointWave
  rw [if_pos ⟨h0, h1⟩]

theorem keypointWave_third (p0 p1 p2 p3 p4 p5 : K × K) (phase : K)
    (h1 : p1.1 ≤ phase) (h2 : p2.1 ≤ phase) (h3 : phase < p3.1) :
    keypointWave p0 p1 p2 p3 p4 p5 phase = some p2.2 := by
  unfold keypointWave
  rw [if_neg (fun hc => absurd hc.2 (not_lt.mpr h1)),
    if_neg (fun hc => absurd hc.2 (not_lt.mpr h2)), if_pos ⟨h2, h3⟩]

theorem pitchKeypoints_phase (walker : WalkController K) :
    (pitchKeypoints walker 0).1 = 0 ∧
    (pitchKeypoints walker 1).1 = walker.phaseLength / 6 + walker.pitchBuffer ∧
    (pitchKeypoints walker 2).1 = 2 * walker.phaseLength / 6 + walker.pitchBuffer ∧
    (pitchKeypoints walker 3).1 = 4 * walker.phaseLength / 6 + walker.pitchBuffer ∧
    (pitchKeypoints walker 4).1 = 5 * walker.phaseLength / 6 + walker.pitchBuffer ∧
    (pitchKeypoints walker 5).1 = walker.phaseLength := by
  refine ⟨?_, ?_, rfl, rfl, rfl, ?_⟩
  · show 0 * walker.phaseLength / 6 = 0
    rw [zero_mul, zero_div]
  · show 1 * walker.phaseLength / 6 + walker.pitchBuffer = _
    rw [one_mul]
  · show 6 * walker.phaseLength / 6 = _
    exact mul_div_cancel_left₀ _ (by norm_num)

/-- The low plateau of the pitch waveform. -/
theorem getPitchCompensation_low (walker : WalkController K) (h0 : 0 ≤ walker.phase)
    (h1 : walker.phase < walker.phaseLength / 6 + walker.pitchBuffer) :
    getPitchCompensation walker = some (-walker.params.pitchAmplitude) := by
  obtain ⟨e0, e1, -, -, -, -⟩ := pitchKeypoints_phase walker
  rw [getPitchCompensation_eq]
  exact keypointWave_first _ _ _ _ _ _ _ (e0 ▸ h0) (e1 ▸ h1)

/-- The high plateau of the pitch waveform. -/
theorem getPitchCompensation_high (walker : WalkController K) (hL : 0 < walker.phaseLength)
    (h2 : 2 * walker.phaseLength / 6 + walker.pitchBuffer ≤ walker.phase)
    (h3 : walker.phase < 4 * walker.phaseLength / 6 + walker.pitchBuffer) :
    getPitchCompensation walker = some walker.params.pitchAmplitude := by
  obtain ⟨-, e1, e2, e3, -, -⟩ := pitchKeypoints_phase walker
  rw [getPitchCompensation_eq]
  refine keypointWave_third _ _ _ _ _ _ _ ?_ (e2 ▸ h2) (e3 ▸ h3)
  rw [e1]
  linarith

end Waveforms

section Amplitude
variable {K : Type} [LinearOrderedField K]

/-- In exact arithmetic, between two keypoints with opposite values `-a` and `a` (in either
order) the ramp expression stays within `|a|`. -/
theorem ramp_abs_le (xa xb a phase : K) (h1 : xa ≤ phase) (h2 : phase < xb) :
    |ramp (xa, -a) (xb, a) phase| ≤ |a| ∧ |ramp (xa, a) (xb, -a) phase| ≤ |a| := by
  have hd : 0 < xb - xa := by linarith
  have hd0 : xb - xa ≠ 0 := ne_of_gt hd
  have ht : |(2 * (phase - xa) - (xb - xa)) / (xb - xa)| ≤ 1 := by
    rw [abs_le]
    constructor
    · rw [le_div_iff₀ hd]
      linarith
    · rw [div_le_iff₀ hd]
      linarith
  have e1 : ramp (xa, -a) (xb, a) phase
      = a * ((2 * (phase - xa) - (xb - xa)) / (xb - xa)) := by
    unfold ramp
    simp only []
    field_simp
    ring
  have e2 : ramp (xa, a) (xb, -a) phase
      = -a * ((2 * (phase - xa) - (xb - xa)) / (xb - xa)) := by
    unfold ramp
    simp only []
    field_simp
    ring
  constructor
  · rw [e1, abs_mul]
    exact mul_le_of_le_one_right (abs_nonneg a) ht
  · rw [e2, abs_mul, abs_neg]
    exact mul_le_of_le_one_right (abs_nonneg a) ht

/-- In exact arithmetic, every value the chain of branches assigns on keypoints with the
values `-a, -a, a, a, -a, -a` is within `|a|`. -/
theorem keypointWave_abs_le (x0 x1 x2 x3 x4 x5 a phase v : K)
    (hv : keypointWave (x0, -a) (x1, -a) (x2, a) (x3, a) (x4, -a) (x5, -a) phase = some v) :
    |v| ≤ |a| := by
  unfold keypointWave at hv
  split_ifs at hv with c1 c2 c3 c4 c5
  · rw [← Option.some.inj hv, abs_neg]
  · rw [← Option.some.inj hv]
    exact (ramp_abs_le x1 x2 a phase c2.1 c2.2).1
  · rw [← Option.some.inj hv]
  · rw [← Option.some.inj hv]
    exact (ramp_abs_le x3 x4 a phase c4.1 c4.2).2
  · rw [← Option.some.inj hv, abs_neg]

end Amplitude


section PrevDesired

set_option linter.unusedSectionVars false

variable {K : Type} [LinearOrderedField K]

/-- The loop of `applyFK` rewrites transforms only: what does not read a joint's transform
has the same value on every joint afterwards. -/
theorem applyFK_loop_frame {β : Type} (f : Joint K → β)
    (hf : ∀ (j : Joint K) (t : Matrix4d K), f { j with transform := t } = f j)
    (h : Helpers K) (leg : Leg K) (l l' : List (Nat × Joint K))
    (hl : Leg.applyFK.loop h leg l = some l') :
    l'.map (fun p => (p.1, f p.2)) = l.map (fun p => (p.1, f p.2)) := by
  induction l generalizing l' with
  | nil =>
    simp only [Leg.applyFK.loop, Option.some.injEq] at hl
    subst hl
    rfl
  | cons p rest ih =>
    obtain ⟨k, joint⟩ := p
    simp only [Leg.applyFK.loop, Option.bind_eq_bind, Option.bind_eq_some,
      Option.some.injEq] at hl
    obtain ⟨_, _, _, _, _, _, rest', hrest, hl⟩ := hl
    subst hl
    simp only [List.map_cons, ih rest' hrest, hf]

/-- Whenever `applyFK` returns, on any leg, what does not read a joint's transform has the
same value on every joint, and the links and the desired tip position are as they were. -/
theorem applyFK_frame {β : Type} (f : Joint K → β)
    (hf : ∀ (j : Joint K) (t : Matrix4d K), f { j with transform := t } = f j)
    (h : Helpers K) (leg : Leg K) (time_delta : K) (set_local : Bool)
    (out : Leg K × Vector3d K) (hout : leg.applyFK h time_delta set_local = some out) :
    out.1.joint_container_.map (fun p => (p.1, f p.2))
      = leg.joint_container_.map (fun p => (p.1, f p.2)) ∧
    out.1.link_container_ = leg.link_container_ ∧
    out.1.desired_tip_position_ = leg.desired_tip_position_ := by
  unfold Leg.applyFK at hout
  split at hout
  · simp at hout
  · rename_i first rest hjc
    simp only [Option.bind_eq_bind, Option.bind_eq_some] at hout
    obtain ⟨rest', hrest, _, _, _, _, _, _, hout⟩ := hout
    have hmap := applyFK_loop_frame f hf h leg rest rest' hrest
    cases set_local with
    | false =>
      simp only [Bool.false_eq_true, if_false, Option.some.injEq] at hout
      subst hout
      refine ⟨?_, rfl, rfl⟩
      simp only [List.map_cons, hmap, hjc]
    | true =>
      simp only [if_true, Option.some.injEq] at hout
      subst hout
      simp only
      split_ifs
      · refine ⟨?_, rfl, rfl⟩
        simp only [List.map_cons, hmap, hjc]
      · refine ⟨?_, rfl, rfl⟩
        simp only [List.map_cons, hmap, hjc]

/-- The body of the loop of `applyIK` assigns `desired_position` only. -/
theorem applyIK_step_frame_of {β : Type} (f : Joint K → β)
    (hf : ∀ (j : Joint K) (d : K), f { j with desired_position := d } = f j)
    (id_name_ : String) (clamp_to_limits : Bool) (delta : K) (joint : Joint K) :
    f (Leg.applyIK.step id_name_ clamp_to_limits delta joint).1 = f joint := by
  unfold Leg.applyIK.step
  simp only
  split_ifs <;> simp only [hf]

/-- The loop of `applyIK` assigns desired positions only. -/
theorem applyIK_loop_frame {β : Type} {n : Nat} (f : Joint K → β)
    (hf : ∀ (j : Joint K) (d : K), f { j with desired_position := d } = f j)
    (id_name_ : String) (clamp_to_limits : Bool) (joint_delta_pos : Fin n → K)
    (l : List (Nat × Joint K)) (index : Nat) (r : List (Nat × Joint K) × List (LogEvent K))
    (hl : Leg.applyIK.loop id_name_ clamp_to_limits joint_delta_pos index l = some r) :
    r.1.map (fun p => (p.1, f p.2)) = l.map (fun p => (p.1, f p.2)) := by
  induction l generalizing index r with
  | nil =>
    simp only [Leg.applyIK.loop, Option.some.injEq] at hl
    subst hl
    rfl
  | cons p rest ih =>
    obtain ⟨k, joint⟩ := p
    simp only [Leg.applyIK.loop, Option.bind_eq_bind, Option.bind_eq_some,
      Option.some.injEq] at hl
    obtain ⟨delta, _, rs, hrs, hl⟩ := hl
    subst hl
    simp only [List.map_cons, ih (index + 1) rs hrs,
      applyIK_step_frame_of f hf id_name_ clamp_to_limits delta joint]

/-- Whenever `applyIK` returns, on any leg, what reads neither a joint's desired position nor
its transform has the same value on every joint, and the links and the desired tip position
are as they were. -/
theorem applyIK_frame {β : Type} (f : Joint K → β)
    (hf : ∀ (j : Joint K) (d : K), f { j with desired_position := d } = f j)
    (hft : ∀ (j : Joint K) (t : Matrix4d K), f { j with transform := t } = f j)
    (h : Helpers K) (leg : Leg K) (time_delta : K) (clamp_to_limits debug : Bool)
    (out : Leg K × Bool × List (LogEvent K))
    (hout : leg.applyIK h time_delta clamp_to_limits debug = some out) :
    out.1.joint_container_.map (fun p => (p.1, f p.2))
      = leg.joint_container_.map (fun p => (p.1, f p.2)) ∧
    out.1.link_container_ = leg.link_container_ ∧
    out.1.desired_tip_position_ = leg.desired_tip_position_ := by
  unfold Leg.applyIK at hout
  simp only [Option.bind_eq_bind, Option.bind_eq_some, Option.some.injEq] at hout
  obtain ⟨delta, _, joints, hjoints, r, hr, rfl⟩ := hout
  have hloop := applyIK_loop_frame f hf leg.id_name_ clamp_to_limits delta
    leg.joint_container_ 0 joints hjoints
  have hfk := applyFK_frame f hft h _ time_delta _ r hr
  exact ⟨hfk.1.trans hloop, hfk.2.1, hfk.2.2⟩

/-- Whenever `updateTipForce` returns, it has changed the tip force only. -/
theorem updateTipForce_frame (h : Helpers K) (ind : Indeterminate K) (leg : Leg K)
    (debug : Bool) (out : Leg K) (hout : leg.updateTipForce h ind debug = some out) :
    out.joint_container_ = leg.joint_container_ ∧ out.link_container_ = leg.link_container_ ∧
    out.desired_tip_position_ = leg.desired_tip_position_ := by
  unfold Leg.updateTipForce at hout
  simp only [Option.bind_eq_bind, Option.bind_eq_some, Option.some.injEq] at hout
  obtain ⟨_, _, _, _, rfl⟩ := hout
  exact ⟨rfl, rfl, rfl⟩

/-- The constructor of a joint leaves `prev_desired_position` unassigned. -/
theorem ctorJoint_prev_desired_position (h : Helpers K) (ind : Indeterminate K)
    (params : Parameters K) (id_name_ : String) (id_number i : Nat) :
    (ctorJoint h ind params id_name_ id_number i).prev_desired_position
      = ind.prev_desired_position i := by
  unfold ctorJoint Joint.ctor
  simp only
  split_ifs <;> rfl

/-- The body of the loop of `init` leaves the three positions equal. -/
theorem init_step_positions (h : Helpers K) (flag : Bool) (joint : Joint K) :
    (Leg.init.step h flag joint).prev_desired_position
      = (Leg.init.step h flag joint).desired_position ∧
    (Leg.init.step h flag joint).desired_position
      = (Leg.init.step h flag joint).current_position := by
  unfold Leg.init.step
  exact ⟨rfl, rfl⟩

/-- Whenever `init` returns, on any leg, every joint has its previous desired position equal
to its desired position and to its current position. -/
theorem init_prev_desired_position (h : Helpers K) (leg : Leg K) (time_delta : K)
    (flag : Bool) (out : Leg K) (hout : leg.init h time_delta flag = some out) :
    ∀ p ∈ out.joint_container_, p.2.prev_desired_position = p.2.desired_position ∧
      p.2.desired_position = p.2.current_position := by
  unfold Leg.init at hout
  simp only [Option.bind_eq_bind, Option.bind_eq_some, Option.some.injEq] at hout
  obtain ⟨r, hr, rfl⟩ := hout
  have hfk := applyFK_frame
    (fun j : Joint K => (j.prev_desired_position, j.desired_position, j.current_position))
    (fun _ _ => rfl) h _ time_delta _ r hr
  intro p hp
  have hmem : (p.1, p.2.prev_desired_position, p.2.desired_position, p.2.current_position)
      ∈ r.1.joint_container_.map
        (fun p => (p.1, p.2.prev_desired_position, p.2.desired_position,
          p.2.current_position)) :=
    List.mem_map.mpr ⟨p, hp, rfl⟩
  rw [hfk.1] at hmem
  simp only [List.map_map, List.mem_map, Function.comp_apply, Prod.mk.injEq] at hmem
  obtain ⟨q, _, _, h1, h2, h3⟩ := hmem
  have hq := init_step_positions h flag q.2
  rw [← h1, ← h2, ← h3]
  exact hq

end PrevDesired


section BaseLink

set_option linter.unusedSectionVars false

variable {K : Type} [LinearOrderedField K]

/-- Replacing the pointer of the base link keeps every link's DH members. -/
theorem setBaseActuating_linkAt (leg : Leg K) (a : Option Nat) (k : Nat) :
    ((leg.setBaseActuating a).linkAt k).offset = (leg.linkAt k).offset ∧
    ((leg.setBaseActuating a).linkAt k).length = (leg.linkAt k).length ∧
    ((leg.setBaseActuating a).linkAt k).twist = (leg.linkAt k).twist := by
  unfold Leg.linkAt Leg.setBaseActuating
  simp only
  rw [mapFind_map_val
    (fun p : Nat × Link K => if p.1 = 0 then { p.2 with actuating_joint := a } else p.2)]
  cases mapFind leg.link_container_ k with
  | none => exact ⟨rfl, rfl, rfl⟩
  | some v =>
    simp only [Option.map_some', Option.getD_some]
    split_ifs <;> exact ⟨rfl, rfl, rfl⟩

/-- Replacing the pointer of the base link keeps every other link. -/
theorem setBaseActuating_linkAt_pos (leg : Leg K) (a : Option Nat) (k : Nat) (hk : k ≠ 0) :
    (leg.setBaseActuating a).linkAt k = leg.linkAt k := by
  unfold Leg.linkAt Leg.setBaseActuating
  simp only
  rw [mapFind_map_val
    (fun p : Nat × Link K => if p.1 = 0 then { p.2 with actuating_joint := a } else p.2)]
  cases mapFind leg.link_container_ k with
  | none => rfl
  | some v => simp only [Option.map_some', Option.getD_some, if_neg hk]

theorem setBaseActuating_chainShape (leg : Leg K) (N : Nat) (hs : leg.chainShape N)
    (a : Option Nat) : (leg.setBaseActuating a).chainShape N := by
  obtain ⟨s1, s2, s3, s4, s5, s6⟩ := hs
  refine ⟨s1, s2, ?_, s4, ?_, s6⟩
  · show (leg.link_container_.map _).map Prod.fst = _
    rw [List.map_map]
    exact s3
  · intro p hp hp1
    obtain ⟨q, hq, rfl⟩ := List.mem_map.mp hp
    have hne : q.1 ≠ 0 := by
      have : 1 ≤ q.1 := hp1
      omega
    simp only [if_neg hne]
    exact s5 q hq hp1

theorem setBaseActuating_dhMatrixAt (h : Helpers K) (leg : Leg K) (a : Option Nat) :
    (leg.setBaseActuating a).dhMatrixAt h = leg.dhMatrixAt h := by
  funext k
  obtain ⟨e1, e2, e3⟩ := setBaseActuating_linkAt leg a k
  unfold Leg.dhMatrixAt
  rw [e1, e2, e3]
  rfl

theorem setBaseActuating_dhAt (leg : Leg K) (a : Option Nat) :
    (leg.setBaseActuating a).dhAt = leg.dhAt := by
  funext k
  obtain ⟨e1, e2, e3⟩ := setBaseActuating_linkAt leg a k
  unfold Leg.dhAt
  rw [e1, e2, e3]
  rfl

theorem setBaseActuating_fkJoints (h : Helpers K) (leg : Leg K) (a : Option Nat) :
    (leg.setBaseActuating a).fkJoints h = leg.fkJoints h := by
  unfold Leg.fkJoints
  rw [setBaseActuating_dhMatrixAt h leg a]
  rfl

theorem setBaseActuating_fkTip (h : Helpers K) (leg : Leg K) (a : Option Nat) :
    (leg.setBaseActuating a).fkTip h = leg.fkTip h := by
  unfold Leg.fkTip
  rw [setBaseActuating_dhMatrixAt h leg a]
  rfl

theorem setBaseActuating_fkPosition (h : Helpers K) (leg : Leg K) (a : Option Nat) :
    (leg.setBaseActuating a).fkPosition h = leg.fkPosition h := by
  unfold Leg.fkPosition
  rw [setBaseActuating_fkJoints h leg a, setBaseActuating_fkTip h leg a]

/-- The result of `applyFK` on the leg with another pointer in the base link is the result
on the leg, with that pointer in the base link. -/
theorem setBaseActuating_fkResult (h : Helpers K) (leg : Leg K) (a : Option Nat)
    (time_delta : K) (set_local : Bool) :
    (leg.setBaseActuating a).fkResult h time_delta set_local
      = (leg.fkResult h time_delta set_local).setBaseActuating a := by
  unfold Leg.fkResult
  rw [setBaseActuating_fkJoints h leg a, setBaseActuating_fkTip h leg a,
    setBaseActuating_fkPosition h leg a]
  rfl

theorem setBaseActuating_ikDelta (h : Helpers K) (leg : Leg K) (a : Option Nat) :
    (leg.setBaseActuating a).ikDelta h = leg.ikDelta h := by
  unfold Leg.ikDelta
  rw [setBaseActuating_dhAt leg a]
  rfl

theorem setBaseActuating_ikLoopResult (h : Helpers K) (leg : Leg K) (a : Option Nat)
    (clamp_to_limits : Bool) :
    (leg.setBaseActuating a).ikLoopResult h clamp_to_limits
      = (leg.ikLoopResult h clamp_to_limits).setBaseActuating a := by
  unfold Leg.ikLoopResult
  rw [setBaseActuating_ikDelta h leg a]
  rfl

theorem setBaseActuating_jacobian (h : Helpers K) (leg : Leg K) (a : Option Nat) :
    (leg.setBaseActuating a).jacobian h = leg.jacobian h := by
  unfold Leg.jacobian
  rw [setBaseActuating_dhAt leg a]
  rfl

/-- The links the virtual-leg-length loop walks: those under the keys `1..N`. -/
theorem chainShape_mapFrom (leg : Leg K) (N : Nat) (hs : leg.chainShape N) :
    mapFrom leg.link_container_ 1 = (List.range' 1 N).map (fun k => (k, leg.linkAt k)) := by
  have hl := chainShape_links_eq leg N hs
  have hm := mapFrom_range (fun k => leg.linkAt k) N
  rw [← hl] at hm
  exact hm

/-- The virtual-leg-length loop on a chain: every lookup succeeds and the result is the
product of the DH matrices of the links walked. -/
theorem virtualLoop_chain (h : Helpers K) (leg : Leg K) (N : Nat) (hs : leg.chainShape N)
    (s n : Nat) (h1 : 1 ≤ s) (hn : s + n ≤ N + 1) (transform : Matrix4d K) :
    Leg.ctor.virtualLoop h leg.joint_container_ transform
        ((List.range' s n).map (fun k => (k, leg.linkAt k)))
      = some (((List.range' s n).map (leg.virtualDH h)).foldl (fun m t => m * t)
          transform) := by
  induction n generalizing s transform with
  | zero => rfl
  | succ n ih =>
    rw [List.range'_succ, List.map_cons, List.map_cons, List.foldl_cons, Leg.ctor.virtualLoop]
    have hact := chainShape_linkAt_actuating leg N hs s h1 (by omega)
    have hfind := chainShape_find_joint leg N hs s h1 (by omega)
    simp only [hact, hfind, Option.bind_eq_bind, Option.some_bind]
    exact ih (s + 1) (by omega) (by omega) _

end BaseLink

section DoubleWaveforms

variable {K : Type} [LinearOrder K]

theorem double_getPitchCompensation_eq (ar : DoubleArith K) (walker : WalkController K) :
    ar.getPitchCompensation walker
      = ar.keypointWave (ar.pitchKeypoints walker 0) (ar.pitchKeypoints walker 1)
          (ar.pitchKeypoints walker 2) (ar.pitchKeypoints walker 3)
          (ar.pitchKeypoints walker 4) (ar.pitchKeypoints walker 5) walker.phase := rfl

theorem double_getTiltCompensation_eq (ar : DoubleArith K) (walker : WalkController K) :
    ar.getTiltCompensation walker
      = ar.keypointWave (ar.rollKeypoints walker 0) (ar.rollKeypoints walker 1)
          (ar.rollKeypoints walker 2) (ar.rollKeypoints walker 3)
          (ar.rollKeypoints walker 4) (ar.rollKeypoints walker 5) walker.phase := rfl

theorem double_keypointWave_first (ar : DoubleArith K) (p0 p1 p2 p3 p4 p5 : K × K) (phase : K)
    (h0 : p0.1 ≤ phase) (h1 : phase < p1.1) :
    ar.keypointWave p0 p1 p2 p3 p4 p5 phase = some p0.2 := by
  unfold DoubleArith.keypointWave
  rw [if_pos ⟨h0, h1⟩]

theorem double_keypointWave_third (ar : DoubleArith K) (p0 p1 p2 p3 p4 p5 : K × K) (phase : K)
    (h1 : p1.1 ≤ phase) (h2 : p2.1 ≤ phase) (h3 : phase < p3.1) :
    ar.keypointWave p0 p1 p2 p3 p4 p5 phase = some p2.2 := by
  unfold DoubleArith.keypointWave
  rw [if_neg (fun hc => absurd hc.2 (not_lt.mpr h1)),
    if_neg (fun hc => absurd hc.2 (not_lt.mpr h2)), if_pos ⟨h2, h3⟩]

theorem double_keypointWave_fifth (ar : DoubleArith K) (p0 p1 p2 p3 p4 p5 : K × K) (phase : K)
    (h1 : p1.1 ≤ phase) (h2 : p2.1 ≤ phase) (h3 : p3.1 ≤ phase) (h4 : p4.1 ≤ phase)
    (h5 : phase < p5.1) :
    ar.keypointWave p0 p1 p2 p3 p4 p5 phase = some p4.2 := by
  unfold DoubleArith.keypointWave
  rw [if_neg (fun hc => absurd hc.2 (not_lt.mpr h1)),
    if_neg (fun hc => absurd hc.2 (not_lt.mpr h2)),
    if_neg (fun hc => absurd hc.2 (not_lt.mpr h3)),
    if_neg (fun hc => absurd hc.2 (not_lt.mpr h4)), if_pos ⟨h4, h5⟩]

/-- No branch is taken exactly when no branch condition holds. -/
theorem double_keypointWave_eq_none_iff (ar : DoubleArith K) (p0 p1 p2 p3 p4 p5 : K × K)
    (phase : K) :
    ar.keypointWave p0 p1 p2 p3 p4 p5 phase = none ↔
      ¬ (phase ≥ p0.1 ∧ phase < p1.1) ∧ ¬ (phase ≥ p1.1 ∧ phase < p2.1) ∧
      ¬ (phase ≥ p2.1 ∧ phase < p3.1) ∧ ¬ (phase ≥ p3.1 ∧ phase < p4.1) ∧
      ¬ (phase ≥ p4.1 ∧ phase < p5.1) := by
  unfold DoubleArith.keypointWave
  split_ifs with h1 h2 h3 h4 h5
  · exact ⟨fun h => absurd h (by simp), fun h => absurd h1 h.1⟩
  · exact ⟨fun h => absurd h (by simp), fun h => absurd h2 h.2.1⟩
  · exact ⟨fun h => absurd h (by simp), fun h => absurd h3 h.2.2.1⟩
  · exact ⟨fun h => absurd h (by simp), fun h => absurd h4 h.2.2.2.1⟩
  · exact ⟨fun h => absurd h (by simp), fun h => absurd h5 h.2.2.2.2⟩
  · exact ⟨fun _ => ⟨h1, h2, h3, h4, h5⟩, fun _ => rfl⟩

/-- The conjunction over the five branches, spelled out. -/
theorem forall_fin_five (P : Fin 5 → Prop) :
    (∀ i, P i) ↔ P 0 ∧ P 1 ∧ P 2 ∧ P 3 ∧ P 4 := by
  constructor
  · intro h
    exact ⟨h 0, h 1, h 2, h 3, h 4⟩
  · rintro ⟨h0, h1, h2, h3, h4⟩ i
    fin_cases i
    exacts [h0, h1, h2, h3, h4]

/-- From the first keypoint on, no branch condition holds exactly when the phase is at or
beyond every later keypoint. -/
theorem double_keypointWave_eq_none_iff_ge (ar : DoubleArith K) (p : Fin 6 → K × K)
    (phase : K) (h0 : (p 0).1 ≤ phase) :
    ar.keypointWave (p 0) (p 1) (p 2) (p 3) (p 4) (p 5) phase = none ↔
      ∀ i : Fin 5, (p i.succ).1 ≤ phase := by
  rw [double_keypointWave_eq_none_iff, forall_fin_five]
  constructor
  · rintro ⟨c1, c2, c3, c4, c5⟩
    have g1 : (p 1).1 ≤ phase := not_lt.mp (fun hc => c1 ⟨h0, hc⟩)
    have g2 : (p 2).1 ≤ phase := not_lt.mp (fun hc => c2 ⟨g1, hc⟩)
    have g3 : (p 3).1 ≤ phase := not_lt.mp (fun hc => c3 ⟨g2, hc⟩)
    have g4 : (p 4).1 ≤ phase := not_lt.mp (fun hc => c4 ⟨g3, hc⟩)
    have g5 : (p 5).1 ≤ phase := not_lt.mp (fun hc => c5 ⟨g4, hc⟩)
    exact ⟨g1, g2, g3, g4, g5⟩
  · rintro ⟨g1, g2, g3, g4, g5⟩
    exact ⟨fun hc => absurd hc.2 (not_lt.mpr g1), fun hc => absurd hc.2 (not_lt.mpr g2),
      fun hc => absurd hc.2 (not_lt.mpr g3), fun hc => absurd hc.2 (not_lt.mpr g4),
      fun hc => absurd hc.2 (not_lt.mpr g5)⟩

/-- The chain of branches assigns no value exactly when no branch condition holds. -/
theorem double_keypointWave_eq_none_iff_branch (ar : DoubleArith K) (p : Fin 6 → K × K)
    (phase : K) :
    ar.keypointWave (p 0) (p 1) (p 2) (p 3) (p 4) (p 5) phase = none ↔
      ∀ i, ¬ branchCondition p phase i := by
  rw [double_keypointWave_eq_none_iff, forall_fin_five]
  rfl

end DoubleWaveforms

section ExactInstance

variable {K : Type} [LinearOrderedField K]

/-- In exact arithmetic the waveform function over the arithmetic of `double` is
`getPitchCompensation` as defined over the ordered field. -/
theorem exact_getPitchCompensation (walker : WalkController K) :
    DoubleArith.exact.getPitchCompensation walker = getPitchCompensation walker := by
  simp only [DoubleArith.getPitchCompensation, getPitchCompensation, DoubleArith.exact,
    Nat.cast_ofNat, Nat.cast_zero, Nat.cast_one]

end ExactInstance


section Binary64

theorem bitLength_zero : bitLength 0 = 0 := by decide!

/-- Rounding keeps zero. -/
theorem roundUnits_zero (den : Nat) : roundUnits 0 den = 0 := by
  simp [roundUnits, bitLength_zero]

/-- In binary64 the first keypoint `0*phaseLength/6` of both waveform functions is `0`. -/
theorem binary64_first_keypoint (walker : WalkController Int) :
    (binary64.pitchKeypoints walker 0).1 = 0 ∧ (binary64.rollKeypoints walker 0).1 = 0 := by
  have h0 : binary64.ofInt 0 = 0 := by
    show roundUnits ((0 * binary64Unit : Nat) : Int) 1 = 0
    rw [Nat.zero_mul]
    exact roundUnits_zero 1
  have hm : ∀ x : Int, binary64.mul 0 x = 0 := by
    intro x
    show roundUnits (0 * x) binary64Unit = 0
    rw [Int.zero_mul]
    exact roundUnits_zero _
  have hd : ∀ y : Int, binary64.div 0 y = 0 := by
    intro y
    show (if y = 0 then (0 : Int)
      else roundUnits ((if y < 0 then -0 else 0) * ((binary64Unit : Nat) : Int)) y.natAbs) = 0
    split_ifs
    · rfl
    · rw [Int.neg_zero, Int.zero_mul]
      exact roundUnits_zero _
    · rw [Int.zero_mul]
      exact roundUnits_zero _
  constructor
  · show binary64.div (binary64.mul (binary64.ofInt 0) _) (binary64.ofInt 6) = 0
    rw [h0, hm, hd]
  · show binary64.div (binary64.mul (binary64.ofInt 0) _) (binary64.ofInt 6) = 0
    rw [h0, hm, hd]

end Binary64

section Claims

variable {K : Type} [LinearOrderedField K]

/-- C3 (DLS regularization): for every 3 x N Jacobian `j` over an ordered field (the reals
included), rank-deficient or zero, the matrix `j*j^T + sqr(0.02)*I` that `applyIK` inverts equals
`j*j^T + 0.0004*I`, is symmetric and positive definite, has a non-zero determinant, and the
inverse computed for it is a two-sided inverse; so `ik_matrix = j^T * (j*j^T + 0.0004*I)^-1` is
well defined. -/
theorem C3_dls_regularization {n : Nat} (j : Matrix (Fin 3) (Fin n) K) :
    dlsMatrix j = j * j.transpose + (0.0004 : K) • (1 : Matrix3d K) ∧
    (dlsMatrix j).transpose = dlsMatrix j ∧
    (∀ v : Fin 3 → K, v ≠ 0 → 0 < Matrix.dotProduct v ((dlsMatrix j).mulVec v)) ∧
    (dlsMatrix j).det ≠ 0 ∧
    dlsMatrix j * inverse (dlsMatrix j) = 1 ∧
    inverse (dlsMatrix j) * dlsMatrix j = 1 ∧
    ikMatrix j = j.transpose * (j * j.transpose + (0.0004 : K) • (1 : Matrix3d K))⁻¹ := by
  have hdet := dls_det_ne_zero j
  have hunit : IsUnit (dlsMatrix j).det := isUnit_iff_ne_zero.mpr hdet
  refine ⟨dlsMatrix_eq j, ?_, dls_posdef j, hdet, ?_, ?_, ikMatrix_eq j⟩
  · unfold dlsMatrix
    simp [Matrix.transpose_add, Matrix.transpose_mul, Matrix.transpose_smul]
  · rw [inverse_eq_inv]
    exact Matrix.mul_nonsing_inv _ hunit
  · rw [inverse_eq_inv]
    exact Matrix.nonsing_inv_mul _ hunit

/-- C1 (FK/IK round trip): on a chain of `N >= 1` joints in which every joint has
`desired_position = prev_desired_position` within `[min_position, max_position]` and
`desired_tip_position_ = local_tip_position_`, `applyIK` (with or without clamping) computes the
zero vector as `joint_delta_pos`, returns, keeps the keys of the joints, and leaves every joint
with a desired position equal to its previous desired position (and to its desired position
before the call), hence within the tolerance 0.001 of it. -/
theorem C1_fk_ik_round_trip (h : Helpers K) (leg : Leg K) (N : Nat) (time_delta : K)
    (clamp_to_limits debug : Bool) (hN : 1 ≤ N) (hs : leg.chainShape N)
    (hprev : ∀ p ∈ leg.joint_container_,
      p.2.desired_position = p.2.prev_desired_position ∧
      p.2.min_position ≤ p.2.desired_position ∧ p.2.desired_position ≤ p.2.max_position)
    (htip : leg.desired_tip_position_ = leg.local_tip_position_) :
    leg.joint_delta_pos h = some 0 ∧
    ∃ out, leg.applyIK h time_delta clamp_to_limits debug = some out ∧
      out.1.joint_container_.map Prod.fst = leg.joint_container_.map Prod.fst ∧
      ∀ k, 1 ≤ k → k ≤ N →
        ∃ joint joint', mapFind leg.joint_container_ k = some joint ∧
          mapFind out.1.joint_container_ k = some joint' ∧
          joint'.desired_position = joint.prev_desired_position ∧
          joint'.desired_position = joint.desired_position ∧
          joint'.prev_desired_position = joint.prev_desired_position ∧
          |joint'.desired_position - joint.prev_desired_position| ≤ 0.001 := by
  have hzero := ikDelta_eq_zero h leg htip
  refine ⟨by rw [joint_delta_pos_eq h leg N hs hN, hzero], _,
    applyIK_eq h leg N hs hN time_delta clamp_to_limits debug, ?_, ?_⟩
  · have hs1 := ikLoopResult_chainShape h leg N hs clamp_to_limits
    have hs2 := fkResult_chainShape h _ N hs1 hN time_delta true
    exact hs2.2.1.trans hs.2.1.symm
  · intro k hk1 hk2
    obtain ⟨t, ht⟩ := applyIK_result_find h leg N hs hN time_delta clamp_to_limits k hk1 hk2
    obtain ⟨hd, hmin, hmax⟩ := hprev _ (chainShape_mem_joint leg N hs k hk1 hk2)
    simp only at hd hmin hmax
    have hdes : (Leg.applyIK.step leg.id_name_ clamp_to_limits
        (vecGetD (leg.ikDelta h) (k - 1)) (leg.jointAt k)).1.desired_position
        = (leg.jointAt k).prev_desired_position := by
      rw [applyIK_step_desired, hzero, vecGetD_zero, add_zero]
      have h1 : ¬ (leg.jointAt k).prev_desired_position < (leg.jointAt k).min_position := by
        rw [← hd]; exact not_lt.mpr hmin
      have h2 : ¬ (leg.jointAt k).max_position < (leg.jointAt k).prev_desired_position := by
        rw [← hd]; exact not_lt.mpr hmax
      simp [h1, h2]
    refine ⟨_, _, chainShape_find_joint leg N hs k hk1 hk2, ht, hdes, hdes.trans hd.symm,
      (applyIK_step_frame _ _ _ _).1, ?_⟩
    show |(Leg.applyIK.step leg.id_name_ clamp_to_limits
        (vecGetD (leg.ikDelta h) (k - 1)) (leg.jointAt k)).1.desired_position
        - (leg.jointAt k).prev_desired_position| ≤ 0.001
    rw [hdes, sub_self, abs_zero]
    norm_num

/-- C2 (limit clamping): on a chain of `N >= 1` joints `applyIK(clamp_to_limits = true)`
returns; every joint keeps its limits, and when `min_position <= max_position` its desired
position is `prev_desired_position + delta` clamped into the limits (exactly `min_position`
below, exactly `max_position` above, the sum itself otherwise), so it lies within the limits;
the warnings are, in chain order, one limit warning naming the leg and the joint for each joint
whose sum is strictly outside the limits and none for the others, followed by tolerance
warnings only. -/
theorem C2_limit_clamping (h : Helpers K) (leg : Leg K) (N : Nat) (time_delta : K)
    (debug : Bool) (hN : 1 ≤ N) (hs : leg.chainShape N) :
    ∃ delta out, leg.joint_delta_pos h = some delta ∧
      leg.applyIK h time_delta true debug = some out ∧
      (∀ i : Fin leg.num_joints_,
        ∃ joint joint', mapFind leg.joint_container_ (i + 1) = some joint ∧
          mapFind out.1.joint_container_ (i + 1) = some joint' ∧
          joint'.min_position = joint.min_position ∧
          joint'.max_position = joint.max_position ∧
          (joint.min_position ≤ joint.max_position →
            (joint.prev_desired_position + delta i < joint.min_position →
              joint'.desired_position = joint.min_position) ∧
            (joint.max_position < joint.prev_desired_position + delta i →
              joint'.desired_position = joint.max_position) ∧
            (joint.min_position ≤ joint.prev_desired_position + delta i →
              joint.prev_desired_position + delta i ≤ joint.max_position →
              joint'.desired_position = joint.prev_desired_position + delta i) ∧
            joint'.desired_position
              = max joint.min_position (min (joint.prev_desired_position + delta i)
                  joint.max_position) ∧
            joint'.min_position ≤ joint'.desired_position ∧
            joint'.desired_position ≤ joint'.max_position)) ∧
      ∃ tolerance, out.2.2
          = leg.joint_container_.flatMap (fun p =>
              if p.2.prev_desired_position + vecGetD delta (p.1 - 1) < p.2.min_position then
                [LogEvent.minLimitWarning leg.id_name_ p.2.name p.2.min_position]
              else if p.2.max_position < p.2.prev_desired_position + vecGetD delta (p.1 - 1) then
                [LogEvent.maxLimitWarning leg.id_name_ p.2.name p.2.max_position]
              else []) ++ tolerance ∧
        ∀ e ∈ tolerance,
          ∃ axis_label leg_name r d q, e = LogEvent.ikErrorWarning axis_label leg_name r d q := by
  refine ⟨leg.ikDelta h, _, joint_delta_pos_eq h leg N hs hN,
    applyIK_eq h leg N hs hN time_delta true debug, ?_, ?_⟩
  · intro i
    have hi : (i : Nat) + 1 ≤ N := by have h1 := i.isLt; have h2 := hs.1; omega
    obtain ⟨t, ht⟩ := applyIK_result_find h leg N hs hN time_delta true (i + 1)
      (by omega) hi
    have hfr := applyIK_step_frame leg.id_name_ true (vecGetD (leg.ikDelta h) (i + 1 - 1))
      (leg.jointAt (i + 1))
    have hdes := applyIK_step_desired leg.id_name_ true (vecGetD (leg.ikDelta h) (i + 1 - 1))
      (leg.jointAt (i + 1))
    rw [Nat.add_sub_cancel, vecGetD_fin] at hdes hfr
    rw [Nat.add_sub_cancel, vecGetD_fin] at ht
    refine ⟨_, _, chainShape_find_joint leg N hs (i + 1) (by omega) hi, ht, hfr.2.1,
      hfr.2.2.1, ?_⟩
    intro hmm
    simp only [if_true] at hdes
    show (_ → (Leg.applyIK.step leg.id_name_ true (leg.ikDelta h i)
        (leg.jointAt (i + 1))).1.desired_position = _) ∧
      (_ → (Leg.applyIK.step leg.id_name_ true (leg.ikDelta h i)
        (leg.jointAt (i + 1))).1.desired_position = _) ∧
      (_ → _ → (Leg.applyIK.step leg.id_name_ true (leg.ikDelta h i)
        (leg.jointAt (i + 1))).1.desired_position = _) ∧
      (Leg.applyIK.step leg.id_name_ true (leg.ikDelta h i)
        (leg.jointAt (i + 1))).1.desired_position = _ ∧
      (Leg.applyIK.step leg.id_name_ true (leg.ikDelta h i)
        (leg.jointAt (i + 1))).1.min_position ≤
        (Leg.applyIK.step leg.id_name_ true (leg.ikDelta h i)
        (leg.jointAt (i + 1))).1.desired_position ∧
      (Leg.applyIK.step leg.id_name_ true (leg.ikDelta h i)
        (leg.jointAt (i + 1))).1.desired_position ≤
        (Leg.applyIK.step leg.id_name_ true (leg.ikDelta h i)
        (leg.jointAt (i + 1))).1.max_position
    rw [hfr.2.1, hfr.2.2.1, hdes]
    by_cases h1 : (leg.jointAt (i + 1)).prev_desired_position + leg.ikDelta h i
        < (leg.jointAt (i + 1)).min_position
    · have h2 : ¬ (leg.jointAt (i + 1)).max_position
          < (leg.jointAt (i + 1)).prev_desired_position + leg.ikDelta h i := by
        intro hc; exact absurd (lt_trans hc h1) (not_lt.mpr hmm)
      rw [if_pos h1]
      refine ⟨fun _ => rfl, fun hc => absurd hc h2, fun hc => absurd h1 (not_lt.mpr hc), ?_,
        le_rfl, hmm⟩
      rw [min_eq_left (not_lt.mp h2), max_eq_left h1.le]
    · by_cases h2 : (leg.jointAt (i + 1)).max_position
          < (leg.jointAt (i + 1)).prev_desired_position + leg.ikDelta h i
      · rw [if_neg h1, if_pos h2]
        refine ⟨fun hc => absurd hc h1, fun _ => rfl, fun _ hc => absurd h2 (not_lt.mpr hc), ?_,
          hmm, le_rfl⟩
        rw [min_eq_right h2.le, max_eq_right hmm]
      · rw [if_neg h1, if_neg h2]
        refine ⟨fun hc => absurd hc h1, fun hc => absurd hc h2, fun _ _ => rfl, ?_,
          not_lt.mp h1, not_lt.mp h2⟩
        rw [min_eq_left (not_lt.mp h2), max_eq_right (not_lt.mp h1)]
  · refine ⟨leg.ikToleranceWarnings ((leg.ikLoopResult h true).fkPosition h), ?_,
      ikToleranceWarnings_kind leg _⟩
    show leg.ikWarnings true (leg.ikDelta h) ++ _ = _
    congr 1
    unfold Leg.ikWarnings
    congr 1
    funext p
    rw [applyIK_step_warnings]
    simp

/-- C4 (incremental IK step): on a chain of `N >= 1` joints `applyIK(clamp_to_limits = false)`
returns and sets the desired position of joint `i+1` to its previous desired position plus
entry `i` of `J^T (J J^T + 0.0004 I)^-1 * delta`, where `J` is the Jacobian of the DH parameter
sets of the links `1..N` at the desired positions the joints had before the call, and `delta`
is the difference of `desired_tip_position_` and `local_tip_position_`, both in the frame of
the first joint. -/
theorem C4_incremental_ik_step (h : Helpers K) (leg : Leg K) (N : Nat) (time_delta : K)
    (debug : Bool) (hN : 1 ≤ N) (hs : leg.chainShape N) :
    ∃ out, leg.applyIK h time_delta false debug = some out ∧
      leg.dh_parameters = some ((List.range' 1 N).map leg.dhAt) ∧
      (∀ k, 1 ≤ k → k ≤ N →
        mapFind leg.link_container_ k = some (leg.linkAt k) ∧
        mapFind leg.joint_container_ k = some (leg.jointAt k) ∧
        leg.dhAt k =
          { d := (leg.linkAt k).offset, theta := (leg.jointAt k).desired_position
            r := (leg.linkAt k).length, alpha := (leg.linkAt k).twist }) ∧
      leg.joint_container_.head? = some (1, leg.jointAt 1) ∧
      ∀ i : Fin leg.num_joints_,
        ∃ joint', mapFind out.1.joint_container_ (i + 1) = some joint' ∧
          joint'.desired_position
            = (leg.jointAt (i + 1)).prev_desired_position
              + ((h.createJacobian ((List.range' 1 N).map leg.dhAt) leg.num_joints_).transpose
                  * (h.createJacobian ((List.range' 1 N).map leg.dhAt) leg.num_joints_
                      * (h.createJacobian ((List.range' 1 N).map leg.dhAt)
                          leg.num_joints_).transpose
                    + (0.0004 : K) • (1 : Matrix3d K))⁻¹).mulVec
                  (h.getPositionJointFrame (leg.jointAt 1) leg.desired_tip_position_
                    - h.getPositionJointFrame (leg.jointAt 1) leg.local_tip_position_) i := by
  refine ⟨_, applyIK_eq h leg N hs hN time_delta false debug, dh_parameters_eq leg N hs hN,
    ?_, ?_, ?_⟩
  · intro k hk1 hk2
    exact ⟨chainShape_find_link leg N hs k hk2, chainShape_find_joint leg N hs k hk1 hk2, rfl⟩
  · have hj := chainShape_joints_eq leg N hs
    obtain ⟨n, rfl⟩ : ∃ n, N = n + 1 := ⟨N - 1, by omega⟩
    rw [hj]
    simp [List.range'_succ]
  · intro i
    have hi : (i : Nat) + 1 ≤ N := by have h1 := i.isLt; have h2 := hs.1; omega
    obtain ⟨t, ht⟩ := applyIK_result_find h leg N hs hN time_delta false (i + 1)
      (by omega) hi
    refine ⟨_, ht, ?_⟩
    show (Leg.applyIK.step leg.id_name_ false (vecGetD (leg.ikDelta h) (i + 1 - 1))
        (leg.jointAt (i + 1))).1.desired_position = _
    rw [applyIK_step_desired, Nat.add_sub_cancel, vecGetD_fin]
    simp only [Bool.false_eq_true, if_false]
    unfold Leg.ikDelta
    rw [ikMatrix_eq]
    have hn := hs.1
    subst hn
    rfl

/-- C5 (IK always reports true): whenever `applyIK` returns, the flag it returns is `true`, for
every leg state, desired tip position and value of `clamp_to_limits` and `debug`, whatever the
tolerance check finds; and on a chain of `N >= 1` joints it does return. -/
theorem C5_applyIK_returns_true (h : Helpers K) (leg : Leg K) (time_delta : K)
    (clamp_to_limits debug : Bool) :
    (∀ out, leg.applyIK h time_delta clamp_to_limits debug = some out → out.2.1 = true) ∧
    (∀ N, 1 ≤ N → leg.chainShape N →
      ∃ out, leg.applyIK h time_delta clamp_to_limits debug = some out ∧ out.2.1 = true ∧
        out.2.2 = leg.ikWarnings clamp_to_limits (leg.ikDelta h)
          ++ leg.ikToleranceWarnings ((leg.ikLoopResult h clamp_to_limits).fkPosition h)) := by
  refine ⟨?_, ?_⟩
  · intro out hout
    unfold Leg.applyIK at hout
    simp only [Option.bind_eq_bind, Option.bind_eq_some, Option.some.injEq] at hout
    obtain ⟨_, _, _, _, _, _, rfl⟩ := hout
    rfl
  · intro N hN hs
    exact ⟨_, applyIK_eq h leg N hs hN time_delta clamp_to_limits debug, rfl, rfl⟩

/-- C6 (FK tip-velocity rule): on a chain of `N >= 1` joints whose `local_tip_position_` is
one of the values the code assigns to it (the unassigned sentinel vector, or a tip position,
whose first component is not `UNASSIGNED_VALUE`), `applyFK` returns the same tip position with
either flag. With `set_local = true`, when the local tip position is assigned (not the
sentinel vector) it sets `desired_tip_velocity_` to
`(new tip position - previous local_tip_position_) / time_delta`, when it is still the sentinel
vector it leaves `desired_tip_velocity_` unchanged, and in both cases it sets
`local_tip_position_` to the new tip position. With `set_local = false` neither member
changes. The condition on the state holds on the leg the constructor builds and is kept by
`applyFK` with either flag (with `set_local = true` for a new tip position whose first
component is not `UNASSIGNED_VALUE`). -/
theorem C6_fk_tip_velocity (h : Helpers K) (leg : Leg K) (N : Nat) (time_delta : K)
    (hN : 1 ≤ N) (hs : leg.chainShape N) (hstate : leg.localTipState h) :
    ∃ with_local without tip,
      leg.applyFK h time_delta true = some (with_local, tip) ∧
      leg.applyFK h time_delta false = some (without, tip) ∧
      with_local.local_tip_position_ = tip ∧
      (leg.local_tip_position_
          ≠ ![h.UNASSIGNED_VALUE, h.UNASSIGNED_VALUE, h.UNASSIGNED_VALUE] →
        with_local.desired_tip_velocity_
          = fun i => (tip i - leg.local_tip_position_ i) / time_delta) ∧
      (leg.local_tip_position_
          = ![h.UNASSIGNED_VALUE, h.UNASSIGNED_VALUE, h.UNASSIGNED_VALUE] →
        with_local.desired_tip_velocity_ = leg.desired_tip_velocity_) ∧
      without.local_tip_position_ = leg.local_tip_position_ ∧
      without.desired_tip_velocity_ = leg.desired_tip_velocity_ ∧
      (tip 0 ≠ h.UNASSIGNED_VALUE → with_local.localTipState h) ∧
      without.localTipState h ∧
      (∀ ind id_number params built log,
        Leg.ctor h ind id_number params = some (built, log) → built.localTipState h) := by
  refine ⟨_, _, _, applyFK_eq h leg N hs hN time_delta true,
    applyFK_eq h leg N hs hN time_delta false, ?_, ?_, ?_, ?_, ?_, ?_, ?_, ?_⟩
  · simp [Leg.fkResult]
  · intro hne
    have h0 : leg.local_tip_position_ 0 ≠ h.UNASSIGNED_VALUE := by
      rcases hstate with hsent | hx
      · exact absurd hsent hne
      · exact hx
    simp [Leg.fkResult, h0]
  · intro heq
    have h0 : leg.local_tip_position_ 0 = h.UNASSIGNED_VALUE := by rw [heq]; rfl
    simp [Leg.fkResult, h0]
  · simp [Leg.fkResult]
  · simp [Leg.fkResult]
  · intro htip
    right
    simpa [Leg.fkResult] using htip
  · rcases hstate with hsent | hx
    · left
      simpa [Leg.fkResult] using hsent
    · right
      simpa [Leg.fkResult] using hx
  · intro ind id_number params built log hc
    left
    obtain ⟨built', log', hc', -, -, -, -, -, -, -, hlocal, -⟩ := ctor_eq h ind id_number params
    rw [hc] at hc'
    obtain ⟨rfl, -⟩ := Prod.mk.inj (Option.some.inj hc')
    exact hlocal

/-- C7 (FK depends on the desired positions and the DH parameters only): for two states of a
leg that agree on the chain, on every joint's desired position, on the first joint's transform
and on every link's offset, length and twist, and differ arbitrarily in the joints' current
position, velocity, effort and previous desired position, `applyFK` returns the same tip
position and writes the same joint and tip transforms (or fails in both); on a chain of
`N >= 1` joints it returns in both. -/
theorem C7_fk_function_of_desired_positions (h : Helpers K) (a b : Leg K) (time_delta : K)
    (set_local : Bool) (hab : a.fkAgree b) :
    (a.applyFK h time_delta set_local).map fkOutput
      = (b.applyFK h time_delta set_local).map fkOutput ∧
    ∀ N, 1 ≤ N → a.chainShape N →
      ∃ ra rb, a.applyFK h time_delta set_local = some ra ∧
        b.applyFK h time_delta set_local = some rb ∧
        ra.2 = rb.2 ∧
        ra.1.joint_container_.map (fun p => (p.1, p.2.transform))
          = rb.1.joint_container_.map (fun p => (p.1, p.2.transform)) ∧
        ra.1.tip_.transform = rb.1.tip_.transform := by
  have heq := fkAgree_applyFK h a b hab time_delta set_local
  refine ⟨heq, ?_⟩
  intro N hN hs
  have ha := applyFK_eq h a N hs hN time_delta set_local
  rw [ha] at heq
  cases hb : b.applyFK h time_delta set_local with
  | none => rw [hb] at heq; simp at heq
  | some rb =>
    rw [hb] at heq
    simp only [Option.map_some', Option.some.injEq, fkOutput, Prod.mk.injEq] at heq
    exact ⟨_, rb, ha, rfl, heq.1, heq.2.1, heq.2.2⟩

/-- C8 (postcondition of `init`): on a chain of `N >= 1` joints `init` returns and keeps the
keys of the joints; every joint has `desired_position = prev_desired_position =
current_position`, where the current position, velocity and effort are unchanged when the flag
is false, and are `clamped(0, min_position, max_position)`, 0 and 0 when it is true; and
`desired_tip_position_ = local_tip_position_`, which is the tip position `applyFK` computes
from the joints of the resulting leg. -/
theorem C8_init_postcondition (h : Helpers K) (leg : Leg K) (N : Nat) (time_delta : K)
    (use_default_joint_positions : Bool) (hN : 1 ≤ N) (hs : leg.chainShape N) :
    ∃ leg', leg.init h time_delta use_default_joint_positions = some leg' ∧
      leg'.joint_container_.map Prod.fst = leg.joint_container_.map Prod.fst ∧
      (∀ k, 1 ≤ k → k ≤ N →
        ∃ joint joint', mapFind leg.joint_container_ k = some joint ∧
          mapFind leg'.joint_container_ k = some joint' ∧
          joint'.desired_position = joint'.current_position ∧
          joint'.prev_desired_position = joint'.current_position ∧
          (use_default_joint_positions = false →
            joint'.current_position = joint.current_position ∧
            joint'.current_velocity = joint.current_velocity ∧
            joint'.current_effort = joint.current_effort) ∧
          (use_default_joint_positions = true →
            joint'.current_position = h.clamped 0 joint.min_position joint.max_position ∧
            joint'.current_velocity = 0 ∧
            joint'.current_effort = 0)) ∧
      leg'.desired_tip_position_ = leg'.local_tip_position_ ∧
      ∃ again, leg'.applyFK h time_delta false = some (again, leg'.local_tip_position_) := by
  have hs3 := initResult_chainShape h leg N hs hN time_delta use_default_joint_positions
  refine ⟨_, init_eq h leg N hs hN time_delta use_default_joint_positions, ?_, ?_, ?_, ?_⟩
  · exact hs3.2.1.trans hs.2.1.symm
  · intro k hk1 hk2
    have hfind := chainShape_find_joint _ N hs3 k hk1 hk2
    obtain ⟨t, ht⟩ := initResult_jointAt h leg N hs hN time_delta
      use_default_joint_positions k hk1 hk2
    rw [ht] at hfind
    obtain ⟨f1, f2, f3, f4, _⟩ :=
      init_step_fields h use_default_joint_positions (leg.jointAt k)
    exact ⟨_, _, chainShape_find_joint leg N hs k hk1 hk2, hfind, f1, f2, f3, f4⟩
  · simp [Leg.initResult, Leg.fkResult]
  · refine ⟨(leg.initResult h time_delta use_default_joint_positions).fkResult h time_delta
      false, ?_⟩
    rw [applyFK_eq h _ N hs3 hN time_delta false,
      initResult_fkPosition h leg N hs hN time_delta use_default_joint_positions]

/-- C9 (chain shape invariant): for every DOF count `N >= 1` the constructor returns a leg with
exactly `N` joints under the keys `1..N` and `N+1` links under the keys `0..N` (one joint fewer
than links), in which joint `i` refers to link `i-1`, link `i` is actuated by joint `i` and the
tip refers to link `N`; and on every state of such a chain `init`, `applyFK`, `applyIK`,
`applyDeltaZ` and `updateTipForce` return a state with the same joints (key, id, name,
reference link) in the same order, the same links and the same tip reference, which again has
the shape of the chain. -/
theorem C9_chain_shape_invariant (h : Helpers K) (ind : Indeterminate K) (id_number : Nat)
    (params : Parameters K) (N : Nat) (hN : 1 ≤ N)
    (hdof : params.leg_DOF (params.leg_id id_number) = N) :
    ∃ leg log, Leg.ctor h ind id_number params = some (leg, log) ∧
      leg.joint_container_.map Prod.fst = List.range' 1 N ∧
      leg.link_container_.map Prod.fst = List.range' 0 (N + 1) ∧
      leg.joint_container_.length = N ∧
      leg.link_container_.length = N + 1 ∧
      leg.joint_container_.length = leg.link_container_.length - 1 ∧
      (∀ i, 1 ≤ i → i ≤ N →
        ∃ joint link, mapFind leg.joint_container_ i = some joint ∧
          mapFind leg.link_container_ i = some link ∧
          joint.reference_link = i - 1 ∧ link.actuating_joint = some i) ∧
      leg.tip_.reference_link = N ∧
      leg.chainShape N ∧
      ∀ s : Leg K, s.chainShape N →
        (∀ time_delta flag, ∃ out, s.init h time_delta flag = some out ∧
          s.sameChain out ∧ out.chainShape N) ∧
        (∀ time_delta set_local, ∃ out, s.applyFK h time_delta set_local = some out ∧
          s.sameChain out.1 ∧ out.1.chainShape N) ∧
        (∀ time_delta clamp_to_limits debug,
          ∃ out, s.applyIK h time_delta clamp_to_limits debug = some out ∧
            s.sameChain out.1 ∧ out.1.chainShape N) ∧
        (∀ tip_position, s.sameChain (s.applyDeltaZ tip_position) ∧
          (s.applyDeltaZ tip_position).chainShape N) ∧
        (∀ debug, ∃ out, s.updateTipForce h ind debug = some out ∧
          s.sameChain out ∧ out.chainShape N) := by
  obtain ⟨leg, log, hc, _⟩ := ctor_eq h ind id_number params
  have hs := ctor_chainShape h ind id_number params leg log hc
  rw [hdof] at hs
  obtain ⟨hl1, hl2⟩ := chainShape_length leg N hs
  refine ⟨leg, log, hc, hs.2.1, hs.2.2.1, hl1, hl2, by omega, ?_, hs.2.2.2.2.2, hs, ?_⟩
  · intro i hi1 hi2
    exact ⟨_, _, chainShape_find_joint leg N hs i hi1 hi2,
      chainShape_find_link leg N hs i hi2,
      hs.2.2.2.1 _ (chainShape_mem_joint leg N hs i hi1 hi2),
      chainShape_linkAt_actuating leg N hs i hi1 hi2⟩
  · intro s hss
    refine ⟨?_, ?_, ?_, ?_, ?_⟩
    · intro time_delta flag
      have hs1 := initLoopResult_chainShape h s N hss flag
      refine ⟨_, init_eq h s N hss hN time_delta flag, ?_,
        initResult_chainShape h s N hss hN time_delta flag⟩
      have h1 : s.sameChain (s.initLoopResult h flag) :=
        sameChain_of_map s _ (fun p => Leg.init.step h flag p.2)
          (fun p => init_step_ids h flag p.2) rfl rfl rfl rfl rfl
      have h2 := fkResult_sameChain h _ N hs1 hN time_delta true
      exact sameChain_trans _ _ _ h1 h2
    · intro time_delta set_local
      exact ⟨_, applyFK_eq h s N hss hN time_delta set_local,
        fkResult_sameChain h s N hss hN time_delta set_local,
        fkResult_chainShape h s N hss hN time_delta set_local⟩
    · intro time_delta clamp_to_limits debug
      have hs1 := ikLoopResult_chainShape h s N hss clamp_to_limits
      refine ⟨_, applyIK_eq h s N hss hN time_delta clamp_to_limits debug, ?_,
        fkResult_chainShape h _ N hs1 hN time_delta true⟩
      have h1 : s.sameChain (s.ikLoopResult h clamp_to_limits) :=
        sameChain_of_map s _
          (fun p => (Leg.applyIK.step s.id_name_ clamp_to_limits
            (vecGetD (s.ikDelta h) (p.1 - 1)) p.2).1)
          (fun p => applyIK_step_ids _ _ _ _) rfl rfl rfl rfl rfl
      have h2 := fkResult_sameChain h _ N hs1 hN time_delta true
      exact sameChain_trans _ _ _ h1 h2
    · intro tip_position
      exact ⟨⟨rfl, rfl, rfl, rfl, rfl⟩, hss⟩
    · intro debug
      obtain ⟨force, hf⟩ := updateTipForce_some h ind s N hss hN debug
      exact ⟨_, hf, ⟨rfl, rfl, rfl, rfl, rfl⟩, hss⟩

/-- C10 (virtual leg length, in the frame of the first joint): for every DOF count `N >= 1`
the constructor returns a leg and `init(true)` returns on it, leaving every joint's desired
position at `clamped(0, min_position, max_position)`; the transforms `applyFK` then holds in
the joints after the first and in the tip are the DH matrices of the links `1..N` at those
angles, and `max_virtual_leg_length_` is the Euclidean norm of the point their product maps
the origin to (the tip position relative to the frame of the first joint); `init` does not
change it. -/
theorem C10_max_virtual_leg_length (h : Helpers K) (ind : Indeterminate K) (id_number : Nat)
    (params : Parameters K) (N : Nat) (time_delta : K) (hN : 1 ≤ N)
    (hdof : params.leg_DOF (params.leg_id id_number) = N) :
    ∃ leg log leg', Leg.ctor h ind id_number params = some (leg, log) ∧
      leg.init h time_delta true = some leg' ∧
      (∀ p ∈ leg'.joint_container_,
        p.2.desired_position = h.clamped 0 p.2.min_position p.2.max_position) ∧
      leg'.joint_container_.tail.map (fun p => p.2.transform) ++ [leg'.tip_.transform]
        = (List.range' 1 N).map (ctorDH h params id_number) ∧
      leg.max_virtual_leg_length_
        = norm h (chainTipOffset
            (leg'.joint_container_.tail.map (fun p => p.2.transform)
              ++ [leg'.tip_.transform])) ∧
      leg'.max_virtual_leg_length_ = leg.max_virtual_leg_length_ := by
  obtain ⟨leg, log, hc, _⟩ := ctor_eq h ind id_number params
  have hs := ctor_chainShape h ind id_number params leg log hc
  have hN' : 1 ≤ params.leg_DOF (params.leg_id id_number) := by omega
  have hs1 := initLoopResult_chainShape h leg _ hs true
  have htr : (leg.initResult h time_delta true).joint_container_.tail.map
        (fun p => p.2.transform) ++ [(leg.initResult h time_delta true).tip_.transform]
      = (List.range' 1 N).map (ctorDH h params id_number) := by
    have h1 := fkResult_transforms h _ _ hs1 hN' time_delta true
    rw [ctor_init_dhList h ind id_number params leg log hc 1 _ le_rfl (by omega), hdof] at h1
    exact h1
  refine ⟨leg, log, _, hc, init_eq h leg _ hs hN' time_delta true,
    initResult_desired_clamped h leg _ hs hN' time_delta, htr, ?_, rfl⟩
  rw [htr, (ctor_fields h ind id_number params leg log hc).2.2.1, hdof]


/-- C11 (the virtual leg lengths are fixed at construction): every leg the constructor returns
has `min_virtual_leg_length_ = 0`; and on every leg state, whatever the joint positions and tip
targets, each of `init`, `applyFK`, `applyIK`, `applyDeltaZ` and `updateTipForce`, whenever it
returns, leaves `max_virtual_leg_length_` and `min_virtual_leg_length_` as they were (on a
chain of `N >= 1` joints each of them does return). -/
theorem C11_virtual_leg_lengths_fixed (h : Helpers K) (ind : Indeterminate K) :
    (∀ id_number params leg log, Leg.ctor h ind id_number params = some (leg, log) →
      leg.min_virtual_leg_length_ = 0) ∧
    ∀ s : Leg K,
      (∀ time_delta flag out, s.init h time_delta flag = some out →
        out.max_virtual_leg_length_ = s.max_virtual_leg_length_ ∧
        out.min_virtual_leg_length_ = s.min_virtual_leg_length_) ∧
      (∀ time_delta set_local out, s.applyFK h time_delta set_local = some out →
        out.1.max_virtual_leg_length_ = s.max_virtual_leg_length_ ∧
        out.1.min_virtual_leg_length_ = s.min_virtual_leg_length_) ∧
      (∀ time_delta clamp_to_limits debug out,
        s.applyIK h time_delta clamp_to_limits debug = some out →
        out.1.max_virtual_leg_length_ = s.max_virtual_leg_length_ ∧
        out.1.min_virtual_leg_length_ = s.min_virtual_leg_length_) ∧
      (∀ tip_position,
        (s.applyDeltaZ tip_position).max_virtual_leg_length_ = s.max_virtual_leg_length_ ∧
        (s.applyDeltaZ tip_position).min_virtual_leg_length_ = s.min_virtual_leg_length_) ∧
      (∀ debug out, s.updateTipForce h ind debug = some out →
        out.max_virtual_leg_length_ = s.max_virtual_leg_length_ ∧
        out.min_virtual_leg_length_ = s.min_virtual_leg_length_) ∧
      (∀ N, 1 ≤ N → s.chainShape N →
        (∀ time_delta flag, ∃ out, s.init h time_delta flag = some out) ∧
        (∀ time_delta set_local, ∃ out, s.applyFK h time_delta set_local = some out) ∧
        (∀ time_delta clamp_to_limits debug,
          ∃ out, s.applyIK h time_delta clamp_to_limits debug = some out) ∧
        (∀ debug, ∃ out, s.updateTipForce h ind debug = some out)) := by
  refine ⟨?_, ?_⟩
  · intro id_number params leg log hc
    exact (ctor_fields h ind id_number params leg log hc).2.2.2
  · intro s
    refine ⟨fun td flag out hout => init_lengths h s td flag out hout,
      fun td sl out hout => applyFK_lengths h s td sl out hout,
      fun td c d out hout => applyIK_lengths h s td c d out hout,
      fun _ => ⟨rfl, rfl⟩,
      fun d out hout => updateTipForce_lengths h ind s d out hout, ?_⟩
    intro N hN hs
    refine ⟨fun td flag => ⟨_, init_eq h s N hs hN td flag⟩,
      fun td sl => ⟨_, applyFK_eq h s N hs hN td sl⟩,
      fun td c d => ⟨_, applyIK_eq h s N hs hN td c d⟩, ?_⟩
    intro d
    obtain ⟨force, hf⟩ := updateTipForce_some h ind s N hs hN d
    exact ⟨_, hf⟩

/-- C14 (leg state gating): for every tip position `p = (x, y, z)` and every `delta_z_`,
`applyDeltaZ(p)` sets `desired_tip_position_` to `p` unchanged when `leg_state_` is `MANUAL`
and to `(x, y, z - delta_z_)` when it is `WALKING`; the x and y components are those of `p` in
every state, and no other member of the leg changes. -/
theorem C14_leg_state_gating (leg : Leg K) (tip_position : Vector3d K) :
    (leg.leg_state_ = LegState.MANUAL →
      (leg.applyDeltaZ tip_position).desired_tip_position_ = tip_position) ∧
    (leg.leg_state_ = LegState.WALKING →
      (leg.applyDeltaZ tip_position).desired_tip_position_
        = ![tip_position 0, tip_position 1, tip_position 2 - leg.delta_z_]) ∧
    (leg.applyDeltaZ tip_position).desired_tip_position_ 0 = tip_position 0 ∧
    (leg.applyDeltaZ tip_position).desired_tip_position_ 1 = tip_position 1 ∧
    leg.applyDeltaZ tip_position
      = { leg with
            desired_tip_position_ := (leg.applyDeltaZ tip_position).desired_tip_position_ } := by
  refine ⟨?_, ?_, ?_, ?_, rfl⟩
  · intro hm
    simp [Leg.applyDeltaZ, hm]
  · intro hw
    simp only [Leg.applyDeltaZ, hw]
    funext i
    fin_cases i <;> simp [Function.update]
  · unfold Leg.applyDeltaZ
    simp only
    split_ifs <;> simp [Function.update]
  · unfold Leg.applyDeltaZ
    simp only
    split_ifs <;> simp [Function.update]


/-- C12 (fatal configuration error, as the code reports it): the constructor of a leg with `N`
joints logs a fatal error naming the joint or link, followed by `ros::shutdown()`, for each
joint parameter set `0..N-1` and link parameter set `0..N` of the leg that is marked not
initialised, and nothing else; so its log holds a fatal error (and a shutdown) if and only if
at least one of these sets is marked not initialised. There is no other failure: in either
case the constructor returns the leg with `N` joints and `N+1` links in the shape of the
chain. -/
theorem C12_fatal_configuration_error (h : Helpers K) (ind : Indeterminate K)
    (id_number : Nat) (params : Parameters K) :
    ∃ leg log, Leg.ctor h ind id_number params = some (leg, log) ∧
      log = ctorLog params (params.leg_id id_number) id_number
        (params.leg_DOF (params.leg_id id_number)) ∧
      (LogEvent.shutdown ∈ log
        ↔ someNotInitialised params id_number (params.leg_DOF (params.leg_id id_number))) ∧
      ((∃ name, LogEvent.fatal name ∈ log)
        ↔ someNotInitialised params id_number (params.leg_DOF (params.leg_id id_number))) ∧
      leg.chainShape (params.leg_DOF (params.leg_id id_number)) ∧
      leg.joint_container_.length = params.leg_DOF (params.leg_id id_number) ∧
      leg.link_container_.length = params.leg_DOF (params.leg_id id_number) + 1 := by
  obtain ⟨leg, log, hc, _⟩ := ctor_eq h ind id_number params
  have hlog := ctor_log h ind id_number params leg log hc
  have hs := ctor_chainShape h ind id_number params leg log hc
  obtain ⟨hl1, hl2⟩ := chainShape_length leg _ hs
  refine ⟨leg, log, hc, hlog, ?_, ?_, hs, hl1, hl2⟩
  · rw [hlog]
    exact (ctorLog_fatal_iff params _ id_number _).1
  · rw [hlog]
    exact (ctorLog_fatal_iff params _ id_number _).2


/-- C15 (pitch plateaus): for every amplitude `A`, every `phaseLength = L > 0` and every buffer
`b = phaseOffset/2` (in particular `b >= 0`), `getPitchCompensation` returns `-A` for every
phase in `[0, L/6 + b)` and `+A` for every phase in `[2L/6 + b, 4L/6 + b)`. -/
theorem C15_pitch_plateaus (walker : WalkController K) (hL : 0 < walker.phaseLength) :
    (0 ≤ walker.phase → walker.phase < walker.phaseLength / 6 + walker.pitchBuffer →
      getPitchCompensation walker = some (-walker.params.pitchAmplitude)) ∧
    (2 * walker.phaseLength / 6 + walker.pitchBuffer ≤ walker.phase →
      walker.phase < 4 * walker.phaseLength / 6 + walker.pitchBuffer →
      getPitchCompensation walker = some walker.params.pitchAmplitude) := by
  exact ⟨getPitchCompensation_low walker, getPitchCompensation_high walker hL⟩

/-- C22 (applyIK never writes `prev_desired_position`): on every leg state, whenever `applyIK`
returns, with either value of `clamp_to_limits`, every joint has the `prev_desired_position`,
`min_position` and `max_position` it had before the call (same joints, same order), and the
leg's `desired_tip_position_` is as it was; on a chain of `N >= 1` joints `applyIK` does
return, and joint `i` of the result has these three members of joint `i` before the call.
Within the model only `Leg::init` assigns `prev_desired_position`: `applyFK`, `applyDeltaZ` and
`updateTipForce` leave it as it was on every joint, the constructor leaves it at the value no
constructor assigns, and `init` sets it to the desired position it has just assigned. -/
theorem C22_applyIK_keeps_prev_desired_position (h : Helpers K) (ind : Indeterminate K) :
    ∀ s : Leg K,
      (∀ time_delta clamp_to_limits debug out,
        s.applyIK h time_delta clamp_to_limits debug = some out →
        out.1.ikFrame = s.ikFrame ∧ out.1.desired_tip_position_ = s.desired_tip_position_) ∧
      (∀ N, 1 ≤ N → s.chainShape N → ∀ time_delta clamp_to_limits debug,
        ∃ out, s.applyIK h time_delta clamp_to_limits debug = some out ∧
          ∀ i, 1 ≤ i → i ≤ N →
            (out.1.jointAt i).prev_desired_position = (s.jointAt i).prev_desired_position ∧
            (out.1.jointAt i).min_position = (s.jointAt i).min_position ∧
            (out.1.jointAt i).max_position = (s.jointAt i).max_position) ∧
      (∀ time_delta set_local out, s.applyFK h time_delta set_local = some out →
        out.1.joint_container_.map (fun p => (p.1, p.2.prev_desired_position))
          = s.joint_container_.map (fun p => (p.1, p.2.prev_desired_position))) ∧
      (∀ tip_position, (s.applyDeltaZ tip_position).joint_container_ = s.joint_container_) ∧
      (∀ debug out, s.updateTipForce h ind debug = some out →
        out.joint_container_ = s.joint_container_) ∧
      (∀ id_number params leg log, Leg.ctor h ind id_number params = some (leg, log) →
        ∀ p ∈ leg.joint_container_,
          p.2.prev_desired_position = ind.prev_desired_position p.1) ∧
      (∀ time_delta flag out, s.init h time_delta flag = some out →
        ∀ p ∈ out.joint_container_, p.2.prev_desired_position = p.2.desired_position ∧
          p.2.desired_position = p.2.current_position) := by
  intro s
  refine ⟨?_, ?_, ?_, fun _ => rfl, ?_, ?_, ?_⟩
  · intro td c d out hout
    have hf := applyIK_frame (fun j : Joint K => j.ikFrame) (fun _ _ => rfl) (fun _ _ => rfl)
      h s td c d out hout
    exact ⟨hf.1, hf.2.2⟩
  · intro N hN hs td c d
    refine ⟨_, applyIK_eq h s N hs hN td c d, ?_⟩
    intro i hi1 hi2
    have hs' := ikLoopResult_chainShape h s N hs c
    have e1 := fkResult_jointAt h (s.ikLoopResult h c) N hs' hN td true i hi1 hi2
    have e2 := ikLoopResult_jointAt h s N hs c i hi1 hi2
    show (((s.ikLoopResult h c).fkResult h td true).jointAt i).prev_desired_position = _ ∧
      (((s.ikLoopResult h c).fkResult h td true).jointAt i).min_position = _ ∧
      (((s.ikLoopResult h c).fkResult h td true).jointAt i).max_position = _
    rw [e1]
    simp only
    rw [e2]
    exact ⟨applyIK_step_frame_of (fun j : Joint K => j.prev_desired_position) (fun _ _ => rfl)
        _ _ _ _,
      applyIK_step_frame_of (fun j : Joint K => j.min_position) (fun _ _ => rfl) _ _ _ _,
      applyIK_step_frame_of (fun j : Joint K => j.max_position) (fun _ _ => rfl) _ _ _ _⟩
  · intro td sl out hout
    exact (applyFK_frame (fun j : Joint K => j.prev_desired_position) (fun _ _ => rfl)
      h s td sl out hout).1
  · intro d out hout
    exact (updateTipForce_frame h ind s d out hout).1
  · intro id_number params leg log hc p hp
    rw [(ctor_fields h ind id_number params leg log hc).1] at hp
    obtain ⟨k, _, rfl⟩ := List.mem_map.mp hp
    exact ctorJoint_prev_desired_position h ind params _ id_number k
  · intro td flag out hout
    exact init_prev_desired_position h s td flag out hout


/-- C23 (the base link's actuating joint is never read): on every leg with a chain of `N >= 1`
joints, each of the links `1..N` has a valid actuating joint; whatever pointer `a` stands in
the base link, the virtual-leg-length loop of the constructor walks the links `1..N` only and
returns the same product, and `applyFK`, `applyIK` and `updateTipForce` return, with the same
results as on the leg itself (the base link keeping its pointer `a`): every joint lookup
they perform succeeds. The constructor returns for every configuration, and the base link of
the leg it builds holds the pointer that was never set. -/
theorem C23_base_actuating_joint_never_read (h : Helpers K) (ind : Indeterminate K)
    (leg : Leg K) (N : Nat) (a : Option Nat) (hN : 1 ≤ N) (hs : leg.chainShape N) :
    (∀ k, 1 ≤ k → k ≤ N → ∃ link joint, mapFind leg.link_container_ k = some link ∧
      link.actuating_joint = some k ∧ mapFind leg.joint_container_ k = some joint) ∧
    mapFind (leg.setBaseActuating a).link_container_ 0
      = some { leg.linkAt 0 with actuating_joint := a } ∧
    (mapFrom (leg.setBaseActuating a).link_container_ 1
        = (List.range' 1 N).map (fun k => (k, leg.linkAt k)) ∧
      ∃ transform,
        Leg.ctor.virtualLoop h (leg.setBaseActuating a).joint_container_ 1
            (mapFrom (leg.setBaseActuating a).link_container_ 1) = some transform ∧
        Leg.ctor.virtualLoop h leg.joint_container_ 1 (mapFrom leg.link_container_ 1)
          = some transform) ∧
    (∀ time_delta set_local, ∃ out, leg.applyFK h time_delta set_local = some out ∧
      (leg.setBaseActuating a).applyFK h time_delta set_local
        = some (out.1.setBaseActuating a, out.2)) ∧
    (∀ time_delta clamp_to_limits debug,
      ∃ out, leg.applyIK h time_delta clamp_to_limits debug = some out ∧
        (leg.setBaseActuating a).applyIK h time_delta clamp_to_limits debug
          = some (out.1.setBaseActuating a, out.2)) ∧
    (∀ debug, ∃ out, leg.updateTipForce h ind debug = some out ∧
      (leg.setBaseActuating a).updateTipForce h ind debug
        = some (out.setBaseActuating a)) ∧
    (∀ id_number params, ∃ built log, Leg.ctor h ind id_number params = some (built, log) ∧
      (built.linkAt 0).actuating_joint = none ∧
      built.chainShape (params.leg_DOF (params.leg_id id_number))) := by
  have hs' := setBaseActuating_chainShape leg N hs a
  refine ⟨?_, ?_, ?_, ?_, ?_, ?_, ?_⟩
  · intro k hk1 hk2
    exact ⟨_, _, chainShape_find_link leg N hs k hk2,
      chainShape_linkAt_actuating leg N hs k hk1 hk2,
      chainShape_find_joint leg N hs k hk1 hk2⟩
  · show mapFind (leg.link_container_.map _) 0 = _
    rw [mapFind_map_val
      (fun p : Nat × Link K => if p.1 = 0 then { p.2 with actuating_joint := a } else p.2),
      chainShape_find_link leg N hs 0 (Nat.zero_le N)]
    rfl
  · have hm : mapFrom (leg.setBaseActuating a).link_container_ 1
        = (List.range' 1 N).map (fun k => (k, leg.linkAt k)) := by
      rw [chainShape_mapFrom _ N hs']
      apply List.map_congr_left
      intro k hk
      have hb := List.mem_range'_1.mp hk
      rw [setBaseActuating_linkAt_pos leg a k (by omega)]
    refine ⟨hm, ((List.range' 1 N).map (leg.virtualDH h)).foldl (fun m t => m * t) 1, ?_, ?_⟩
    · rw [hm]
      exact virtualLoop_chain h leg N hs 1 N (le_refl 1) (by omega) 1
    · rw [chainShape_mapFrom leg N hs]
      exact virtualLoop_chain h leg N hs 1 N (le_refl 1) (by omega) 1
  · intro td sl
    refine ⟨_, applyFK_eq h leg N hs hN td sl, ?_⟩
    rw [applyFK_eq h _ N hs' hN td sl, setBaseActuating_fkResult,
      setBaseActuating_fkPosition]
  · intro td c d
    refine ⟨_, applyIK_eq h leg N hs hN td c d, ?_⟩
    rw [applyIK_eq h _ N hs' hN td c d, setBaseActuating_ikLoopResult,
      setBaseActuating_fkResult, setBaseActuating_fkPosition, setBaseActuating_ikDelta]
    rfl
  · intro d
    refine ⟨_, updateTipForce_eq h ind leg N hs hN d, ?_⟩
    rw [updateTipForce_eq h ind _ N hs' hN d, setBaseActuating_jacobian]
    rfl
  · intro id_number params
    obtain ⟨built, log, hc, -⟩ := ctor_eq h ind id_number params
    refine ⟨built, log, hc, ?_, ctor_chainShape h ind id_number params built log hc⟩
    rw [ctor_linkAt h ind id_number params built log hc 0 (Nat.zero_le _)]
    exact (ctorLink_fields params _ id_number 0).1


end Claims

section DoubleClaims

variable {K : Type} [LinearOrder K]

/-- C17 (roll plateaus, amended): with `p0..p5` the keypoints as `getTiltCompensation` computes
them in the arithmetic of `double` (`ar`), for every amplitude `A` and every parameter set,
the function returns `-A` for every phase in `[p0, p1)`, `+A` for every phase of `[p2, p3)`
that is at or above `p1`, and `-A` for every phase of `[p4, p5)` that is at or above `p1`, `p2`
and `p3`; when the computed keypoints are in order, `p1 <= p2 <= p3 <= p4`, that is all of
`[p2, p3)` and all of `[p4, p5)`. -/
theorem C17_roll_plateaus (ar : DoubleArith K) (walker : WalkController K) :
    ((ar.rollKeypoints walker 0).1 ≤ walker.phase →
      walker.phase < (ar.rollKeypoints walker 1).1 →
      ar.getTiltCompensation walker = some (ar.neg walker.params.rollAmplitude)) ∧
    ((ar.rollKeypoints walker 1).1 ≤ walker.phase →
      (ar.rollKeypoints walker 2).1 ≤ walker.phase →
      walker.phase < (ar.rollKeypoints walker 3).1 →
      ar.getTiltCompensation walker = some walker.params.rollAmplitude) ∧
    ((ar.rollKeypoints walker 1).1 ≤ walker.phase →
      (ar.rollKeypoints walker 2).1 ≤ walker.phase →
      (ar.rollKeypoints walker 3).1 ≤ walker.phase →
      (ar.rollKeypoints walker 4).1 ≤ walker.phase →
      walker.phase < (ar.rollKeypoints walker 5).1 →
      ar.getTiltCompensation walker = some (ar.neg walker.params.rollAmplitude)) ∧
    ((ar.rollKeypoints walker 1).1 ≤ (ar.rollKeypoints walker 2).1 →
      (ar.rollKeypoints walker 2).1 ≤ (ar.rollKeypoints walker 3).1 →
      (ar.rollKeypoints walker 3).1 ≤ (ar.rollKeypoints walker 4).1 →
      ((ar.rollKeypoints walker 2).1 ≤ walker.phase →
        walker.phase < (ar.rollKeypoints walker 3).1 →
        ar.getTiltCompensation walker = some walker.params.rollAmplitude) ∧
      ((ar.rollKeypoints walker 4).1 ≤ walker.phase →
        walker.phase < (ar.rollKeypoints walker 5).1 →
        ar.getTiltCompensation walker = some (ar.neg walker.params.rollAmplitude))) := by
  have low : (ar.rollKeypoints walker 0).1 ≤ walker.phase →
      walker.phase < (ar.rollKeypoints walker 1).1 →
      ar.getTiltCompensation walker = some (ar.neg walker.params.rollAmplitude) := by
    intro h0 h1
    rw [double_getTiltCompensation_eq]
    exact double_keypointWave_first ar _ _ _ _ _ _ _ h0 h1
  have high : (ar.rollKeypoints walker 1).1 ≤ walker.phase →
      (ar.rollKeypoints walker 2).1 ≤ walker.phase →
      walker.phase < (ar.rollKeypoints walker 3).1 →
      ar.getTiltCompensation walker = some walker.params.rollAmplitude := by
    intro h1 h2 h3
    rw [double_getTiltCompensation_eq]
    exact double_keypointWave_third ar _ _ _ _ _ _ _ h1 h2 h3
  have last : (ar.rollKeypoints walker 1).1 ≤ walker.phase →
      (ar.rollKeypoints walker 2).1 ≤ walker.phase →
      (ar.rollKeypoints walker 3).1 ≤ walker.phase →
      (ar.rollKeypoints walker 4).1 ≤ walker.phase →
      walker.phase < (ar.rollKeypoints walker 5).1 →
      ar.getTiltCompensation walker = some (ar.neg walker.params.rollAmplitude) := by
    intro h1 h2 h3 h4 h5
    rw [double_getTiltCompensation_eq]
    exact double_keypointWave_fifth ar _ _ _ _ _ _ _ h1 h2 h3 h4 h5
  refine ⟨low, high, last, fun o12 o23 o34 => ⟨fun h2 h3 => high (o12.trans h2) h2 h3,
    fun h4 h5 => last (o12.trans (o23.trans (o34.trans h4))) (o23.trans (o34.trans h4))
      (o34.trans h4) h4 h5⟩⟩

/-- C18 (unassigned beyond the keypoints, amended): with `p0..p5` the keypoints as the code
computes them in the arithmetic of `double` (`ar`), the value of `getPitchCompensation` is
never assigned exactly when none of its five branch conditions holds, and for a phase at or
above `p0` that is exactly when the phase is at or beyond each of `p1..p5`; the same holds for
`getTiltCompensation` with its keypoints. -/
theorem C18_unassigned_beyond_last_keypoint (ar : DoubleArith K) (walker : WalkController K) :
    (ar.getPitchCompensation walker = none ↔
      ∀ i, ¬ branchCondition (ar.pitchKeypoints walker) walker.phase i) ∧
    ((ar.pitchKeypoints walker 0).1 ≤ walker.phase →
      (ar.getPitchCompensation walker = none ↔
        ∀ i : Fin 5, (ar.pitchKeypoints walker i.succ).1 ≤ walker.phase)) ∧
    (ar.getTiltCompensation walker = none ↔
      ∀ i, ¬ branchCondition (ar.rollKeypoints walker) walker.phase i) ∧
    ((ar.rollKeypoints walker 0).1 ≤ walker.phase →
      (ar.getTiltCompensation walker = none ↔
        ∀ i : Fin 5, (ar.rollKeypoints walker i.succ).1 ≤ walker.phase)) := by
  refine ⟨?_, fun h0 => ?_, ?_, fun h0 => ?_⟩
  · rw [double_getPitchCompensation_eq]
    exact double_keypointWave_eq_none_iff_branch ar _ _
  · rw [double_getPitchCompensation_eq]
    exact double_keypointWave_eq_none_iff_ge ar _ _ h0
  · rw [double_getTiltCompensation_eq]
    exact double_keypointWave_eq_none_iff_branch ar _ _
  · rw [double_getTiltCompensation_eq]
    exact double_keypointWave_eq_none_iff_ge ar _ _ h0

end DoubleClaims


/-! ## The theorems at the concrete inputs -/

section Concrete

theorem legTwo_chainShape : legTwo.chainShape 2 := by
  refine ⟨rfl, rfl, rfl, ?_, ?_, rfl⟩
  · intro p hp
    simp only [legTwo, List.mem_cons, List.mem_singleton, List.not_mem_nil, or_false] at hp
    rcases hp with rfl | rfl <;> rfl
  · intro p hp _
    simp only [legTwo, List.mem_cons, List.mem_singleton, List.not_mem_nil, or_false] at hp
    rcases hp with rfl | rfl | rfl
    · omega
    · rfl
    · rfl

theorem legTwoMoving_chainShape : legTwoMoving.chainShape 2 := by
  refine ⟨rfl, rfl, rfl, ?_, ?_, rfl⟩
  · intro p hp
    simp only [legTwoMoving, List.mem_cons, List.mem_singleton, List.not_mem_nil,
      or_false] at hp
    rcases hp with rfl | rfl <;> rfl
  · exact legTwo_chainShape.2.2.2.2.1

theorem legTwoSensed_chainShape : legTwoSensed.chainShape 2 := by
  refine ⟨rfl, rfl, rfl, ?_, ?_, rfl⟩
  · intro p hp
    simp only [legTwoSensed, List.mem_cons, List.mem_singleton, List.not_mem_nil,
      or_false] at hp
    rcases hp with rfl | rfl <;> rfl
  · exact legTwo_chainShape.2.2.2.2.1

/-- Witness of C1: the concrete chain at rest satisfies the hypotheses, so `applyIK` with
clamping computes the zero vector. -/
theorem C1_fk_ik_round_trip_witness :
    legTwo.chainShape 2 ∧ legTwo.desired_tip_position_ = legTwo.local_tip_position_ ∧
    legTwo.joint_delta_pos helpersChain = some 0 :=
  ⟨legTwo_chainShape, rfl,
    (C1_fk_ik_round_trip helpersChain legTwo 2 (1 / 50) true false (by decide)
      legTwo_chainShape
      (by
        intro p hp
        simp only [legTwo, List.mem_cons, List.mem_singleton, List.not_mem_nil,
          or_false] at hp
        rcases hp with rfl | rfl
        · simp only [jointTwo]; norm_num
        · simp only [jointTwo]; norm_num)
      rfl).1⟩

theorem foldl_mul_mulVec {K : Type} [LinearOrderedField K] (ts : List (Matrix4d K))
    (a : Matrix4d K) (v : Vector4d K) :
    (ts.foldl (fun m t => m * t) a).mulVec v
      = a.mulVec (ts.foldr (fun t w => t.mulVec w) v) := by
  induction ts generalizing a with
  | nil => rfl
  | cons t rest ih => rw [List.foldl_cons, ih, List.foldr_cons, Matrix.mulVec_mulVec]

theorem chainTipOffset_eq {K : Type} [LinearOrderedField K] (ts : List (Matrix4d K)) :
    chainTipOffset ts
      = ![ts.foldr (fun t w => t.mulVec w) ![0, 0, 0, 1] 0,
          ts.foldr (fun t w => t.mulVec w) ![0, 0, 0, 1] 1,
          ts.foldr (fun t w => t.mulVec w) ![0, 0, 0, 1] 2] := by
  unfold chainTipOffset
  simp only [foldl_mul_mulVec, Matrix.one_mulVec]

theorem dhFirstOrder_mulVec (theta r x y z : ℚ) :
    (dhFirstOrder 0 theta r 0).mulVec ![x, y, z, 1]
      = ![x - theta * y + r, theta * x + y + r * theta, z, 1] := by
  funext i
  fin_cases i
  all_goals
    simp [dhFirstOrder, dhMatrixWith, Matrix.mulVec, Matrix.dotProduct, Fin.sum_univ_four]
  all_goals ring

/-- Witness of C2: the hypotheses hold on the concrete chain with a tip target away from the
local tip position, so `applyIK` with clamping returns. -/
theorem C2_limit_clamping_witness :
    legTwoMoving.chainShape 2 ∧
    ∃ out, legTwoMoving.applyIK helpersChain (1 / 50) true false = some out :=
  ⟨legTwoMoving_chainShape, by
    obtain ⟨_, out, _, hout, _⟩ :=
      C2_limit_clamping helpersChain legTwoMoving 2 (1 / 50) false (by decide)
        legTwoMoving_chainShape
    exact ⟨out, hout⟩⟩

/-- Witness of C4: the hypotheses hold on the concrete chain with a tip target away from the
local tip position, so `applyIK` without clamping returns. -/
theorem C4_incremental_ik_step_witness :
    legTwoMoving.chainShape 2 ∧
    ∃ out, legTwoMoving.applyIK helpersChain (1 / 50) false false = some out :=
  ⟨legTwoMoving_chainShape, by
    obtain ⟨out, hout, _⟩ :=
      C4_incremental_ik_step helpersChain legTwoMoving 2 (1 / 50) false (by decide)
        legTwoMoving_chainShape
    exact ⟨out, hout⟩⟩

/-- Witness of C6: the concrete chain at rest has an assigned local tip position `(3, 1/2, 0)`,
so `applyFK` with `set_local = true` returns, stores the tip position it returns and sets the
tip velocity from the difference to the previous local tip position. -/
theorem C6_fk_tip_velocity_witness :
    legTwo.chainShape 2 ∧ legTwo.localTipState helpersChain ∧
    ∃ out tip, legTwo.applyFK helpersChain (1 / 50) true = some (out, tip) ∧
      out.local_tip_position_ = tip ∧
      out.desired_tip_velocity_
        = fun i => (tip i - legTwo.local_tip_position_ i) / (1 / 50) := by
  have hstate : legTwo.localTipState helpersChain := by
    right
    show (3 : ℚ) ≠ 10000000000
    norm_num
  have hne : legTwo.local_tip_position_
      ≠ ![helpersChain.UNASSIGNED_VALUE, helpersChain.UNASSIGNED_VALUE,
          helpersChain.UNASSIGNED_VALUE] := by
    intro hc
    have h0 := congrFun hc 0
    have h1 : (3 : ℚ) = 10000000000 := h0
    norm_num at h1
  obtain ⟨out, _, tip, hout, _, hl, hv, _⟩ :=
    C6_fk_tip_velocity helpersChain legTwo 2 (1 / 50) (by decide) legTwo_chainShape hstate
  exact ⟨legTwo_chainShape, hstate, out, tip, hout, hl, hv hne⟩

theorem legTwo_fkAgree_legTwoSensed : legTwo.fkAgree legTwoSensed := by
  refine ⟨?_, rfl, ?_, rfl⟩
  · exact List.Forall₂.cons ⟨rfl, rfl, rfl⟩ (List.Forall₂.cons ⟨rfl, rfl, rfl⟩ List.Forall₂.nil)
  · exact List.Forall₂.cons ⟨rfl, rfl, rfl, rfl, rfl⟩
      (List.Forall₂.cons ⟨rfl, rfl, rfl, rfl, rfl⟩
        (List.Forall₂.cons ⟨rfl, rfl, rfl, rfl, rfl⟩ List.Forall₂.nil))

/-- Witness of C7: the concrete chain at rest and the same chain with other sensed values and
previous desired positions agree, so `applyFK` returns and writes the same. -/
theorem C7_fk_function_of_desired_positions_witness :
    legTwo.fkAgree legTwoSensed ∧
    (legTwo.applyFK helpersChain (1 / 50) true).map fkOutput
      = (legTwoSensed.applyFK helpersChain (1 / 50) true).map fkOutput :=
  ⟨legTwo_fkAgree_legTwoSensed,
    (C7_fk_function_of_desired_positions helpersChain legTwo legTwoSensed (1 / 50) true
      legTwo_fkAgree_legTwoSensed).1⟩

/-- Witness of C8: the hypotheses hold on the concrete chain with sensed values, so `init`
with the default positions returns a leg whose desired and local tip positions are equal. -/
theorem C8_init_postcondition_witness :
    legTwoSensed.chainShape 2 ∧
    ∃ leg', legTwoSensed.init helpersChain (1 / 50) true = some leg' ∧
      leg'.desired_tip_position_ = leg'.local_tip_position_ :=
  ⟨legTwoSensed_chainShape, by
    obtain ⟨leg', hinit, _, _, htip, _⟩ :=
      C8_init_postcondition helpersChain legTwoSensed 2 (1 / 50) true (by decide)
        legTwoSensed_chainShape
    exact ⟨leg', hinit, htip⟩⟩

/-- Witness of C9: the configuration with two joints per leg satisfies the hypotheses, so the
constructor returns a leg with two joints and three links. -/
theorem C9_chain_shape_invariant_witness :
    paramsTwoJoints.leg_DOF (paramsTwoJoints.leg_id 0) = 2 ∧
    ∃ leg log, Leg.ctor helpersChain indeterminateZero 0 paramsTwoJoints = some (leg, log) ∧
      leg.joint_container_.length = 2 ∧ leg.link_container_.length = 3 :=
  ⟨rfl, by
    obtain ⟨leg, log, hc, _, _, h1, h2, _⟩ :=
      C9_chain_shape_invariant helpersChain indeterminateZero 0 paramsTwoJoints 2 (by decide)
        rfl
    exact ⟨leg, log, hc, h1, h2⟩⟩

/-- Witness of C10: the configuration with two joints per leg satisfies the hypotheses, so
the constructor and `init(true)` return and `init` keeps `max_virtual_leg_length_`. -/
theorem C10_max_virtual_leg_length_witness :
    paramsTwoJoints.leg_DOF (paramsTwoJoints.leg_id 0) = 2 ∧
    ∃ leg log leg', Leg.ctor helpersChain indeterminateZero 0 paramsTwoJoints
        = some (leg, log) ∧
      leg.init helpersChain (1 / 50) true = some leg' ∧
      leg'.max_virtual_leg_length_ = leg.max_virtual_leg_length_ :=
  ⟨rfl, by
    obtain ⟨leg, log, leg', hc, hinit, _, _, _, hm⟩ :=
      C10_max_virtual_leg_length helpersChain indeterminateZero 0 paramsTwoJoints 2 (1 / 50)
        (by decide) rfl
    exact ⟨leg, log, leg', hc, hinit, hm⟩⟩

theorem ctorDH_twoJoints (g : List (Matrix4d ℚ) → Matrix4d ℚ → Vector3d ℚ) (k : Nat) :
    ctorDH (helpersWith g) paramsTwoJoints 0 k = dhFirstOrder 0 0 1 0 := by
  have hc : clampedStd 0 (-1) 1 = 0 := by
    unfold clampedStd
    norm_num
  show dhFirstOrder 0 (clampedStd 0 (-1) 1) 1 0 = dhFirstOrder 0 0 1 0
  rw [hc]

theorem ratSqrt_sq (n : Nat) : ratSqrt ((n : ℚ) * (n : ℚ)) = (n : ℚ) := by
  have h1 : ((n : ℚ) * (n : ℚ)) = ((n * n : Nat) : ℚ) := by push_cast; ring
  unfold ratSqrt
  rw [h1, Rat.num_natCast, Rat.den_natCast, Int.toNat_ofNat, Nat.sqrt_eq]
  simp

/-- On the configuration with two joints per leg: the constructed `max_virtual_leg_length_` is
2, and after `init(true)` the tip position `applyFK` returns is `getPositionWorldFrame` at the
three unit translations along x. -/
theorem twoJoints_lengths (g : List (Matrix4d ℚ) → Matrix4d ℚ → Vector3d ℚ) :
    ∃ leg log leg' r,
      Leg.ctor (helpersWith g) indeterminateZero 0 paramsTwoJoints = some (leg, log) ∧
      leg.init (helpersWith g) (1 / 50) true = some leg' ∧
      (∀ p ∈ leg'.joint_container_,
        p.2.desired_position
          = (helpersWith g).clamped 0 p.2.min_position p.2.max_position) ∧
      leg'.applyFK (helpersWith g) (1 / 50) false = some r ∧
      leg.max_virtual_leg_length_ = 2 ∧
      r.2 = g [dhFirstOrder 0 0 1 0, dhFirstOrder 0 0 1 0] (dhFirstOrder 0 0 1 0) := by
  obtain ⟨leg, log, hc, _⟩ := ctor_eq (helpersWith g) indeterminateZero 0 paramsTwoJoints
  have hs := ctor_chainShape (helpersWith g) indeterminateZero 0 paramsTwoJoints leg log hc
  have hN : 1 ≤ paramsTwoJoints.leg_DOF (paramsTwoJoints.leg_id 0) := by decide
  have hs3 := initResult_chainShape (helpersWith g) leg _ hs hN (1 / 50) true
  refine ⟨leg, log, _, _, hc, init_eq (helpersWith g) leg _ hs hN (1 / 50) true,
    initResult_desired_clamped (helpersWith g) leg _ hs hN (1 / 50),
    applyFK_eq (helpersWith g) _ _ hs3 hN (1 / 50) false, ?_, ?_⟩
  · rw [(ctor_fields (helpersWith g) indeterminateZero 0 paramsTwoJoints leg log hc).2.2.1]
    have hl : List.range' 1 (paramsTwoJoints.leg_DOF (paramsTwoJoints.leg_id 0)) = [1, 2] := rfl
    rw [hl]
    simp only [List.map_cons, List.map_nil, ctorDH_twoJoints, chainTipOffset_eq,
      List.foldr_cons, List.foldr_nil, dhFirstOrder_mulVec]
    have hn : norm (helpersWith g) ![(2 : ℚ), 0, 0] = ratSqrt ((2 : Nat) * (2 : Nat)) := by
      simp [norm, helpersWith]
    norm_num
    rw [hn, ratSqrt_sq]
    norm_num
  · show (leg.initResult (helpersWith g) (1 / 50) true).fkPosition (helpersWith g) = _
    rw [initResult_fkPosition (helpersWith g) leg _ hs hN (1 / 50) true,
      ctor_init_position (helpersWith g) indeterminateZero 0 paramsTwoJoints leg log hc hN
        (1 / 50)]
    have hl : List.range' 1 (paramsTwoJoints.leg_DOF (paramsTwoJoints.leg_id 0) - 1) = [1] :=
      rfl
    have ht : (ctorJoint (helpersWith g) indeterminateZero paramsTwoJoints
        (paramsTwoJoints.leg_id 0) 0 1).transform = dhFirstOrder 0 0 1 0 := rfl
    rw [hl, ht]
    simp only [List.map_cons, List.map_nil, ctorDH_twoJoints]
    rfl

/-- Counterexample to C10 as stated: on the configuration with two joints per leg and every
link (the base link included) a unit translation along x, `max_virtual_leg_length_` is 2,
while the norm of the tip position `applyFK` yields at the clamped zero angles is 1 when the
tip position is the tip transform applied to the origin, and 3 when it is the product of the
transforms of the chain applied to the origin. -/
theorem C10_counterexample :
    (∃ leg log leg' r,
      Leg.ctor helpersTipOnly indeterminateZero 0 paramsTwoJoints = some (leg, log) ∧
      leg.init helpersTipOnly (1 / 50) true = some leg' ∧
      (∀ p ∈ leg'.joint_container_,
        p.2.desired_position = helpersTipOnly.clamped 0 p.2.min_position p.2.max_position) ∧
      leg'.applyFK helpersTipOnly (1 / 50) false = some r ∧
      leg.max_virtual_leg_length_ = 2 ∧ norm helpersTipOnly r.2 = 1 ∧
      leg.max_virtual_leg_length_ ≠ norm helpersTipOnly r.2) ∧
    (∃ leg log leg' r,
      Leg.ctor helpersChain indeterminateZero 0 paramsTwoJoints = some (leg, log) ∧
      leg.init helpersChain (1 / 50) true = some leg' ∧
      (∀ p ∈ leg'.joint_container_,
        p.2.desired_position = helpersChain.clamped 0 p.2.min_position p.2.max_position) ∧
      leg'.applyFK helpersChain (1 / 50) false = some r ∧
      leg.max_virtual_leg_length_ = 2 ∧ norm helpersChain r.2 = 3 ∧
      leg.max_virtual_leg_length_ ≠ norm helpersChain r.2) := by
  refine ⟨?_, ?_⟩
  · obtain ⟨leg, log, leg', r, hc, hinit, hdes, hfk, hmax, hr⟩ :=
      twoJoints_lengths tipTransformOrigin
    have hn : norm helpersTipOnly r.2 = 1 := by
      rw [hr]
      simp only [tipTransformOrigin, chainTipOffset_eq, List.foldr_cons, List.foldr_nil,
        dhFirstOrder_mulVec]
      have h1 : norm helpersTipOnly ![(1 : ℚ), 0, 0] = ratSqrt ((1 : Nat) * (1 : Nat)) := by
        simp [norm, helpersTipOnly, helpersWith]
      norm_num
      rw [h1, ratSqrt_sq]
      norm_num
    exact ⟨leg, log, leg', r, hc, hinit, hdes, hfk, hmax, hn, by rw [hmax, hn]; norm_num⟩
  · obtain ⟨leg, log, leg', r, hc, hinit, hdes, hfk, hmax, hr⟩ :=
      twoJoints_lengths chainTransformOrigin
    have hn : norm helpersChain r.2 = 3 := by
      rw [hr]
      simp only [chainTransformOrigin, chainTipOffset_eq, List.cons_append, List.nil_append,
        List.foldr_cons, List.foldr_nil, dhFirstOrder_mulVec]
      have h1 : norm helpersChain ![(3 : ℚ), 0, 0] = ratSqrt ((3 : Nat) * (3 : Nat)) := by
        simp [norm, helpersChain, helpersWith]
      norm_num
      rw [h1, ratSqrt_sq]
      norm_num
    exact ⟨leg, log, leg', r, hc, hinit, hdes, hfk, hmax, hn, by rw [hmax, hn]; norm_num⟩


/-- Counterexample to C12 as stated: with the parameter set of link 1 marked not initialised
the constructor logs the fatal error and the shutdown, and still returns a leg with two joints
and three links in the shape of the chain: a Joint/Link/Leg does result. -/
theorem C12_counterexample :
    (paramsLinkNotInitialised.link_parameters 0 1).initialised = false ∧
    ∃ leg log,
      Leg.ctor helpersChain indeterminateZero 0 paramsLinkNotInitialised = some (leg, log) ∧
      log = [LogEvent.fatal "AR_link_link", LogEvent.shutdown] ∧
      leg.joint_container_.length = 2 ∧ leg.link_container_.length = 3 ∧
      leg.chainShape 2 := by
  refine ⟨rfl, ?_⟩
  obtain ⟨leg, log, hc, _⟩ :=
    ctor_eq helpersChain indeterminateZero 0 paramsLinkNotInitialised
  have hlog := ctor_log helpersChain indeterminateZero 0 paramsLinkNotInitialised leg log hc
  have hs := ctor_chainShape helpersChain indeterminateZero 0 paramsLinkNotInitialised leg
    log hc
  obtain ⟨hl1, hl2⟩ := chainShape_length leg _ hs
  refine ⟨leg, log, hc, ?_, hl1, hl2, hs⟩
  rw [hlog]
  rfl


theorem walkerWith_phaseLength (a r st sw po ph : ℚ) :
    (walkerWith a r st sw po ph).phaseLength = st + sw := rfl

theorem walkerWith_phase (a r st sw po ph : ℚ) : (walkerWith a r st sw po ph).phase = ph := rfl

theorem walkerWith_pitchBuffer (a r st sw po ph : ℚ) :
    (walkerWith a r st sw po ph).pitchBuffer = po / 2 := rfl

/-- Witness of C15: with `L = 1`, `A = 1` and `phaseOffset = 1/5` the pitch is `-1` at phase
`0` and `+1` at phase `1/2`. -/
theorem C15_pitch_plateaus_witness :
    0 < (walkerWith 1 1 (4 / 5) (1 / 5) (1 / 5) 0).phaseLength ∧
    (walkerWith 1 1 (4 / 5) (1 / 5) (1 / 5) 0).phaseLength = 1 ∧
    getPitchCompensation (walkerWith 1 1 (4 / 5) (1 / 5) (1 / 5) 0) = some (-1) ∧
    getPitchCompensation (walkerWith 1 1 (4 / 5) (1 / 5) (1 / 5) (1 / 2)) = some 1 :=
  ⟨by norm_num [walkerWith_phaseLength], by norm_num [walkerWith_phaseLength],
    (C15_pitch_plateaus (walkerWith 1 1 (4 / 5) (1 / 5) (1 / 5) 0)
      (by norm_num [walkerWith_phaseLength])).1
      (by norm_num [walkerWith_phase])
      (by norm_num [walkerWith_phase, walkerWith_phaseLength, walkerWith_pitchBuffer]),
    (C15_pitch_plateaus (walkerWith 1 1 (4 / 5) (1 / 5) (1 / 5) (1 / 2))
      (by norm_num [walkerWith_phaseLength])).2
      (by norm_num [walkerWith_phase, walkerWith_phaseLength, walkerWith_pitchBuffer])
      (by norm_num [walkerWith_phase, walkerWith_phaseLength, walkerWith_pitchBuffer])⟩

/-- Witness of C22: on the concrete chain with a tip target away from the local tip position
`applyIK` with clamping returns, and the joints' previous desired positions and limits and
the desired tip position are as before the call. -/
theorem C22_applyIK_keeps_prev_desired_position_witness :
    legTwoMoving.chainShape 2 ∧
    ∃ out, legTwoMoving.applyIK helpersChain (1 / 50) true false = some out ∧
      out.1.ikFrame = legTwoMoving.ikFrame ∧
      out.1.desired_tip_position_ = legTwoMoving.desired_tip_position_ :=
  ⟨legTwoMoving_chainShape, by
    obtain ⟨hframe, htotal, _⟩ :=
      C22_applyIK_keeps_prev_desired_position helpersChain indeterminateZero legTwoMoving
    obtain ⟨out, hout, _⟩ := htotal 2 (by decide) legTwoMoving_chainShape (1 / 50) true false
    exact ⟨out, hout, hframe _ _ _ out hout⟩⟩


/-- Witness of C23: on the concrete chain, with the dangling key `7` as the pointer of the base
link, `applyFK` returns what it returns on the chain itself. -/
theorem C23_base_actuating_joint_never_read_witness :
    1 ≤ 2 ∧ legTwo.chainShape 2 ∧
    ∃ out, legTwo.applyFK helpersChain (1 / 50) true = some out ∧
      (legTwo.setBaseActuating (some 7)).applyFK helpersChain (1 / 50) true
        = some (out.1.setBaseActuating (some 7), out.2) :=
  ⟨by decide, legTwo_chainShape,
    (C23_base_actuating_joint_never_read helpersChain indeterminateZero legTwo 2 (some 7)
      (by decide) legTwo_chainShape).2.2.2.1 (1 / 50) true⟩


/-- The binary64 arithmetic on familiar values: `0.1` is `3602879701896397 / 2^55`,
`0.1 + 0.2` is `0.30000000000000004`, `6 * 0.7 / 6` is `0.6999999999999998`, and
`0.1 * (10 * 0.7)` is `0.7000000000000001`. -/
theorem binary64_examples :
    decimal 1 10 * 2 ^ 55 = 3602879701896397 * (binary64Unit : Int) ∧
    binary64.add (decimal 1 10) (decimal 2 10)
      = decimal 30000000000000004 100000000000000000 ∧
    binary64.div (binary64.mul (binary64.ofInt 6) (decimal 7 10)) (binary64.ofInt 6)
      = decimal 6999999999999998 10000000000000000 ∧
    binary64.mul (decimal 1 10) (binary64.mul (binary64.ofInt 10) (decimal 7 10))
      = decimal 7000000000000001 10000000000000000 := by
  refine ⟨?_, ?_, ?_, ?_⟩ <;> decide!

/-- Witness of C17 (binary64, wave gait): with `stancePhase = 10`, `swingPhase = 2` and `A = 1`
the computed keypoints are `p1 = p2 = 1`, `p3 = p4 = 7`, `p5 = 12`, and the roll at phase `9`
is `-1`. -/
theorem C17_roll_plateaus_witness :
    binary64.getTiltCompensation
      (walkerBinary64 (decimal 1 1) (decimal 1 1) (decimal 10 1) (decimal 2 1) (decimal 2 1)
        (decimal 9 1))
      = some (binary64.neg (decimal 1 1)) :=
  ((C17_roll_plateaus binary64
    (walkerBinary64 (decimal 1 1) (decimal 1 1) (decimal 10 1) (decimal 2 1) (decimal 2 1)
      (decimal 9 1))).2.2.2 (by decide!) (by decide!) (by decide!)).2 (by decide!) (by decide!)

/-- Counterexample to C17 as stated (binary64). With `stancePhase = 3`, `swingPhase = 3`
(`L = 6`, `buffer = 3/2`, all values exact) and `A = 1`, the phase `3` lies in
`[4L/6 - buffer, L) = [5/2, 6)`, yet `getTiltCompensation` returns `+1`, not `-1`: the third
branch, tested first, holds. With `stancePhase = 0.6`, `swingPhase = 0.1` (`L = 0.6 + 0.1` is
the `double` `0.7`, `buffer = 0.05 <= L/12`) the phase `0.6999999999999998` lies in
`[4L/6 - buffer, L)`, at or above `3L/6 + buffer`, yet no value is assigned: the last keypoint
`6*L/6` is computed as `0.6999999999999998`. -/
theorem C17_counterexample :
    ((0 : Int) ≤ decimal 3 1 ∧
      binary64.phaseLength
        (walkerBinary64 (decimal 1 1) (decimal 1 1) (decimal 3 1) (decimal 3 1) (decimal 0 1)
          (decimal 3 1)) = decimal 6 1 ∧
      (binary64.rollKeypoints
        (walkerBinary64 (decimal 1 1) (decimal 1 1) (decimal 3 1) (decimal 3 1) (decimal 0 1)
          (decimal 3 1)) 4).1 = decimal 5 2 ∧
      decimal 5 2 ≤ decimal 3 1 ∧ decimal 3 1 < decimal 6 1 ∧
      binary64.getTiltCompensation
        (walkerBinary64 (decimal 1 1) (decimal 1 1) (decimal 3 1) (decimal 3 1) (decimal 0 1)
          (decimal 3 1)) = some (decimal 1 1) ∧
      decimal 1 1 ≠ binary64.neg (decimal 1 1)) ∧
    ((0 : Int) ≤ decimal 6 10 ∧ (0 : Int) ≤ decimal 1 10 ∧
      binary64.phaseLength
        (walkerBinary64 (decimal 1 1) (decimal 1 1) (decimal 6 10) (decimal 1 10) (decimal 0 1)
          (decimal 6999999999999998 10000000000000000)) = decimal 7 10 ∧
      (binary64.rollKeypoints
        (walkerBinary64 (decimal 1 1) (decimal 1 1) (decimal 6 10) (decimal 1 10) (decimal 0 1)
          (decimal 6999999999999998 10000000000000000)) 3).1
        ≤ decimal 6999999999999998 10000000000000000 ∧
      (binary64.rollKeypoints
        (walkerBinary64 (decimal 1 1) (decimal 1 1) (decimal 6 10) (decimal 1 10) (decimal 0 1)
          (decimal 6999999999999998 10000000000000000)) 4).1
        ≤ decimal 6999999999999998 10000000000000000 ∧
      decimal 6999999999999998 10000000000000000 < decimal 7 10 ∧
      binary64.getTiltCompensation
        (walkerBinary64 (decimal 1 1) (decimal 1 1) (decimal 6 10) (decimal 1 10) (decimal 0 1)
          (decimal 6999999999999998 10000000000000000)) = none) := by
  refine ⟨⟨?_, ?_, ?_, ?_, ?_, ?_, ?_⟩, ⟨?_, ?_, ?_, ?_, ?_, ?_, ?_⟩⟩ <;> decide!

/-- Witness of C18 (binary64, wave gait): with `stancePhase = 10`, `swingPhase = 2`,
`phaseOffset = 2`, at phase `12 = L` the phase is at or beyond every keypoint and neither
waveform is assigned. -/
theorem C18_unassigned_beyond_last_keypoint_witness :
    binary64.getPitchCompensation
      (walkerBinary64 (decimal 1 1) (decimal 1 1) (decimal 10 1) (decimal 2 1) (decimal 2 1)
        (decimal 12 1)) = none ∧
    binary64.getTiltCompensation
      (walkerBinary64 (decimal 1 1) (decimal 1 1) (decimal 10 1) (decimal 2 1) (decimal 2 1)
        (decimal 12 1)) = none :=
  ⟨((C18_unassigned_beyond_last_keypoint binary64
      (walkerBinary64 (decimal 1 1) (decimal 1 1) (decimal 10 1) (decimal 2 1) (decimal 2 1)
        (decimal 12 1))).2.1 (by decide!)).mpr (by decide!),
    ((C18_unassigned_beyond_last_keypoint binary64
      (walkerBinary64 (decimal 1 1) (decimal 1 1) (decimal 10 1) (decimal 2 1) (decimal 2 1)
        (decimal 12 1))).2.2.2 (by decide!)).mpr (by decide!)⟩

/-- Counterexample to C18 as stated (binary64). With `stancePhase = 0.3`, `swingPhase = 0.1`,
`phaseOffset = 0` and `A = 1`: `L = 0.3 + 0.1` is the `double` `0.4`, the last keypoint
`6*L/6` is computed as `0.4000000000000001 > L`, so at phase `L` the fifth branch condition of
both functions holds and `-1` is assigned. With `stancePhase = swingPhase = 2`,
`phaseOffset = 2` (`L = 4`, `buffer = 1 >= 0`): at phase `4 = L` the fourth branch condition
of `getPitchCompensation` holds and a value is assigned. -/
theorem C18_counterexample :
    (binary64.phaseLength
        (walkerBinary64 (decimal 1 1) (decimal 1 1) (decimal 3 10) (decimal 1 10) (decimal 0 1)
          (decimal 4 10)) = decimal 4 10 ∧
      (0 : Int) < decimal 4 10 ∧
      (binary64.pitchKeypoints
        (walkerBinary64 (decimal 1 1) (decimal 1 1) (decimal 3 10) (decimal 1 10) (decimal 0 1)
          (decimal 4 10)) 5).1 = decimal 4000000000000001 10000000000000000 ∧
      branchCondition
        (binary64.pitchKeypoints
          (walkerBinary64 (decimal 1 1) (decimal 1 1) (decimal 3 10) (decimal 1 10)
            (decimal 0 1) (decimal 4 10))) (decimal 4 10) 4 ∧
      binary64.getPitchCompensation
        (walkerBinary64 (decimal 1 1) (decimal 1 1) (decimal 3 10) (decimal 1 10) (decimal 0 1)
          (decimal 4 10)) = some (binary64.neg (decimal 1 1)) ∧
      branchCondition
        (binary64.rollKeypoints
          (walkerBinary64 (decimal 1 1) (decimal 1 1) (decimal 3 10) (decimal 1 10)
            (decimal 0 1) (decimal 4 10))) (decimal 4 10) 4 ∧
      binary64.getTiltCompensation
        (walkerBinary64 (decimal 1 1) (decimal 1 1) (decimal 3 10) (decimal 1 10) (decimal 0 1)
          (decimal 4 10)) = some (binary64.neg (decimal 1 1))) ∧
    (binary64.phaseLength
        (walkerBinary64 (decimal 1 1) (decimal 1 1) (decimal 2 1) (decimal 2 1) (decimal 2 1)
          (decimal 4 1)) = decimal 4 1 ∧
      branchCondition
        (binary64.pitchKeypoints
          (walkerBinary64 (decimal 1 1) (decimal 1 1) (decimal 2 1) (decimal 2 1) (decimal 2 1)
            (decimal 4 1))) (decimal 4 1) 3 ∧
      binary64.getPitchCompensation
        (walkerBinary64 (decimal 1 1) (decimal 1 1) (decimal 2 1) (decimal 2 1) (decimal 2 1)
          (decimal 4 1)) = some (decimal 0 1)) := by
  refine ⟨⟨?_, ?_, ?_, ?_, ?_, ?_, ?_⟩, ⟨?_, ?_, ?_⟩⟩ <;> decide!

/-- C21 (the waveforms never exceed the amplitude), evaluated in binary64 at
`rollAmplitude = 1`, `stancePhase = 0.9`, `swingPhase = 0.18` (`L = 1.08`, `buffer = 0.09`) and
phase `0.63`, which lies in `[0, L)`: the keypoints `p3 = 3L/6 + buffer` and
`p4 = 4L/6 - buffer`, equal in exact arithmetic, are computed as `0.63` and
`0.6300000000000001`, the fourth branch (the falling ramp) is entered and
`getTiltCompensation` returns `2`, outside `[-1, 1]`. -/
theorem C21_roll_exceeds_amplitude :
    binary64.phaseLength
      (walkerBinary64 (decimal 1 1) (decimal 1 1) (decimal 9 10) (decimal 18 100) (decimal 0 1)
        (decimal 63 100)) = decimal 108 100 ∧
    (0 : Int) ≤ decimal 63 100 ∧ decimal 63 100 < decimal 108 100 ∧
    (binary64.rollKeypoints
      (walkerBinary64 (decimal 1 1) (decimal 1 1) (decimal 9 10) (decimal 18 100) (decimal 0 1)
        (decimal 63 100)) 3).1 = decimal 63 100 ∧
    (binary64.rollKeypoints
      (walkerBinary64 (decimal 1 1) (decimal 1 1) (decimal 9 10) (decimal 18 100) (decimal 0 1)
        (decimal 63 100)) 4).1 = decimal 6300000000000001 10000000000000000 ∧
    binary64.getTiltCompensation
      (walkerBinary64 (decimal 1 1) (decimal 1 1) (decimal 9 10) (decimal 18 100) (decimal 0 1)
        (decimal 63 100)) = some (decimal 2 1) ∧
    ¬ (decimal 2 1 ≤ |decimal 1 1|) := by
  refine ⟨?_, ?_, ?_, ?_, ?_, ?_, ?_⟩ <;> decide!

end Concrete

end Syropod
